import Mathlib

/-!
kubectl-vmss: identity parser, output decoder and run pipeline.

A shallow embedding of `pkg/vmss/vmss.go` and of the commands under `pkg/cmd`
(run, exec, logs, cilium, get pods), with the properties of the specification
proved about it.

Go strings are modelled as lists of Unicode characters (`Str`), that is, as
valid UTF-8 text.  The functions of the Go standard library that the program
calls (`strings.HasPrefix`, `strings.Index`, `strings.Split`, `strings.SplitN`,
`strings.ToLower`, `strings.TrimSpace`, `json.Unmarshal`) are modelled next to
the program's own functions and keep their Go names.
-/

set_option autoImplicit false

namespace Vmss

/-! ## Strings -/

/-- A Go string, as the list of its characters. -/
abbrev Str := List Char

/-- Go `strings.HasPrefix`. -/
def HasPrefix (s pre : Str) : Bool := pre.isPrefixOf s

/-- Go `strings.Index`: position of the first occurrence of `sub` in `s`,
`none` standing for Go's `-1`. -/
def Index : Str → Str → Option Nat
  | [], sub => if sub.isPrefixOf [] then some 0 else none
  | c :: s, sub => if sub.isPrefixOf (c :: s) then some 0 else (Index s sub).map (· + 1)

/-- The loop of Go `strings.genSplit` for a non-empty separator: at most `n`
cuts, each at the first occurrence of `sep` in what is left. -/
def genSplit : Nat → Str → Str → List Str
  | 0, s, _ => [s]
  | n + 1, s, sep =>
    match Index s sep with
    | none => [s]
    | some m => s.take m :: genSplit n (s.drop (m + sep.length)) sep

/-- Go `strings.Split s sep` for a non-empty `sep`.  Go cuts `Count s sep`
times; the loop also stops when `Index` finds nothing, which happens after
exactly that many cuts, so the length of `s` serves as the bound. -/
def Split (s sep : Str) : List Str := genSplit s.length s sep

/-- Go `strings.SplitN s sep 2` for a non-empty `sep`: one cut at the first
occurrence of `sep`, or `s` alone. -/
def SplitN2 (s sep : Str) : List Str := genSplit 1 s sep

/-- Go `unicode.ToLower` as far as ASCII is concerned: `A`..`Z` go to `a`..`z`,
and U+0130 and U+212A, the two letters outside ASCII that Go lowers to an ASCII
letter, go to `i` and `k`.  Every other character is left as it is: Go maps it
to a character outside ASCII, and the program only compares lower-cased text
with ASCII keys. -/
def toLowerRune (c : Char) : Char :=
  if c = Char.ofNat 0x130 then 'i'
  else if c = Char.ofNat 0x212A then 'k'
  else c.toLower

/-- Go `strings.ToLower`. -/
def ToLower (s : Str) : Str := s.map toLowerRune

/-- Go `unicode.IsSpace`: the characters with the White_Space property. -/
def isSpace (c : Char) : Bool :=
  let n := c.toNat
  (9 ≤ n && n ≤ 13) || n == 0x20 || n == 0x85 || n == 0xA0 || n == 0x1680 ||
  (0x2000 ≤ n && n ≤ 0x200A) || n == 0x2028 || n == 0x2029 || n == 0x202F ||
  n == 0x205F || n == 0x3000

/-- Go `strings.TrimSpace`: white space removed at both ends. -/
def TrimSpace (s : Str) : Str := (s.dropWhile isSpace).rdropWhile isSpace

/-! ## Errors -/

/-- The two kinds of error `json.Unmarshal` returns; their message text is not
modelled. -/
inductive JsonError where
  | SyntaxError
  | UnmarshalTypeError
deriving DecidableEq

/-- A Go `error` value.  `errorString msg` is an error whose message is `msg`
(`fmt.Errorf` without `%w`, or an error of an external tool); `wrapError a e b`
is `fmt.Errorf` with one `%w`: its message is `a`, the message of `e`, then `b`,
and it unwraps to `e`. -/
inductive GoError where
  | errorString (msg : Str)
  | wrapError (before : Str) (err : GoError) (after : Str)
  | json (e : JsonError)
  | runtimePanic
deriving DecidableEq

/-! ## Data model -/

/-- The VMSS coordinates parsed from a node's providerID. -/
structure NodeInfo where
  Subscription : Str
  ResourceGroup : Str
  VMSSName : Str
  InstanceID : Str
deriving DecidableEq

/-- Standard output and standard error of a run-command invocation. -/
structure CommandResult where
  Stdout : Str
  Stderr : Str
deriving DecidableEq

/-! ## ParseProviderID -/

/-- The body of the loop of `ParseProviderID`: the `switch` on the lower-cased
segment `p` at index `i` of `parts`. -/
def parseStep (parts : List Str) (i : Nat) (p : Str) (info : NodeInfo) : NodeInfo :=
  if ToLower p = "subscriptions".toList then
    if h : i + 1 < parts.length then { info with Subscription := parts[i + 1] } else info
  else if ToLower p = "resourcegroups".toList then
    if h : i + 1 < parts.length then { info with ResourceGroup := parts[i + 1] } else info
  else if ToLower p = "virtualmachinescalesets".toList then
    if h : i + 1 < parts.length then { info with VMSSName := parts[i + 1] } else info
  else if ToLower p = "virtualmachines".toList then
    if h : i + 1 < parts.length then { info with InstanceID := parts[i + 1] } else info
  else info

/-- The loop `for i, p := range parts` of `ParseProviderID`, from index `i` on;
`rest` is what is left of `parts` from there. -/
def parseLoop (parts : List Str) : Nat → List Str → NodeInfo → NodeInfo
  | _, [], info => info
  | i, p :: rest, info => parseLoop parts (i + 1) rest (parseStep parts i p info)

/-- `ParseProviderID` extracts VMSS info from an Azure providerID string. -/
def ParseProviderID (pid : Str) : Except GoError NodeInfo :=
  if !HasPrefix pid "azure://".toList then
    .error (.errorString ("unexpected providerID format: ".toList ++ pid))
  else
    let parts := Split pid "/".toList
    let info := parseLoop parts 0 parts ⟨[], [], [], []⟩
    if info.Subscription = [] ∨ info.ResourceGroup = [] ∨ info.VMSSName = [] ∨
        info.InstanceID = [] then
      .error (.errorString ("could not parse VMSS info from providerID: ".toList ++ pid))
    else
      .ok info

/-! ## JSON -/

/-- A JSON document.  A number keeps its literal text. -/
inductive JSON where
  | null
  | bool (b : Bool)
  | num (lit : Str)
  | str (s : Str)
  | arr (elems : List JSON)
  | obj (members : List (Str × JSON))

/-- The tokens of a JSON text; a string token holds the unquoted string. -/
inductive Token where
  | lbrace | rbrace | lbrack | rbrack | colon | comma
  | str (s : Str)
  | num (lit : Str)
  | tru | fls | nul

/-- The state of the scanner between two characters.  Text is collected in
reverse.  Inside a string `hi` holds a high surrogate read from a `\u` escape
that still waits for its low surrogate. -/
inductive LexState where
  | ground
  | inString (acc : Str) (hi : Option Nat)
  | inEscape (acc : Str) (hi : Option Nat)
  | inHex (acc : Str) (hi : Option Nat) (n : Nat) (val : Nat)
  | inNumber (acc : Str)
  | inLiteral (acc : Str)

/-- The exponent part of a number, or nothing. -/
def validExp : Str → Bool
  | [] => true
  | c :: s =>
    (c == 'e' || c == 'E') &&
      (let d := match s with
        | [] => []
        | x :: t => if x = '+' ∨ x = '-' then t else x :: t
       !d.isEmpty && d.all Char.isDigit)

/-- The fraction and exponent parts of a number, after its integer part. -/
def validFrac : Str → Bool
  | [] => true
  | c :: s =>
    if c = '.' then !(s.takeWhile Char.isDigit).isEmpty && validExp (s.dropWhile Char.isDigit)
    else validExp (c :: s)

/-- The number grammar of JSON: `-? (0 | [1-9][0-9]*) (. [0-9]+)? ([eE] [+-]? [0-9]+)?`. -/
def validNumber (s : Str) : Bool :=
  let t := match s with
    | [] => []
    | c :: r => if c = '-' then r else c :: r
  match t with
  | [] => false
  | c :: r =>
    if c = '0' then validFrac r
    else c.isDigit && validFrac (r.dropWhile Char.isDigit)

/-- Value of a hexadecimal digit. -/
def hexVal (c : Char) : Option Nat :=
  if '0' ≤ c ∧ c ≤ '9' then some (c.toNat - 48)
  else if 'a' ≤ c ∧ c ≤ 'f' then some (c.toNat - 87)
  else if 'A' ≤ c ∧ c ≤ 'F' then some (c.toNat - 55)
  else none

/-- The replacement character U+FFFD. -/
def replacementChar : Char := Char.ofNat 0xFFFD

/-- A pending high surrogate that found no partner becomes U+FFFD. -/
def flushHi (acc : Str) (hi : Option Nat) : Str :=
  match hi with
  | none => acc
  | some _ => replacementChar :: acc

/-- The code unit `r` of a `\u` escape with no high surrogate pending. -/
def putFresh (acc : Str) (r : Nat) : Str × Option Nat :=
  if 0xD800 ≤ r ∧ r < 0xDC00 then (acc, some r)
  else if 0xDC00 ≤ r ∧ r < 0xE000 then (replacementChar :: acc, none)
  else (Char.ofNat r :: acc, none)

/-- The code unit `r` of a `\u` escape: it completes a pending high surrogate
when it is a low surrogate, and otherwise the pending one is replaced. -/
def putRune (acc : Str) (hi : Option Nat) (r : Nat) : Str × Option Nat :=
  match hi with
  | some h =>
    if 0xDC00 ≤ r ∧ r < 0xE000 then
      (Char.ofNat (0x10000 + (h - 0xD800) * 0x400 + (r - 0xDC00)) :: acc, none)
    else putFresh (replacementChar :: acc) r
  | none => putFresh acc r

/-- The scanner outside a token, reading `c`. -/
def lexGround (toks : List Token) (c : Char) : Option (LexState × List Token) :=
  if c = ' ' ∨ c = '\t' ∨ c = '\r' ∨ c = '\n' then some (.ground, toks)
  else if c = '{' then some (.ground, .lbrace :: toks)
  else if c = '}' then some (.ground, .rbrace :: toks)
  else if c = '[' then some (.ground, .lbrack :: toks)
  else if c = ']' then some (.ground, .rbrack :: toks)
  else if c = ':' then some (.ground, .colon :: toks)
  else if c = ',' then some (.ground, .comma :: toks)
  else if c = '"' then some (.inString [] none, toks)
  else if c = '-' ∨ c.isDigit then some (.inNumber [c], toks)
  else if c.isLower then some (.inLiteral [c], toks)
  else none

/-- The token of a finished number. -/
def finishNumber (acc : Str) (toks : List Token) : Option (List Token) :=
  if validNumber acc.reverse then some (.num acc.reverse :: toks) else none

/-- The token of a finished literal name. -/
def finishLiteral (acc : Str) (toks : List Token) : Option (List Token) :=
  if acc.reverse = "true".toList then some (.tru :: toks)
  else if acc.reverse = "false".toList then some (.fls :: toks)
  else if acc.reverse = "null".toList then some (.nul :: toks)
  else none

/-- One step of the scanner. -/
def lexStep (st : LexState) (toks : List Token) (c : Char) : Option (LexState × List Token) :=
  match st with
  | .ground => lexGround toks c
  | .inString acc hi =>
    if c = '"' then some (.ground, .str (flushHi acc hi).reverse :: toks)
    else if c = '\\' then some (.inEscape acc hi, toks)
    else if c.toNat < 0x20 then none
    else some (.inString (c :: flushHi acc hi) none, toks)
  | .inEscape acc hi =>
    if c = 'u' then some (.inHex acc hi 0 0, toks)
    else if c = '"' ∨ c = '\\' ∨ c = '/' then some (.inString (c :: flushHi acc hi) none, toks)
    else if c = 'b' then some (.inString (Char.ofNat 8 :: flushHi acc hi) none, toks)
    else if c = 'f' then some (.inString (Char.ofNat 12 :: flushHi acc hi) none, toks)
    else if c = 'n' then some (.inString ('\n' :: flushHi acc hi) none, toks)
    else if c = 'r' then some (.inString ('\r' :: flushHi acc hi) none, toks)
    else if c = 't' then some (.inString ('\t' :: flushHi acc hi) none, toks)
    else none
  | .inHex acc hi n val =>
    match hexVal c with
    | none => none
    | some d =>
      if n < 3 then some (.inHex acc hi (n + 1) (val * 16 + d), toks)
      else
        let r := putRune acc hi (val * 16 + d)
        some (.inString r.1 r.2, toks)
  | .inNumber acc =>
    if c.isDigit ∨ c = '.' ∨ c = 'e' ∨ c = 'E' ∨ c = '+' ∨ c = '-' then
      some (.inNumber (c :: acc), toks)
    else (finishNumber acc toks).bind (fun t => lexGround t c)
  | .inLiteral acc =>
    if c.isLower then some (.inLiteral (c :: acc), toks)
    else (finishLiteral acc toks).bind (fun t => lexGround t c)

/-- The scanner run over a text; the tokens come out in reverse. -/
def lexFrom : LexState → List Token → Str → Option (List Token)
  | .ground, toks, [] => some toks
  | .inNumber acc, toks, [] => finishNumber acc toks
  | .inLiteral acc, toks, [] => finishLiteral acc toks
  | _, _, [] => none
  | st, toks, c :: cs =>
    match lexStep st toks c with
    | none => none
    | some (st1, toks1) => lexFrom st1 toks1 cs

/-- The tokens of a JSON text, `none` for a lexical error. -/
def lex (s : Str) : Option (List Token) := (lexFrom .ground [] s).map List.reverse

/-- An array or an object under construction: what it holds so far, in
reverse, and for an object the key that waits for its value. -/
inductive Frame where
  | arr (done : List JSON)
  | obj (done : List (Str × JSON)) (key : Str)

/-- What the parser expects next. -/
inductive Mode where
  | value       -- a value
  | valueOrEnd  -- a value or the end of the array, right after its opening
  | keyOrEnd    -- a key or the end of the object, right after its opening
  | key         -- a key, after a comma
  | colon       -- the colon after a key
  | after       -- a comma or the end of the enclosing array or object
  | top (v : JSON)  -- nothing: the document `v` is complete

/-- A finished value goes into the enclosing array or object, or is the document. -/
def deliver (v : JSON) : List Frame → Mode × List Frame
  | [] => (.top v, [])
  | .arr done :: st => (.after, .arr (v :: done) :: st)
  | .obj done k :: st => (.after, .obj ((k, v) :: done) k :: st)

/-- The nesting limit of the scanner of `encoding/json`. -/
def maxNestingDepth : Nat := 10000

/-- A token that starts a value, with the frames `st` around it. -/
def startValue (t : Token) (st : List Frame) : Option (Mode × List Frame) :=
  match t with
  | .str s => some (deliver (.str s) st)
  | .num l => some (deliver (.num l) st)
  | .tru => some (deliver (.bool true) st)
  | .fls => some (deliver (.bool false) st)
  | .nul => some (deliver .null st)
  | .lbrack => if st.length + 1 ≤ maxNestingDepth then some (.valueOrEnd, .arr [] :: st) else none
  | .lbrace => if st.length + 1 ≤ maxNestingDepth then some (.keyOrEnd, .obj [] [] :: st) else none
  | _ => none

/-- One step of the parser. -/
def parseStepTok (m : Mode) (st : List Frame) (t : Token) : Option (Mode × List Frame) :=
  match m, t, st with
  | .value, t, st => startValue t st
  | .valueOrEnd, .rbrack, .arr done :: st => some (deliver (.arr done.reverse) st)
  | .valueOrEnd, t, st => startValue t st
  | .keyOrEnd, .rbrace, .obj done _ :: st => some (deliver (.obj done.reverse) st)
  | .keyOrEnd, .str k, .obj done _ :: st => some (.colon, .obj done k :: st)
  | .key, .str k, .obj done _ :: st => some (.colon, .obj done k :: st)
  | .colon, .colon, st => some (.value, st)
  | .after, .comma, .arr done :: st => some (.value, .arr done :: st)
  | .after, .rbrack, .arr done :: st => some (deliver (.arr done.reverse) st)
  | .after, .comma, .obj done k :: st => some (.key, .obj done k :: st)
  | .after, .rbrace, .obj done _ :: st => some (deliver (.obj done.reverse) st)
  | _, _, _ => none

/-- The parser run over the tokens. -/
def parseTokens : Mode → List Frame → List Token → Option JSON
  | .top v, [], [] => some v
  | _, _, [] => none
  | m, st, t :: ts =>
    match parseStepTok m st t with
    | none => none
    | some (m1, st1) => parseTokens m1 st1 ts

/-- The document a JSON text denotes, `none` when the text is not valid JSON
(what `json.Unmarshal` reports as a `SyntaxError`). -/
def parseJSON (s : Str) : Option JSON := (lex s).bind (parseTokens .value [])

/-! ## json.Unmarshal into runCommandResponse -/

/-- An element of `runCommandResponse.Value`. -/
structure runCommandValue where
  Message : Str
deriving DecidableEq

/-- The JSON shape returned by az vmss run-command invoke. -/
structure runCommandResponse where
  Value : List runCommandValue
deriving DecidableEq

/-- Case folding of `encoding/json` when it matches an object key with a field
name, as far as ASCII is concerned: ASCII letters without regard to case, and
U+017F and U+212A, which fold to `s` and `k`. -/
def foldRune (c : Char) : Char :=
  if c = Char.ofNat 0x17F then 's'
  else if c = Char.ofNat 0x212A then 'k'
  else c.toLower

/-- A key folded for the comparison with a field name. -/
def foldName (s : Str) : Str := s.map foldRune

/-- A JSON value decoded into the string field `Message`, which holds `cur`.
The flag tells that an `UnmarshalTypeError` was recorded. -/
def decodeString (cur : Str) : JSON → Str × Bool
  | .str s => (s, false)
  | .null => (cur, false)
  | _ => (cur, true)

/-- A JSON value decoded into an element that holds `cur`: `null` leaves it, an
object sets `Message` from each member named `message`, in order. -/
def decodeElement (cur : runCommandValue) : JSON → runCommandValue × Bool
  | .null => (cur, false)
  | .obj members =>
    members.foldl
      (fun acc m =>
        if foldName m.1 = "message".toList then
          let r := decodeString acc.1.Message m.2
          (⟨r.1⟩, acc.2 || r.2)
        else acc)
      (cur, false)
  | _ => (cur, true)

/-- The elements of a JSON array decoded into a slice that holds `cur`: element
`i` is decoded over `cur[i]` when the slice has one, and over the zero value
otherwise; the result has as many elements as the array.  Go decodes in place,
so that at an index past the length and within the capacity it finds what an
earlier and longer array left there; this takes three members named `value` in
one object, never concerns the first element, and is not modelled. -/
def decodeArray : List runCommandValue → List JSON → List runCommandValue × Bool
  | _, [] => ([], false)
  | cur, e :: es =>
    let x := decodeElement (cur.headD ⟨[]⟩) e
    let xs := decodeArray cur.tail es
    (x.1 :: xs.1, x.2 || xs.2)

/-- A JSON value decoded into the slice field `Value`, which holds `cur`. -/
def decodeSlice (cur : List runCommandValue) : JSON → List runCommandValue × Bool
  | .null => ([], false)
  | .arr elems => decodeArray cur elems
  | _ => (cur, true)

/-- A JSON document decoded into a `runCommandResponse` that holds `cur`:
`null` leaves it, an object sets `Value` from each member named `value`, in
order, and ignores the other members. -/
def decodeResponse (cur : runCommandResponse) : JSON → runCommandResponse × Bool
  | .null => (cur, false)
  | .obj members =>
    members.foldl
      (fun acc m =>
        if foldName m.1 = "value".toList then
          let r := decodeSlice acc.1.Value m.2
          (⟨r.1⟩, acc.2 || r.2)
        else acc)
      (cur, false)
  | _ => (cur, true)

/-- Go `json.Unmarshal([]byte(raw), &resp)` for a zero `resp` of type
`runCommandResponse`: a text that is not valid JSON is a `SyntaxError`; a JSON
value that does not fit the type of its destination is recorded as an
`UnmarshalTypeError` while decoding goes on, and is returned at the end. -/
def Unmarshal (raw : Str) : Except JsonError runCommandResponse :=
  match parseJSON raw with
  | none => .error .SyntaxError
  | some doc =>
    let r := decodeResponse ⟨[]⟩ doc
    if r.2 then .error .UnmarshalTypeError else .ok r.1

/-! ## parseRunCommandOutput -/

/-- The Go slice expression `s[i:]`, `none` when `i` is out of range. -/
def sliceFrom (s : Str) (i : Nat) : Option Str :=
  if i ≤ s.length then some (s.drop i) else none

/-- Lines 167 to 171 of `parseRunCommandOutput`: everything up to and
including the stdout marker is stripped. -/
def stripStdout (msg : Str) : Option Str :=
  match Index msg "[stdout]\n".toList with
  | some idx => sliceFrom msg (idx + "[stdout]\n".toList.length)
  | none =>
    match Index msg "[stdout]".toList with
    | some idx => sliceFrom msg (idx + "[stdout]".toList.length)
    | none => some msg

/-- Lines 173 to 178 of `parseRunCommandOutput`: the text is split at the first
stderr marker and both parts are trimmed. -/
def splitStreams (msg : Str) : Option CommandResult :=
  let parts := SplitN2 msg "[stderr]".toList
  match parts[0]? with
  | none => none
  | some p0 =>
    if 1 < parts.length then
      match parts[1]? with
      | none => none
      | some p1 => some { Stdout := TrimSpace p0, Stderr := TrimSpace p1 }
    else some { Stdout := TrimSpace p0, Stderr := [] }

/-- Lines 161 to 178 of `parseRunCommandOutput`: the message of the first
element decoded into the two streams.  A slice or an index out of range, on
which Go panics, gives `GoError.runtimePanic`. -/
def decodeMessage (msg : Str) : Except GoError CommandResult :=
  match (stripStdout msg).bind splitStreams with
  | none => .error .runtimePanic
  | some result => .ok result

/-- `parseRunCommandOutput` decodes the JSON output of az vmss run-command invoke. -/
def parseRunCommandOutput (raw : Str) : Except GoError CommandResult :=
  match Unmarshal raw with
  | .error err =>
    .error (.wrapError "failed to parse run-command JSON output: ".toList (.json err)
      ("\nRaw: ".toList ++ raw))
  | .ok resp =>
    match resp.Value with
    | [] => .error (.errorString "run-command returned no output".toList)
    | first :: _ => decodeMessage first.Message

/-! ## Runner and DefaultRunner -/

/-- The `Runner` interface: each method as the function from its arguments to
what it returns. -/
structure Runner where
  ResolveNodeFromPod : Str → Str → Except GoError Str
  ResolveVMSS : Str → Except GoError NodeInfo
  GetContainerName : Str → Str → Except GoError Str
  RunCommand : NodeInfo → Str → Except GoError CommandResult

/-- `DefaultRunner` shells out to kubectl and az.  Each tool is the function
from its argument list to its combined output and its error, if any.  The
progress lines that `ResolveVMSS` prints on the standard error of the process
are not modelled. -/
structure DefaultRunner where
  kubectl : List Str → Str × Option GoError
  az : List Str → Str × Option GoError

/-- `ResolveNodeFromPod` returns the node name a pod is scheduled on. -/
def DefaultRunner.ResolveNodeFromPod (r : DefaultRunner) (ns pod : Str) : Except GoError Str :=
  match r.kubectl ["get".toList, "pod".toList, pod, "-n".toList, ns, "-o".toList,
      "jsonpath=\x7b.spec.nodeName\x7d".toList] with
  | (_, some err) =>
    .error (.wrapError
      ("could not find pod ".toList ++ ns ++ "/".toList ++ pod ++
        " or it has no node assigned: ".toList) err [])
  | (out, none) =>
    let node := TrimSpace out
    if node = [] then
      .error (.errorString
        ("pod ".toList ++ ns ++ "/".toList ++ pod ++ " has no node assigned".toList))
    else .ok node

/-- `ResolveVMSS` parses the providerID from a node to extract VMSS coordinates. -/
def DefaultRunner.ResolveVMSS (r : DefaultRunner) (node : Str) : Except GoError NodeInfo :=
  match r.kubectl ["get".toList, "node".toList, node, "-o".toList,
      "jsonpath=\x7b.spec.providerID\x7d".toList] with
  | (_, some err) =>
    .error (.wrapError ("could not get providerID for node ".toList ++ node ++ ": ".toList) err [])
  | (out, none) =>
    let pid := TrimSpace out
    match ParseProviderID pid with
    | .error err => .error err
    | .ok info => .ok info

/-- `GetContainerName` returns the name of the first container in a pod. -/
def DefaultRunner.GetContainerName (r : DefaultRunner) (ns pod : Str) : Except GoError Str :=
  match r.kubectl ["get".toList, "pod".toList, pod, "-n".toList, ns, "-o".toList,
      "jsonpath=\x7b.spec.containers[0].name\x7d".toList] with
  | (_, some err) =>
    .error (.wrapError
      ("could not get container name for pod ".toList ++ ns ++ "/".toList ++ pod ++ ": ".toList)
      err [])
  | (out, none) => .ok (TrimSpace out)

/-- `RunCommand` executes a shell script on a VMSS instance via az vmss
run-command invoke. -/
def DefaultRunner.RunCommand (r : DefaultRunner) (info : NodeInfo) (script : Str) :
    Except GoError CommandResult :=
  match r.az ["vmss".toList, "run-command".toList, "invoke".toList,
      "-g".toList, info.ResourceGroup,
      "-n".toList, info.VMSSName,
      "--instance-id".toList, info.InstanceID,
      "--command-id".toList, "RunShellScript".toList,
      "--scripts".toList, script,
      "--subscription".toList, info.Subscription,
      "-o".toList, "json".toList] with
  | (out, some err) =>
    .error (.wrapError "az vmss run-command failed: ".toList err ("\nOutput: ".toList ++ out))
  | (out, none) => parseRunCommandOutput out

/-- A `DefaultRunner` seen through the `Runner` interface. -/
def DefaultRunner.toRunner (r : DefaultRunner) : Runner :=
  { ResolveNodeFromPod := r.ResolveNodeFromPod
    ResolveVMSS := r.ResolveVMSS
    GetContainerName := r.GetContainerName
    RunCommand := r.RunCommand }

/-! ## The run command -/

/-- A call of a `Runner` method, with its arguments. -/
inductive Call where
  | ResolveNodeFromPod (ns pod : Str)
  | ResolveVMSS (node : Str)
  | GetContainerName (ns pod : Str)
  | RunCommand (info : NodeInfo) (script : Str)
deriving DecidableEq

/-- What a command leaves behind: the `Runner` calls it made, in order, and the
text it wrote on the two streams of `genericclioptions.IOStreams`. -/
structure RunState where
  calls : List Call
  Out : Str
  ErrOut : Str
deriving DecidableEq

/-- The fields of `runOptions` that `Run` reads. -/
structure runOptions where
  ns : Str
  node : Str
  pod : Str
  command : Str

/-- The end of every `Run`: the progress line, the `RunCommand` call and the
printing of its result (lines 83 to 95 of `run.go`). -/
def runAndPrint (runner : Runner) (info : NodeInfo) (script : Str) (s : RunState) :
    RunState × Option GoError :=
  let s1 := { s with ErrOut := s.ErrOut ++ "Running on ".toList ++ info.VMSSName ++ "/".toList ++
    info.InstanceID ++ "...\n".toList }
  let s2 := { s1 with calls := s1.calls ++ [.RunCommand info script] }
  match runner.RunCommand info script with
  | .error err => (s2, some err)
  | .ok result =>
    let s3 := if result.Stdout ≠ [] then { s2 with Out := s2.Out ++ result.Stdout ++ "\n".toList }
      else s2
    let s4 := if result.Stderr ≠ [] then
        { s3 with ErrOut := s3.ErrOut ++ result.Stderr ++ "\n".toList }
      else s3
    (s4, none)

/-- `runOptions.Run` executes the run command. -/
def runOptions.Run (o : runOptions) (runner : Runner) (s : RunState) :
    RunState × Option GoError :=
  let resolved : RunState × Except GoError Str :=
    if o.pod ≠ [] then
      ({ s with calls := s.calls ++ [.ResolveNodeFromPod o.ns o.pod] },
        runner.ResolveNodeFromPod o.ns o.pod)
    else (s, .ok o.node)
  match resolved with
  | (s1, .error err) => (s1, some err)
  | (s1, .ok node) =>
    let s2 := { s1 with calls := s1.calls ++ [.ResolveVMSS node] }
    match runner.ResolveVMSS node with
    | .error err => (s2, some err)
    | .ok info => runAndPrint runner info o.command s2

/-! ## Error messages -/

/-- The method `Error()` of a Go `error`: its message.  The message of an error
of `encoding/json` is not modelled: `jsonText` stands for it.  A panic is not
an error value and has no message. -/
def GoError.Error (jsonText : JsonError → Str) : GoError → Str
  | .errorString msg => msg
  | .wrapError before err after => before ++ GoError.Error jsonText err ++ after
  | .json e => jsonText e
  | .runtimePanic => []

/-! ## The exec, logs and cilium commands -/

/-- The `RunCommand` call and the printing of its result, at the end of every
`Run` (lines 84 to 95 of `run.go`). -/
def callAndPrint (runner : Runner) (info : NodeInfo) (script : Str) (s : RunState) :
    RunState × Option GoError :=
  let s2 := { s with calls := s.calls ++ [.RunCommand info script] }
  match runner.RunCommand info script with
  | .error err => (s2, some err)
  | .ok result =>
    let s3 := if result.Stdout ≠ [] then { s2 with Out := s2.Out ++ result.Stdout ++ "\n".toList }
      else s2
    let s4 := if result.Stderr ≠ [] then
        { s3 with ErrOut := s3.ErrOut ++ result.Stderr ++ "\n".toList }
      else s3
    (s4, none)

/-- The fields of `execOptions` that `Run` reads. -/
structure execOptions where
  ns : Str
  node : Str
  pod : Str
  command : Str

/-- `execOptions.Run` executes the exec command. -/
def execOptions.Run (o : execOptions) (runner : Runner) (s : RunState) :
    RunState × Option GoError :=
  let resolved : RunState × Except GoError Str :=
    if o.pod ≠ [] ∧ o.node = [] then
      ({ s with calls := s.calls ++ [.ResolveNodeFromPod o.ns o.pod] },
        runner.ResolveNodeFromPod o.ns o.pod)
    else (s, .ok o.node)
  match resolved with
  | (s1, .error err) => (s1, some err)
  | (s1, .ok node) =>
    let s2 := { s1 with calls := s1.calls ++ [.ResolveVMSS node] }
    match runner.ResolveVMSS node with
    | .error err => (s2, some err)
    | .ok info =>
      let cmd := if o.command = [] then
          "echo 'Connected to node. Run commands:'; uname -a; echo '---'; ps aux | head -20".toList
        else o.command
      runAndPrint runner info cmd s2

/-- The verb `%d` of `fmt` for an `int`: decimal digits, with a minus sign for
a negative number.  The 64-bit range of `int` is not modelled. -/
def formatInt (n : Int) : Str :=
  if n < 0 then '-' :: Nat.toDigits 10 n.natAbs else Nat.toDigits 10 n.toNat

/-- `buildLogsScript` of `logs.go`. -/
def buildLogsScript (container : Str) (tail : Int) (previous : Bool) : Str :=
  let filter := if container ≠ [] then "--name ".toList ++ container else []
  let tailFlag := if tail > 0 then " --tail=".toList ++ formatInt tail else []
  if previous then
    "RUNNING=$(crictl ps ".toList ++ filter ++
      " -q | head -1); ALL=$(crictl ps -a ".toList ++ filter ++
      " -q); if [ -n \"$RUNNING\" ]; then CID=$(echo \"$ALL\" | grep -v \"$RUNNING\" | head -1); else CID=$(echo \"$ALL\" | head -1); fi; if [ -z \"$CID\" ]; then echo 'No previous container found for ".toList ++
      container ++ "' >&2; exit 1; fi; crictl logs".toList ++ tailFlag ++ " $CID".toList
  else
    "CID=$(crictl ps ".toList ++ filter ++
      " -q | head -1); if [ -z \"$CID\" ]; then CID=$(crictl ps -a ".toList ++ filter ++
      " -q | head -1); fi; if [ -z \"$CID\" ]; then echo 'No container found for ".toList ++
      container ++ "' >&2; exit 1; fi; crictl logs".toList ++ tailFlag ++ " $CID".toList

/-- The fields of `logsOptions` that `Run` reads. -/
structure logsOptions where
  ns : Str
  node : Str
  tail : Int
  previous : Bool
  pod : Str

/-- Lines 67 to 82 of `logs.go`: the container name and the node of the pod,
when a pod is given. -/
def logsOptions.resolve (o : logsOptions) (runner : Runner) (s : RunState) :
    RunState × Except GoError (Str × Str) :=
  if o.pod ≠ [] then
    let s1 := { s with calls := s.calls ++ [.GetContainerName o.ns o.pod] }
    match runner.GetContainerName o.ns o.pod with
    | .error err => (s1, .error err)
    | .ok container =>
      if o.node = [] then
        let s2 := { s1 with calls := s1.calls ++ [.ResolveNodeFromPod o.ns o.pod] }
        match runner.ResolveNodeFromPod o.ns o.pod with
        | .error err => (s2, .error err)
        | .ok node => (s2, .ok (node, container))
      else (s1, .ok (o.node, container))
  else (s, .ok (o.node, []))

/-- `logsOptions.Run` executes the logs command. -/
def logsOptions.Run (o : logsOptions) (runner : Runner) (s : RunState) :
    RunState × Option GoError :=
  match o.resolve runner s with
  | (s1, .error err) => (s1, some err)
  | (s1, .ok (node, container)) =>
    let s2 := { s1 with calls := s1.calls ++ [.ResolveVMSS node] }
    match runner.ResolveVMSS node with
    | .error err => (s2, some err)
    | .ok info =>
      let script := buildLogsScript container o.tail o.previous
      runAndPrint runner info script s2

/-- Go `strings.Join`. -/
def Join (elems : List Str) (sep : Str) : Str := sep.intercalate elems

/-- The template of `buildCiliumScript` up to the first `%q`. -/
def ciliumScriptHead : Str :=
   ("set -e\n" ++
    "\n" ++
    "POD_NAME=").toList

/-- The template of `buildCiliumScript` between its two `%q`. -/
def ciliumScriptMiddle : Str :=
   ("\n" ++
    "CILIUM_ARGS=").toList

/-- The template of `buildCiliumScript` after the second `%q`. -/
def ciliumScriptTail : Str :=
   ("\n" ++
    "MNT=\"/tmp/cilium-rootfs-$$\"\n" ++
    "\n" ++
    "# --- Step 1: Find the cilium pod sandbox PID ---\n" ++
    "SANDBOX_ID=$(crictl pods --name \"$POD_NAME\" -q | head -1)\n" ++
    "if [ -z \"$SANDBOX_ID\" ]; then\n" ++
    "  echo \"Error: no sandbox found for pod $POD_NAME\" >&2\n" ++
    "  exit 1\n" ++
    "fi\n" ++
    "SANDBOX_PID=$(crictl inspectp \"$SANDBOX_ID\" 2>/dev/null \\\n" ++
    "  | python3 -c \"import sys,json; print(json.load(sys.stdin)['info']['pid'])\" 2>/dev/null || true)\n" ++
    "if [ -z \"$SANDBOX_PID\" ] || [ \"$SANDBOX_PID\" = \"0\" ]; then\n" ++
    "  echo \"Error: could not determine sandbox PID for pod $POD_NAME\" >&2\n" ++
    "  exit 1\n" ++
    "fi\n" ++
    "\n" ++
    "# --- Step 2: Find the cilium container image ---\n" ++
    "CID=$(crictl ps --name cilium-agent -q | head -1)\n" ++
    "if [ -z \"$CID\" ]; then\n" ++
    "  CID=$(crictl ps -a --name cilium-agent -q | head -1)\n" ++
    "fi\n" ++
    "if [ -z \"$CID\" ]; then\n" ++
    "  echo \"Error: no cilium-agent container found\" >&2\n" ++
    "  exit 1\n" ++
    "fi\n" ++
    "IMAGE=$(crictl inspect \"$CID\" 2>/dev/null \\\n" ++
    "  | python3 -c \"import sys,json; d=json.load(sys.stdin); print(d['info']['config']['image']['image'])\" 2>/dev/null || true)\n" ++
    "if [ -z \"$IMAGE\" ]; then\n" ++
    "  # fallback: use the imageRef from the status\n" ++
    "  IMAGE=$(crictl inspect \"$CID\" 2>/dev/null \\\n" ++
    "    | python3 -c \"import sys,json; d=json.load(sys.stdin); print(d['status']['imageRef'])\" 2>/dev/null || true)\n" ++
    "fi\n" ++
    "if [ -z \"$IMAGE\" ]; then\n" ++
    "  echo \"Error: could not determine cilium container image\" >&2\n" ++
    "  exit 1\n" ++
    "fi\n" ++
    "\n" ++
    "# --- Step 3: Mount the container image ---\n" ++
    "cleanup() \x7b ctr -n k8s.io images unmount \"$MNT\" >/dev/null 2>&1 || true; rmdir \"$MNT\" 2>/dev/null || true; \x7d\n" ++
    "trap cleanup EXIT\n" ++
    "mkdir -p \"$MNT\"\n" ++
    "ctr -n k8s.io images mount \"$IMAGE\" \"$MNT\" >/dev/null 2>&1\n" ++
    "if [ ! -x \"$MNT/usr/bin/cilium-dbg\" ] && [ ! -x \"$MNT/usr/bin/cilium\" ]; then\n" ++
    "  echo \"Error: cilium binary not found in image $IMAGE\" >&2\n" ++
    "  exit 1\n" ++
    "fi\n" ++
    "\n" ++
    "# Prefer cilium-dbg (newer cilium) over cilium\n" ++
    "CILIUM_BIN=\"$MNT/usr/bin/cilium-dbg\"\n" ++
    "if [ ! -x \"$CILIUM_BIN\" ]; then\n" ++
    "  CILIUM_BIN=\"$MNT/usr/bin/cilium\"\n" ++
    "fi\n" ++
    "\n" ++
    "# --- Step 4: nsenter into the pod network namespace and run ---\n" ++
    "nsenter -t \"$SANDBOX_PID\" -n -- \"$CILIUM_BIN\" $CILIUM_ARGS\n").toList


/-- `buildCiliumScript` of `cilium.go`.  The verb `%q` of `fmt`, that is
`strconv.Quote`, is the parameter `quote`. -/
def buildCiliumScript (quote : Str → Str) (podName ciliumArgs : Str) : Str :=
  ciliumScriptHead ++ quote podName ++ ciliumScriptMiddle ++ quote ciliumArgs ++ ciliumScriptTail

/-- The fields of `ciliumOptions` that `Run` reads. -/
structure ciliumOptions where
  ns : Str
  pod : Str
  args : List Str

/-- `ciliumOptions.Run` executes the cilium command on the node. -/
def ciliumOptions.Run (quote : Str → Str) (o : ciliumOptions) (runner : Runner) (s : RunState) :
    RunState × Option GoError :=
  let s1 := { s with
    ErrOut := s.ErrOut ++ "Resolving node from pod ".toList ++ o.ns ++ "/".toList ++ o.pod ++
      "...\n".toList,
    calls := s.calls ++ [.ResolveNodeFromPod o.ns o.pod] }
  match runner.ResolveNodeFromPod o.ns o.pod with
  | .error err => (s1, some err)
  | .ok node =>
    let s2 := { s1 with
      ErrOut := s1.ErrOut ++ "Pod ".toList ++ o.ns ++ "/".toList ++ o.pod ++
        " is on node: ".toList ++ node ++ "\n".toList,
      calls := s1.calls ++ [.ResolveVMSS node] }
    match runner.ResolveVMSS node with
    | .error err => (s2, some err)
    | .ok info =>
      let ciliumArgs := Join o.args " ".toList
      let script := buildCiliumScript quote o.pod ciliumArgs
      let s3 := { s2 with
        ErrOut := s2.ErrOut ++ "Running cilium ".toList ++ ciliumArgs ++ " on ".toList ++
          info.VMSSName ++ "/".toList ++ info.InstanceID ++ "...\n".toList }
      callAndPrint runner info script s3

/-! ## The handler of the run command -/

/-- The handler `RunE` of `NewCmdRun` (lines 40 to 57 of `run.go`).  The
receiver `o` holds what the flags `--pod` and `--namespace` have set, `args`
are the positional arguments.  `injected` is the field `runner`, `none` for
nil, in which case the runner of `NewDefaultRunner()` is taken: `dflt`.  An
index out of range, on which Go panics, gives `GoError.runtimePanic`. -/
def runOptions.RunE (o : runOptions) (args : List Str) (injected : Option Runner)
    (dflt : DefaultRunner) (s : RunState) : RunState × Option GoError :=
  let filled : Except GoError runOptions :=
    if o.pod ≠ [] then
      if args.length ≠ 1 then
        .error (.errorString
          "when using --pod, provide exactly one argument: the command".toList)
      else
        match args[0]? with
        | none => .error .runtimePanic
        | some a0 => .ok { o with command := a0 }
    else
      if args.length < 2 then
        .error (.errorString "requires <node> <command> (or use --pod <pod> <command>)".toList)
      else
        match args[0]?, args[1]? with
        | some a0, some a1 => .ok { o with node := a0, command := a1 }
        | _, _ => .error .runtimePanic
  match filled with
  | .error err => (s, some err)
  | .ok o1 =>
    let runner := match injected with
      | some r => r
      | none => dflt.toRunner
    o1.Run runner s

/-! ## The get pods command -/

/-- The fields of `getPodsOptions` that `Run` reads, and the namespace flag. -/
structure getPodsOptions where
  ns : Str
  node : Str
  allNs : Bool

/-- `getPodsOptions.Run` lists the containers of a node (`pods.go`). -/
def getPodsOptions.Run (o : getPodsOptions) (runner : Runner) (s : RunState) :
    RunState × Option GoError :=
  let s1 := { s with calls := s.calls ++ [.ResolveVMSS o.node] }
  match runner.ResolveVMSS o.node with
  | .error err => (s1, some err)
  | .ok info =>
    let script := if o.allNs then "crictl ps -a -o table".toList else "crictl ps -o table".toList
    runAndPrint runner info script s1

/-! ## Definitions used in the statements and proofs -/

deriving instance DecidableEq for Except

/-- The value a single key leaves behind after the loop from index `i` on:
the segment after the last matching segment that has a successor. -/
def lastAfter (parts : List Str) (key : Str) : Nat → List Str → Str → Str
  | _, [], v => v
  | i, p :: rest, v =>
    lastAfter parts key (i + 1) rest (if ToLower p = key then (parts[i + 1]?).getD v else v)

/-- The segment at index `i` of `parts` is the only one that equals `key` when
both are lower-cased, and the segment after it is `v`, which is not empty. -/
def KeyOnceAt (parts : List Str) (key : Str) (i : Nat) (v : Str) : Prop :=
  (parts[i]?).map ToLower = some (ToLower key) ∧
  (∀ j < parts.length, (parts[j]?).map ToLower = some (ToLower key) → j = i) ∧
  parts[i + 1]? = some v ∧ v ≠ []

instance (parts : List Str) (key : Str) (i : Nat) (v : Str) :
    Decidable (KeyOnceAt parts key i v) := by
  unfold KeyOnceAt; infer_instance

/-- All four coordinates are non-empty strings. -/
def NodeInfo.Complete (info : NodeInfo) : Prop :=
  info.Subscription ≠ [] ∧ info.ResourceGroup ≠ [] ∧ info.VMSSName ≠ [] ∧ info.InstanceID ≠ []

instance (info : NodeInfo) : Decidable info.Complete := by
  unfold NodeInfo.Complete; infer_instance

/-- Scenario C: `{"value":[{"message":"[stdout]\nhello world\n[stderr]\n"}]}`. -/
def scenarioC : Str :=
  "\x7b\"value\":[\x7b\"message\":\"[stdout]\\nhello world\\n[stderr]\\n\"\x7d]\x7d".toList

/-- Scenario D:
`{"value":[{"message":"Enable succeeded: \n[stdout]\noutput\n[stderr]\nsome warning"}]}`. -/
def scenarioD : Str :=
  "\x7b\"value\":[\x7b\"message\":\"Enable succeeded: \\n[stdout]\\noutput\\n[stderr]\\nsome warning\"\x7d]\x7d".toList

/-- The test with an empty standard output:
`{"value":[{"message":"[stdout]\n[stderr]\nonly error"}]}`. -/
def emptyStdoutEnvelope : Str :=
  "\x7b\"value\":[\x7b\"message\":\"[stdout]\\n[stderr]\\nonly error\"\x7d]\x7d".toList

/-- The envelope of Scenario D decoded and written again in the wire format:
`{"value":[{"message":"[stdout]\noutput[stderr]\nsome warning"}]}`. -/
def scenarioDAgain : Str :=
  "\x7b\"value\":[\x7b\"message\":\"[stdout]\\noutput[stderr]\\nsome warning\"\x7d]\x7d".toList

/-- Scenario D with a second element:
`{"value":[{"message":"Enable succeeded: \n[stdout]\noutput\n[stderr]\nsome warning"},{"message":"more"}]}`. -/
def scenarioDTwo : Str :=
  "\x7b\"value\":[\x7b\"message\":\"Enable succeeded: \\n[stdout]\\noutput\\n[stderr]\\nsome warning\"\x7d,\x7b\"message\":\"more\"\x7d]\x7d".toList

/-- Scenario D with a second element that is a number:
`{"value":[{"message":"Enable succeeded: \n[stdout]\noutput\n[stderr]\nsome warning"},7]}`. -/
def scenarioDSeven : Str :=
  "\x7b\"value\":[\x7b\"message\":\"Enable succeeded: \\n[stdout]\\noutput\\n[stderr]\\nsome warning\"\x7d,7]\x7d".toList

/-- A message without stdout marker but with a stderr marker:
`{"value":[{"message":"foo[stderr]bar"}]}`. -/
def stderrOnlyEnvelope : Str :=
  "\x7b\"value\":[\x7b\"message\":\"foo[stderr]bar\"\x7d]\x7d".toList

/-- A message without any marker: `{"value":[{"message":" plain text\n"}]}`. -/
def plainEnvelope : Str :=
  "\x7b\"value\":[\x7b\"message\":\" plain text\\n\"\x7d]\x7d".toList

/-- A `DefaultRunner` whose kubectl prints a providerID and whose az prints the
envelope of Scenario C. -/
def exampleRunner : DefaultRunner :=
  { kubectl := fun _ =>
      ("azure:///subscriptions/s/resourceGroups/g/virtualMachineScaleSets/v/virtualMachines/7\n".toList,
        none)
    az := fun _ => (scenarioC, none) }

/-- The options of `kubectl vmss run node-0 "uname -a"`. -/
def exampleOptions : runOptions :=
  { ns := "kube-system".toList, node := "node-0".toList, pod := [], command := "uname -a".toList }

/-! ### The shape of an envelope -/

/-- The member `m` of an object is matched with the field called `name`. -/
def namesField (name : Str) (m : Str × JSON) : Bool := decide (foldName m.1 = name)

/-- A value that `Message` accepts: a string or `null`. -/
def fitsString : JSON → Bool
  | .str _ => true
  | .null => true
  | _ => false

/-- A value that an element accepts: `null`, or an object each of whose members
named `message` is a string or `null`. -/
def fitsElement : JSON → Bool
  | .null => true
  | .obj ms => ms.all (fun m => !namesField "message".toList m || fitsString m.2)
  | _ => false

/-- A value that `Value` accepts: `null`, or an array of values that an element
accepts. -/
def fitsSlice : JSON → Bool
  | .null => true
  | .arr es => es.all fitsElement
  | _ => false

/-- A document that `runCommandResponse` accepts: `null`, or an object each of
whose members named `value` is accepted by `Value`. -/
def fitsResponse : JSON → Bool
  | .null => true
  | .obj ms => ms.all (fun m => !namesField "value".toList m || fitsSlice m.2)
  | _ => false

/-- The value of the last member named `value`, if there is one. -/
def lastValue (ms : List (Str × JSON)) : Option JSON :=
  (ms.reverse.find? (namesField "value".toList)).map (·.2)

/-- A value that leaves `Value` without element: `null` or the empty array. -/
def emptiesSlice : JSON → Bool
  | .null => true
  | .arr [] => true
  | _ => false

/-- A document that leaves `Value` without element: `null`, or an object that
has no member named `value` or whose last such member is `null` or the empty
array. -/
def leavesNoValue : JSON → Bool
  | .null => true
  | .obj ms =>
    match lastValue ms with
    | none => true
    | some v => emptiesSlice v
  | _ => false

/-- The empty array. -/
def isEmptyArray : JSON → Bool
  | .arr [] => true
  | _ => false

/-- A string. -/
def isString : JSON → Bool
  | .str _ => true
  | _ => false

/-- The shape the claim C7 speaks of: an object with a member named `value`
that is the empty array. -/
def hasEmptyValueArray : JSON → Bool
  | .obj ms => ms.any (fun m => namesField "value".toList m && isEmptyArray m.2)
  | _ => false

/-- An object with a member named `message` that is a string. -/
def hasStringMessage : JSON → Bool
  | .obj ms => ms.any (fun m => namesField "message".toList m && isString m.2)
  | _ => false

/-- The shape the claim C8 speaks of: an object with a member named `value`
that is an array each of whose elements is an object with a string `message`. -/
def hasExpectedShape : JSON → Bool
  | .obj ms => ms.any (fun m => namesField "value".toList m &&
      (match m.2 with
       | .arr es => es.all hasStringMessage
       | _ => false))
  | _ => false

/-- Scenario E: `{"value":[]}`. -/
def scenarioE : Str := "\x7b\"value\":[]\x7d".toList

/-- The empty object `{}`. -/
def emptyObjectText : Str := "\x7b\x7d".toList

/-- An element without message: `{"value":[{}]}`. -/
def noMessageEnvelope : Str := "\x7b\"value\":[\x7b\x7d]\x7d".toList

/-! ### Examples and predicates for the later properties -/

/-- The example of the bare marker:
`{"value":[{"message":"Enable succeeded: [stdout]hello[stderr]oops"}]}`. -/
def bareMarkerEnvelope : Str :=
  "\x7b\"value\":[\x7b\"message\":\"Enable succeeded: [stdout]hello[stderr]oops\"\x7d]\x7d".toList

/-- A message with two stderr markers:
`{"value":[{"message":"[stdout]\nout\n[stderr]\nfirst[stderr]second"}]}`. -/
def twoStderrEnvelope : Str :=
  "\x7b\"value\":[\x7b\"message\":\"[stdout]\\nout\\n[stderr]\\nfirst[stderr]second\"\x7d]\x7d".toList

/-- The arguments with which `ResolveNodeFromPod` calls kubectl. -/
def nodeOfPodArgs (ns pod : Str) : List Str :=
  ["get".toList, "pod".toList, pod, "-n".toList, ns, "-o".toList,
    "jsonpath=\x7b.spec.nodeName\x7d".toList]

/-- The arguments with which `RunCommand` calls az. -/
def invokeArgs (info : NodeInfo) (script : Str) : List Str :=
  ["vmss".toList, "run-command".toList, "invoke".toList,
    "-g".toList, info.ResourceGroup,
    "-n".toList, info.VMSSName,
    "--instance-id".toList, info.InstanceID,
    "--command-id".toList, "RunShellScript".toList,
    "--scripts".toList, script,
    "--subscription".toList, info.Subscription,
    "-o".toList, "json".toList]

/-- A `DefaultRunner` whose kubectl prints a node name between blanks and whose
az fails with exit status 1 after printing a diagnostic. -/
def failingAzRunner : DefaultRunner :=
  { kubectl := fun _ => (" node-7\n".toList, none)
    az := fun _ => ("ERROR: not logged in".toList, some (.errorString "exit status 1".toList)) }

/-- A `DefaultRunner` whose kubectl fails. -/
def failingKubectlRunner : DefaultRunner :=
  { kubectl := fun _ => ("Error from server (NotFound)".toList,
      some (.errorString "exit status 1".toList))
    az := fun _ => ([], none) }

/-! ### The calls of a command -/

/-- The error with which `runner` answers the call `c`, when it fails. -/
def Runner.errorOf (runner : Runner) : Call → Option GoError
  | .ResolveNodeFromPod ns pod =>
    match runner.ResolveNodeFromPod ns pod with
    | .error e => some e
    | .ok _ => none
  | .ResolveVMSS node =>
    match runner.ResolveVMSS node with
    | .error e => some e
    | .ok _ => none
  | .GetContainerName ns pod =>
    match runner.GetContainerName ns pod with
    | .error e => some e
    | .ok _ => none
  | .RunCommand info script =>
    match runner.RunCommand info script with
    | .error e => some e
    | .ok _ => none

/-- A command started in state `s` and ended with `res` short-circuits: a call
that failed is the last call made, its error is what the command returns, and
nothing was written on `Out`. -/
def ShortCircuits (runner : Runner) (s : RunState) (res : RunState × Option GoError) : Prop :=
  ∃ new : List Call, res.1.calls = s.calls ++ new ∧
    ∀ (i : Nat) (c : Call) (e : GoError), new[i]? = some c → runner.errorOf c = some e →
      new.length = i + 1 ∧ res.2 = some e ∧ res.1.Out = s.Out

/-- A lookup is any call but `RunCommand`. -/
def Call.isLookup : Call → Bool
  | .RunCommand _ _ => false
  | _ => true

/-- Lookups first, then at most one execute: a `RunCommand` call is the last call. -/
def LookupsThenExecute (new : List Call) : Prop :=
  ∀ (i : Nat) (c : Call), new[i]? = some c → c.isLookup = false → new.length = i + 1

/-- A runner like the mock of the integration tests: every call succeeds, or
`ResolveNodeFromPod` fails with `nodeErr`. -/
def mockRunner (nodeErr : Option GoError) : Runner :=
  { ResolveNodeFromPod := fun _ _ =>
      match nodeErr with
      | some e => .error e
      | none => .ok "aks-nodepool1-12345678-vmss000000".toList
    ResolveVMSS := fun _ =>
      .ok { Subscription := "00000000-0000-0000-0000-000000000000".toList,
            ResourceGroup := "MC_my-rg_my-aks_eastus".toList,
            VMSSName := "aks-nodepool1-12345678-vmss".toList,
            InstanceID := "0".toList }
    GetContainerName := fun _ _ => .ok "cilium-agent".toList
    RunCommand := fun _ _ => .ok { Stdout := "fake log output".toList, Stderr := [] } }

/-- The options of `kubectl vmss logs nonexistent-pod`. -/
def logsOfPod : logsOptions :=
  { ns := "kube-system".toList, node := [], tail := 0, previous := false,
    pod := "nonexistent-pod".toList }

/-- The options of `kubectl vmss run --pod cilium-abc123 "uname -a"`. -/
def runOnPod : runOptions :=
  { ns := "kube-system".toList, node := [], pod := "cilium-abc123".toList,
    command := "uname -a".toList }

/-- The shape of every run of a command: at most `n` lookups that succeeded,
then one last call; when the last call fails, its error is returned and `Out`
is untouched. -/
def Traced (runner : Runner) (s : RunState) (res : RunState × Option GoError) (n : Nat) : Prop :=
  ∃ (pre : List Call) (last : Call), res.1.calls = s.calls ++ (pre ++ [last]) ∧
    pre.length ≤ n ∧
    (∀ c ∈ pre, c.isLookup = true ∧ runner.errorOf c = none) ∧
    (∀ e, runner.errorOf last = some e → res.2 = some e ∧ res.1.Out = s.Out)

/-! ### Key segments -/

/-- A segment that `ParseProviderID` takes for one of its four keys. -/
def isKeySegment (p : Str) : Bool :=
  decide (ToLower p ∈ ["subscriptions".toList, "resourcegroups".toList,
    "virtualmachinescalesets".toList, "virtualmachines".toList])

/-- The segments `qs` are the segments `ps` with the letter case of some key
segments changed: the lists are equally long, and each segment is kept, or is
a key segment replaced by a segment with the same lower-cased text. -/
def caseVariant : List Str → List Str → Bool
  | [], [] => true
  | p :: ps, q :: qs =>
    (decide (q = p) || (isKeySegment p && decide (ToLower q = ToLower p))) && caseVariant ps qs
  | _, _ => false

/-- No key segment is the value of the key segment right before it. -/
def noKeyAsValue : List Str → Bool
  | p :: q :: ps => !(isKeySegment p && isKeySegment q) && noKeyAsValue (q :: ps)
  | _ => true

/-- The value one key ends with when the segments are walked: the segment
after the last segment that matches the key and has a successor. -/
def walkKey (key : Str) : List Str → Str → Str
  | p :: q :: ps, v => walkKey key (q :: ps) (if ToLower p = key then q else v)
  | _, v => v

/-- The identity string `pid` with the segments `extras` appended, each
preceded by `/`. -/
def appendSegments (pid : Str) (extras : List Str) : Str :=
  extras.foldl (fun acc x => acc ++ '/' :: x) pid

/-- Scenario A with the keys `subscriptions` and `resourceGroups` in capitals. -/
def scenarioAUpper : Str :=
  "azure:///SUBSCRIPTIONS/00000000-0000-0000-0000-000000000000/RESOURCEGROUPS/MC_my-rg_my-aks_eastus/providers/Microsoft.Compute/virtualMachineScaleSets/aks-nodepool1-12345678-vmss/virtualMachines/0".toList

/-- Scenario A. -/
def scenarioA : Str :=
  "azure:///subscriptions/00000000-0000-0000-0000-000000000000/resourceGroups/MC_my-rg_my-aks_eastus/providers/Microsoft.Compute/virtualMachineScaleSets/aks-nodepool1-12345678-vmss/virtualMachines/0".toList

/-- An identity that ends with a key:
`azure:///subscriptions/a/resourceGroups/b/virtualMachineScaleSets/c/virtualMachines/d/subscriptions`. -/
def danglingKeyIdentity : Str :=
  "azure:///subscriptions/a/resourceGroups/b/virtualMachineScaleSets/c/virtualMachines/d/subscriptions".toList

/-! ### What a command prints -/

/-- The progress line that `Run` writes before it calls `RunCommand`. -/
def runningLine (info : NodeInfo) : Str :=
  "Running on ".toList ++ info.VMSSName ++ "/".toList ++ info.InstanceID ++ "...\n".toList

/-- The progress lines of the cilium command: the two of the node lookup and
the one before `RunCommand`. -/
def ciliumProgress (o : ciliumOptions) (node : Str) (info : NodeInfo) : Str :=
  "Resolving node from pod ".toList ++ o.ns ++ "/".toList ++ o.pod ++ "...\n".toList ++
    ("Pod ".toList ++ o.ns ++ "/".toList ++ o.pod ++ " is on node: ".toList ++ node ++
      "\n".toList) ++
    ("Running cilium ".toList ++ Join o.args " ".toList ++ " on ".toList ++ info.VMSSName ++
      "/".toList ++ info.InstanceID ++ "...\n".toList)

/-- A text followed by one newline, or nothing for the empty text. -/
def lineOf (text : Str) : Str := if text = [] then [] else text ++ "\n".toList

/-- The command started in `s` and ended in `t` has made `RunCommand info script`
its last call, got `result` from it, and has written `result.Stdout` as a line on
`Out` and, after `progress`, `result.Stderr` as a line on `ErrOut`. -/
def Printed (runner : Runner) (s t : RunState) (info : NodeInfo) (script : Str)
    (result : CommandResult) (progress : Str) : Prop :=
  t.calls.getLast? = some (.RunCommand info script) ∧
  runner.RunCommand info script = .ok result ∧
  t.Out = s.Out ++ lineOf result.Stdout ∧
  t.ErrOut = s.ErrOut ++ progress ++ lineOf result.Stderr

/-- A runner like the mock of `TestIntegration_StderrOutput`: every call
succeeds and `RunCommand` returns some output and a warning. -/
def warningRunner : Runner :=
  { ResolveNodeFromPod := fun _ _ => .ok "aks-nodepool1-12345678-vmss000000".toList
    ResolveVMSS := fun _ =>
      .ok { Subscription := "00000000-0000-0000-0000-000000000000".toList,
            ResourceGroup := "MC_my-rg_my-aks_eastus".toList,
            VMSSName := "aks-nodepool1-12345678-vmss".toList,
            InstanceID := "0".toList }
    GetContainerName := fun _ _ => .ok "cilium-agent".toList
    RunCommand := fun _ _ => .ok { Stdout := "some output".toList, Stderr := "a warning".toList } }

/-- The options of `kubectl vmss logs cilium-abc123`. -/
def logsOfCilium : logsOptions :=
  { ns := "kube-system".toList, node := [], tail := 0, previous := false,
    pod := "cilium-abc123".toList }

/-- The options of `kubectl vmss logs cilium-abc123 --node my-specific-node`. -/
def logsWithNode : logsOptions :=
  { ns := "kube-system".toList, node := "my-specific-node".toList, tail := 0, previous := false,
    pod := "cilium-abc123".toList }

/-- The state before a command runs: no call made, nothing written. -/
def startState : RunState := { calls := [], Out := [], ErrOut := [] }

/-! ### Repeated keys -/

/-- The segment at index `i` of `parts` equals `key` when both are lower-cased
and is followed by the segment `v`, and a later segment that equals `key` is
the very last segment. -/
def KeyLastAt (parts : List Str) (key : Str) (i : Nat) (v : Str) : Prop :=
  (parts[i]?).map ToLower = some (ToLower key) ∧
  parts[i + 1]? = some v ∧
  ∀ j < parts.length, i < j → (parts[j]?).map ToLower = some (ToLower key) →
    parts.length = j + 1

instance (parts : List Str) (key : Str) (i : Nat) (v : Str) :
    Decidable (KeyLastAt parts key i v) := by
  unfold KeyLastAt; infer_instance

/-- An identity whose second `subscriptions` key is followed by an empty segment:
`azure:///subscriptions/a/resourceGroups/b/virtualMachineScaleSets/c/virtualMachines/d/subscriptions//x`. -/
def emptyRepeatIdentity : Str :=
  "azure:///subscriptions/a/resourceGroups/b/virtualMachineScaleSets/c/virtualMachines/d/subscriptions//x".toList

/-- An identity whose `subscriptions` key comes twice, each time with a value:
`azure:///subscriptions/a/resourceGroups/b/virtualMachineScaleSets/c/virtualMachines/d/subscriptions/e`. -/
def repeatIdentity : Str :=
  "azure:///subscriptions/a/resourceGroups/b/virtualMachineScaleSets/c/virtualMachines/d/subscriptions/e".toList

/-! ### Messages with the markers out of place -/

/-- A message with the stderr marker first and the stdout marker at its very end:
`{"value":[{"message":"[stderr]a[stdout]"}]}`. -/
def reversedMarkersEnvelope : Str :=
  "\x7b\"value\":[\x7b\"message\":\"[stderr]a[stdout]\"\x7d]\x7d".toList

/-- An empty message: `{"value":[{"message":""}]}`. -/
def emptyMessageEnvelope : Str :=
  "\x7b\"value\":[\x7b\"message\":\"\"\x7d]\x7d".toList

/-! ## Lemmas on the loop of ParseProviderID -/

theorem parseStep_Subscription (parts : List Str) (i : Nat) (p : Str) (info : NodeInfo) :
    (parseStep parts i p info).Subscription =
      if ToLower p = "subscriptions".toList then (parts[i + 1]?).getD info.Subscription
      else info.Subscription := by
  unfold parseStep
  by_cases hi : i + 1 < parts.length
  · simp only [hi, dite_true, List.getElem?_eq_getElem, Option.getD_some]
    split_ifs <;> rfl
  · have hn : parts[i + 1]? = none := List.getElem?_eq_none (by omega)
    simp only [hi, dite_false, hn, Option.getD_none]
    split_ifs <;> rfl

theorem parseStep_ResourceGroup (parts : List Str) (i : Nat) (p : Str) (info : NodeInfo) :
    (parseStep parts i p info).ResourceGroup =
      if ToLower p = "resourcegroups".toList then (parts[i + 1]?).getD info.ResourceGroup
      else info.ResourceGroup := by
  unfold parseStep
  by_cases hi : i + 1 < parts.length
  · simp only [hi, dite_true, List.getElem?_eq_getElem, Option.getD_some]
    split_ifs <;> first | rfl | (exfalso; simp_all)
  · have hn : parts[i + 1]? = none := List.getElem?_eq_none (by omega)
    simp only [hi, dite_false, hn, Option.getD_none]
    split_ifs <;> rfl

theorem parseStep_VMSSName (parts : List Str) (i : Nat) (p : Str) (info : NodeInfo) :
    (parseStep parts i p info).VMSSName =
      if ToLower p = "virtualmachinescalesets".toList then (parts[i + 1]?).getD info.VMSSName
      else info.VMSSName := by
  unfold parseStep
  by_cases hi : i + 1 < parts.length
  · simp only [hi, dite_true, List.getElem?_eq_getElem, Option.getD_some]
    split_ifs <;> first | rfl | (exfalso; simp_all)
  · have hn : parts[i + 1]? = none := List.getElem?_eq_none (by omega)
    simp only [hi, dite_false, hn, Option.getD_none]
    split_ifs <;> rfl

theorem parseStep_InstanceID (parts : List Str) (i : Nat) (p : Str) (info : NodeInfo) :
    (parseStep parts i p info).InstanceID =
      if ToLower p = "virtualmachines".toList then (parts[i + 1]?).getD info.InstanceID
      else info.InstanceID := by
  unfold parseStep
  by_cases hi : i + 1 < parts.length
  · simp only [hi, dite_true, List.getElem?_eq_getElem, Option.getD_some]
    split_ifs <;> first | rfl | (exfalso; simp_all)
  · have hn : parts[i + 1]? = none := List.getElem?_eq_none (by omega)
    simp only [hi, dite_false, hn, Option.getD_none]
    split_ifs <;> rfl

theorem parseLoop_fields (parts : List Str) (rest : List Str) :
    ∀ (i : Nat) (info : NodeInfo),
      (parseLoop parts i rest info).Subscription
          = lastAfter parts "subscriptions".toList i rest info.Subscription ∧
      (parseLoop parts i rest info).ResourceGroup
          = lastAfter parts "resourcegroups".toList i rest info.ResourceGroup ∧
      (parseLoop parts i rest info).VMSSName
          = lastAfter parts "virtualmachinescalesets".toList i rest info.VMSSName ∧
      (parseLoop parts i rest info).InstanceID
          = lastAfter parts "virtualmachines".toList i rest info.InstanceID := by
  induction rest with
  | nil => intro i info; simp [parseLoop, lastAfter]
  | cons p rest ih =>
    intro i info
    obtain ⟨h1, h2, h3, h4⟩ := ih (i + 1) (parseStep parts i p info)
    simp only [parseLoop, lastAfter]
    rw [h1, h2, h3, h4, parseStep_Subscription, parseStep_ResourceGroup, parseStep_VMSSName,
      parseStep_InstanceID]
    exact ⟨rfl, rfl, rfl, rfl⟩

/-- Without a matching segment the loop leaves the value alone. -/
theorem lastAfter_of_no_match (parts : List Str) (key : Str) (rest : List Str)
    (h : ∀ p ∈ rest, ToLower p ≠ key) (i : Nat) (v : Str) :
    lastAfter parts key i rest v = v := by
  induction rest generalizing i v with
  | nil => rfl
  | cons p rest ih =>
    simp only [lastAfter]
    rw [if_neg (h p (List.mem_cons_self _ _))]
    exact ih (fun q hq => h q (List.mem_cons_of_mem _ hq)) _ _

/-- A value that the loop leaves non-empty, having started from the empty
string, comes from a matching segment. -/
theorem exists_match_of_lastAfter_ne (parts : List Str) (key : Str) (rest : List Str) (i : Nat)
    (h : lastAfter parts key i rest [] ≠ []) : ∃ p ∈ rest, ToLower p = key := by
  by_contra hc
  push_neg at hc
  exact h (lastAfter_of_no_match parts key rest hc i [])

/-- With the key at index `i0` only, followed by `w`, the loop ends with `w`. -/
theorem lastAfter_of_once (parts : List Str) (key : Str) (i0 : Nat) (w : Str)
    (hk : (parts[i0]?).map ToLower = some key)
    (hu : ∀ j, (parts[j]?).map ToLower = some key → j = i0)
    (hw : parts[i0 + 1]? = some w) :
    ∀ (rest : List Str) (i : Nat) (v : Str), rest = parts.drop i → i ≤ i0 →
      lastAfter parts key i rest v = w := by
  intro rest
  induction rest with
  | nil =>
    intro i v hr hi
    exfalso
    have hlen : parts.length ≤ i := List.drop_eq_nil_iff.mp hr.symm
    have : parts[i0]? = none := List.getElem?_eq_none (by omega)
    rw [this] at hk
    simp at hk
  | cons p rest ih =>
    intro i v hr hi
    have hp : parts[i]? = some p := by
      have := congrArg List.head? hr
      simpa [List.head?_drop] using this.symm
    have hrest : rest = parts.drop (i + 1) := by
      have := congrArg List.tail hr
      simpa [List.tail_drop] using this
    simp only [lastAfter]
    by_cases hpk : ToLower p = key
    · have hii : i = i0 := hu i (by rw [hp]; simp [hpk])
      subst hii
      rw [if_pos hpk, hw, Option.getD_some]
      apply lastAfter_of_no_match
      intro q hq hqk
      rw [hrest] at hq
      obtain ⟨n, hn, hqn⟩ := List.mem_iff_getElem.mp hq
      rw [List.getElem_drop] at hqn
      have hlt : i + 1 + n < parts.length := by
        rw [List.length_drop] at hn; omega
      have := hu (i + 1 + n) (by rw [List.getElem?_eq_getElem hlt, hqn]; simp [hqk])
      omega
    · rw [if_neg hpk]
      have hne : i ≠ i0 := by
        intro hii
        subst hii
        rw [hp] at hk
        simp at hk
        exact hpk hk
      exact ih (i + 1) v hrest (by omega)

theorem lastAfter_of_KeyOnceAt (parts : List Str) (key : Str) (i0 : Nat) (w v : Str)
    (h : KeyOnceAt parts key i0 w) : lastAfter parts (ToLower key) 0 parts v = w := by
  obtain ⟨hk, hu, hw, _⟩ := h
  refine lastAfter_of_once parts (ToLower key) i0 w hk ?_ hw parts 0 v rfl (Nat.zero_le _)
  intro j hj
  by_cases hlt : j < parts.length
  · exact hu j hlt hj
  · rw [List.getElem?_eq_none (by omega)] at hj
    simp at hj

/-! ## Lemmas on strings -/

/-- The bound of `genSplit` does not matter once it reaches the length of the
text: every cut removes at least one character. -/
theorem genSplit_bound (sep : Str) (hsep : sep ≠ []) :
    ∀ (n m : Nat) (s : Str), s.length ≤ n → s.length ≤ m →
      genSplit n s sep = genSplit m s sep := by
  have hnil : ∀ k, genSplit k [] sep = [[]] := by
    intro k
    cases k with
    | zero => rfl
    | succ k =>
      have : Index [] sep = none := by
        unfold Index
        rw [if_neg]
        intro hc
        exact hsep (List.prefix_nil.mp (List.isPrefixOf_iff_prefix.mp hc))
      simp only [genSplit, this]
  intro n
  induction n with
  | zero =>
    intro m s hn _
    have : s = [] := List.length_eq_zero.mp (Nat.le_zero.mp hn)
    subst this
    rw [hnil, hnil]
  | succ n ih =>
    intro m s hn hm
    cases m with
    | zero =>
      have : s = [] := List.length_eq_zero.mp (Nat.le_zero.mp hm)
      subst this
      rw [hnil, hnil]
    | succ m =>
      simp only [genSplit]
      cases Index s sep with
      | none => rfl
      | some i =>
        simp only
        have hl : 0 < sep.length := List.length_pos.mpr hsep
        rw [ih m (s.drop (i + sep.length)) (by rw [List.length_drop]; omega)
          (by rw [List.length_drop]; omega)]

/-- `Split` cuts at every occurrence: a larger bound gives the same segments. -/
theorem Split_eq_genSplit (s sep : Str) (hsep : sep ≠ []) (n : Nat) (hn : s.length ≤ n) :
    Split s sep = genSplit n s sep :=
  genSplit_bound sep hsep s.length n s (Nat.le_refl _) hn

theorem Index_eq_none_iff (s sub : Str) : Index s sub = none ↔ ¬ sub <:+: s := by
  induction s with
  | nil =>
    unfold Index
    by_cases h : sub.isPrefixOf [] = true
    · have : sub <+: [] := List.isPrefixOf_iff_prefix.mp h
      simp [h, this.isInfix]
    · have hn : ¬ sub <+: [] := fun hc => h (List.isPrefixOf_iff_prefix.mpr hc)
      rw [if_neg h]
      simp only [true_iff]
      intro hc
      exact hn (by rw [List.infix_nil] at hc; rw [hc])
  | cons c s ih =>
    unfold Index
    by_cases h : sub.isPrefixOf (c :: s) = true
    · have : sub <+: c :: s := List.isPrefixOf_iff_prefix.mp h
      simp [h, this.isInfix]
    · have hn : ¬ sub <+: c :: s := fun hc => h (List.isPrefixOf_iff_prefix.mpr hc)
      rw [if_neg h]
      simp only [Option.map_eq_none', ih, List.infix_cons_iff, hn, false_or]

theorem Index_spec (s sub : Str) (i : Nat) (h : Index s sub = some i) :
    sub <+: s.drop i ∧ ∀ j < i, ¬ sub <+: s.drop j := by
  induction s generalizing i with
  | nil =>
    unfold Index at h
    by_cases hp : sub.isPrefixOf [] = true
    · simp only [hp, if_true, Option.some.injEq] at h
      subst h
      exact ⟨List.isPrefixOf_iff_prefix.mp hp, fun j hj => absurd hj (Nat.not_lt_zero _)⟩
    · rw [if_neg hp] at h
      exact absurd h (by simp)
  | cons c s ih =>
    unfold Index at h
    by_cases hp : sub.isPrefixOf (c :: s) = true
    · simp only [hp, if_true, Option.some.injEq] at h
      subst h
      exact ⟨List.isPrefixOf_iff_prefix.mp hp, fun j hj => absurd hj (Nat.not_lt_zero _)⟩
    · rw [if_neg hp] at h
      simp only [Option.map_eq_some'] at h
      obtain ⟨k, hk, rfl⟩ := h
      obtain ⟨h1, h2⟩ := ih k hk
      refine ⟨by simpa using h1, ?_⟩
      intro j hj
      cases j with
      | zero => exact fun hc => hp (List.isPrefixOf_iff_prefix.mpr (by simpa using hc))
      | succ j => simpa using h2 j (by omega)

/-- A text whose first character does not come back in it cannot start inside a
non-empty `q` that does not contain it and run into a copy of itself. -/
theorem not_prefix_of_unbordered (c : Char) (x q r : Str) (hc : c ∉ x) (hq : q ≠ [])
    (hn : ¬ (c :: x) <:+: q) : ¬ (c :: x) <+: q ++ (c :: x) ++ r := by
  intro h
  rw [List.append_assoc] at h
  rcases List.prefix_or_prefix_of_prefix h (List.prefix_append q _) with h1 | h1
  · exact hn h1.isInfix
  · obtain ⟨w, hw⟩ := h1
    rw [← hw, List.prefix_append_right_inj] at h
    cases q with
    | nil => exact hq rfl
    | cons a q =>
      simp only [List.cons_append, List.cons.injEq] at hw
      obtain ⟨hac, hx⟩ := hw
      subst hac
      cases w with
      | nil =>
        apply hn
        rw [← hx]
        simp
      | cons b w =>
        have hb : b = a := by
          obtain ⟨t, ht⟩ := h
          simp only [List.cons_append, List.cons.injEq] at ht
          exact ht.1
        apply hc
        rw [← hx, hb]
        simp

theorem Index_append_unbordered (c : Char) (x p r : Str) (hc : c ∉ x)
    (hp : ¬ (c :: x) <:+: p) : Index (p ++ (c :: x) ++ r) (c :: x) = some p.length := by
  induction p with
  | nil =>
    have : (c :: x).isPrefixOf (c :: (x ++ r)) = true :=
      List.isPrefixOf_iff_prefix.mpr (by simp)
    show Index (c :: (x ++ r)) (c :: x) = some 0
    unfold Index
    rw [if_pos this]
  | cons a p ih =>
    have hno : ¬ (c :: x) <+: (a :: p) ++ (c :: x) ++ r :=
      not_prefix_of_unbordered c x (a :: p) r hc (by simp) hp
    have hno2 : ¬ (c :: x).isPrefixOf (a :: (p ++ (c :: x) ++ r)) = true := by
      intro h
      exact hno (by simpa using List.isPrefixOf_iff_prefix.mp h)
    have hp2 : ¬ (c :: x) <:+: p := fun h => hp (List.infix_cons h)
    show Index (a :: (p ++ (c :: x) ++ r)) (c :: x) = some (p.length + 1)
    unfold Index
    rw [if_neg hno2, ih hp2]
    rfl

/-- What stands before the first occurrence does not contain the text. -/
theorem not_infix_take_of_Index (s sub : Str) (i : Nat) (hsub : sub ≠ [])
    (h : Index s sub = some i) : ¬ sub <:+: s.take i := by
  intro hc
  obtain ⟨pre, post, hpp⟩ := hc
  have hlen : (pre ++ sub ++ post).length = (s.take i).length := by rw [hpp]
  have hsl : 0 < sub.length := List.length_pos.mpr hsub
  have htl : (s.take i).length ≤ i := by simp
  simp only [List.length_append] at hlen
  have hj : pre.length < i := by omega
  apply (Index_spec s sub i h).2 pre.length hj
  have hs : s = pre ++ sub ++ post ++ s.drop i := by rw [hpp, List.take_append_drop]
  rw [hs]
  simp [List.append_assoc]

theorem TrimSpace_isInfix_self (s : Str) : TrimSpace s <:+: s :=
  ((List.rdropWhile_prefix isSpace (s.dropWhile isSpace)).isInfix).trans
    (List.dropWhile_suffix isSpace).isInfix

theorem TrimSpace_idem (s : Str) : TrimSpace (TrimSpace s) = TrimSpace s := by
  unfold TrimSpace
  have key : ∀ hd, isSpace ((s.dropWhile isSpace).head hd) = false :=
    List.head_dropWhile_not isSpace s
  generalize s.dropWhile isSpace = d at key
  have hpre : d.rdropWhile isSpace <+: d := List.rdropWhile_prefix isSpace d
  have h1 : (d.rdropWhile isSpace).dropWhile isSpace = d.rdropWhile isSpace := by
    generalize d.rdropWhile isSpace = t at hpre
    cases t with
    | nil => rfl
    | cons a t =>
      obtain ⟨u, hu⟩ := hpre
      subst hu
      have := key (by simp)
      simp only [List.cons_append, List.head_cons] at this
      rw [List.dropWhile_cons_of_neg (by simp [this])]
  rw [h1, List.rdropWhile_idempotent]

theorem TrimSpace_newline_cons (s : Str) : TrimSpace ('\n' :: s) = TrimSpace s := by
  unfold TrimSpace
  rw [List.dropWhile_cons_of_pos (by decide)]


/-! ## Lemmas on the decoding of a message -/

theorem stdoutNl_eq : "[stdout]\n".toList = '[' :: "stdout]\n".toList := rfl

theorem stdout_eq : "[stdout]".toList = '[' :: "stdout]".toList := rfl

theorem stderr_eq : "[stderr]".toList = '[' :: "stderr]".toList := rfl

theorem sliceFrom_append (p x r : Str) : sliceFrom (p ++ x ++ r) (p.length + x.length) = some r := by
  unfold sliceFrom
  rw [if_pos (by simp)]
  congr 1
  rw [← List.length_append]
  exact List.drop_left' rfl

/-- The stdout marker with its newline, not contained in what precedes it, is
where the message is cut. -/
theorem stripStdout_of_marker (p r : Str) (hp : ¬ "[stdout]\n".toList <:+: p) :
    stripStdout (p ++ "[stdout]\n".toList ++ r) = some r := by
  unfold stripStdout
  have hI : Index (p ++ "[stdout]\n".toList ++ r) "[stdout]\n".toList = some p.length := by
    rw [stdoutNl_eq] at hp ⊢
    exact Index_append_unbordered _ _ p r (by decide) hp
  rw [hI]
  exact sliceFrom_append p _ r

/-- A message without any stdout marker is left whole. -/
theorem stripStdout_of_no_marker (msg : Str) (h : ¬ "[stdout]".toList <:+: msg) :
    stripStdout msg = some msg := by
  unfold stripStdout
  have h1 : Index msg "[stdout]\n".toList = none := by
    rw [Index_eq_none_iff]
    intro hc
    exact h (List.IsInfix.trans (by decide) hc)
  have h2 : Index msg "[stdout]".toList = none := (Index_eq_none_iff _ _).mpr h
  rw [h1, h2]

/-- The text is split at a stderr marker that what precedes it does not contain. -/
theorem splitStreams_of_marker (s r : Str) (hs : ¬ "[stderr]".toList <:+: s) :
    splitStreams (s ++ "[stderr]".toList ++ r) =
      some { Stdout := TrimSpace s, Stderr := TrimSpace r } := by
  have hI : Index (s ++ "[stderr]".toList ++ r) "[stderr]".toList = some s.length := by
    rw [stderr_eq] at hs ⊢
    exact Index_append_unbordered _ _ s r (by decide) hs
  have hparts : SplitN2 (s ++ "[stderr]".toList ++ r) "[stderr]".toList = [s, r] := by
    unfold SplitN2 genSplit
    rw [hI]
    simp only [genSplit]
    rw [← List.length_append, List.drop_left' rfl, List.append_assoc, List.take_left' rfl]
  unfold splitStreams
  rw [hparts]
  rfl

/-- A text without stderr marker is all standard output. -/
theorem splitStreams_of_no_marker (s : Str) (hs : ¬ "[stderr]".toList <:+: s) :
    splitStreams s = some { Stdout := TrimSpace s, Stderr := [] } := by
  have hI : Index s "[stderr]".toList = none := (Index_eq_none_iff _ _).mpr hs
  have hparts : SplitN2 s "[stderr]".toList = [s] := by
    unfold SplitN2 genSplit
    rw [hI]
  unfold splitStreams
  rw [hparts]
  rfl

/-- The two parts of a split come out trimmed, and the first holds no stderr marker. -/
theorem splitStreams_spec (m so se : Str)
    (h : splitStreams m = some { Stdout := so, Stderr := se }) :
    TrimSpace so = so ∧ TrimSpace se = se ∧ ¬ "[stderr]".toList <:+: so := by
  cases hI : Index m "[stderr]".toList with
  | none =>
    have hno : ¬ "[stderr]".toList <:+: m := (Index_eq_none_iff _ _).mp hI
    rw [splitStreams_of_no_marker m hno] at h
    simp only [Option.some.injEq, CommandResult.mk.injEq] at h
    obtain ⟨h1, h2⟩ := h
    subst h1 h2
    exact ⟨TrimSpace_idem m, rfl, fun hc => hno (hc.trans (TrimSpace_isInfix_self m))⟩
  | some i =>
    have hno : ¬ "[stderr]".toList <:+: m.take i :=
      not_infix_take_of_Index m _ i (by decide) hI
    have hparts : SplitN2 m "[stderr]".toList =
        [m.take i, m.drop (i + "[stderr]".toList.length)] := by
      unfold SplitN2 genSplit
      rw [hI]
      simp only [genSplit]
    unfold splitStreams at h
    rw [hparts] at h
    simp only [List.getElem?_cons_zero, List.length_cons, List.length_nil, Nat.lt_add_one,
      Nat.reduceAdd, Nat.one_lt_ofNat, if_true, List.getElem?_cons_succ, Option.some.injEq,
      CommandResult.mk.injEq] at h
    obtain ⟨h1, h2⟩ := h
    subst h1 h2
    exact ⟨TrimSpace_idem _, TrimSpace_idem _,
      fun hc => hno (hc.trans (TrimSpace_isInfix_self _))⟩

/-- The wire format at the level of the message. -/
theorem decodeMessage_wire (p s e : Str) (hp : ¬ "[stdout]\n".toList <:+: p)
    (hs : ¬ "[stderr]".toList <:+: s) :
    decodeMessage (p ++ "[stdout]\n".toList ++ s ++ "[stderr]\n".toList ++ e) =
      .ok { Stdout := TrimSpace s, Stderr := TrimSpace e } := by
  have hm : p ++ "[stdout]\n".toList ++ s ++ "[stderr]\n".toList ++ e =
      p ++ "[stdout]\n".toList ++ (s ++ "[stderr]".toList ++ ('\n' :: e)) := by
    have : "[stderr]\n".toList = "[stderr]".toList ++ ['\n'] := rfl
    rw [this]
    simp only [List.append_assoc, List.singleton_append]
  unfold decodeMessage
  rw [hm, stripStdout_of_marker p _ hp, Option.some_bind, splitStreams_of_marker s _ hs,
    TrimSpace_newline_cons]

/-- With at least one element, the result is the decoding of the first message. -/
theorem parseRunCommandOutput_of_first (raw : Str) (resp : runCommandResponse)
    (first : runCommandValue) (rest : List runCommandValue)
    (hraw : Unmarshal raw = .ok resp) (hfirst : resp.Value = first :: rest) :
    parseRunCommandOutput raw = decodeMessage first.Message := by
  unfold parseRunCommandOutput
  rw [hraw]
  simp only [hfirst]

/-- A successful decode comes from the split of some text. -/
theorem exists_split_of_parseRunCommandOutput (raw : Str) (result : CommandResult)
    (h : parseRunCommandOutput raw = .ok result) : ∃ m, splitStreams m = some result := by
  unfold parseRunCommandOutput at h
  split at h
  · exact absurd h (by simp)
  · split at h
    · exact absurd h (by simp)
    · rename_i first _ _
      unfold decodeMessage at h
      cases hs : stripStdout first.Message with
      | none => rw [hs] at h; exact absurd h (by simp)
      | some m =>
        rw [hs, Option.some_bind] at h
        refine ⟨m, ?_⟩
        cases hm : splitStreams m with
        | none => rw [hm] at h; exact absurd h (by simp)
        | some r =>
          rw [hm] at h
          simp only [Except.ok.injEq] at h
          rw [h]

/-! ## Lemmas on json.Unmarshal -/

theorem decodeString_flag (cur : Str) (v : JSON) :
    (decodeString cur v).2 = !fitsString v := by
  cases v <;> rfl

theorem decodeElement_fold_flag (ms : List (Str × JSON)) :
    ∀ acc : runCommandValue × Bool,
      (ms.foldl
        (fun acc m =>
          if foldName m.1 = "message".toList then
            let r := decodeString acc.1.Message m.2
            (⟨r.1⟩, acc.2 || r.2)
          else acc) acc).2 =
        (acc.2 || !ms.all (fun m => !namesField "message".toList m || fitsString m.2)) := by
  induction ms with
  | nil => intro acc; simp
  | cons m ms ih =>
    intro acc
    rw [List.foldl_cons, ih]
    by_cases hn : foldName m.1 = "message".toList
    · have hb : namesField "message".toList m = true := decide_eq_true hn
      simp only [hn, if_true, decodeString_flag, List.all_cons, hb, Bool.not_true, Bool.false_or]
      cases acc.2 <;> cases fitsString m.2 <;> simp
    · have hb : namesField "message".toList m = false := decide_eq_false hn
      simp only [hn, if_false, List.all_cons, hb, Bool.not_false, Bool.true_or, Bool.true_and]

theorem decodeElement_flag (cur : runCommandValue) (v : JSON) :
    (decodeElement cur v).2 = !fitsElement v := by
  cases v with
  | obj ms =>
    simp only [decodeElement, fitsElement]
    rw [decodeElement_fold_flag]
    simp
  | _ => rfl

theorem decodeArray_flag (es : List JSON) :
    ∀ cur : List runCommandValue, (decodeArray cur es).2 = !es.all fitsElement := by
  induction es with
  | nil => intro cur; rfl
  | cons e es ih =>
    intro cur
    simp only [decodeArray, ih, decodeElement_flag, List.all_cons]
    cases fitsElement e <;> simp

theorem decodeArray_length (es : List JSON) :
    ∀ cur : List runCommandValue, (decodeArray cur es).1.length = es.length := by
  induction es with
  | nil => intro cur; rfl
  | cons e es ih =>
    intro cur
    simp only [decodeArray, List.length_cons, ih]

theorem decodeSlice_flag (cur : List runCommandValue) (v : JSON) :
    (decodeSlice cur v).2 = !fitsSlice v := by
  cases v with
  | arr es => simp only [decodeSlice, fitsSlice, decodeArray_flag]
  | _ => rfl

/-- A value that fits leaves the slice empty exactly when it is `null` or the
empty array. -/
theorem decodeSlice_eq_nil (cur : List runCommandValue) (v : JSON) (h : fitsSlice v = true) :
    (decodeSlice cur v).1 = [] ↔ emptiesSlice v = true := by
  cases v with
  | arr es =>
    cases es with
    | nil => simp [decodeSlice, decodeArray, emptiesSlice]
    | cons e es => simp [decodeSlice, decodeArray, emptiesSlice]
  | null => simp [decodeSlice, emptiesSlice]
  | _ => simp [fitsSlice] at h

theorem decodeResponse_fold_flag (ms : List (Str × JSON)) :
    ∀ acc : runCommandResponse × Bool,
      (ms.foldl
        (fun acc m =>
          if foldName m.1 = "value".toList then
            let r := decodeSlice acc.1.Value m.2
            (⟨r.1⟩, acc.2 || r.2)
          else acc) acc).2 =
        (acc.2 || !ms.all (fun m => !namesField "value".toList m || fitsSlice m.2)) := by
  induction ms with
  | nil => intro acc; simp
  | cons m ms ih =>
    intro acc
    rw [List.foldl_cons, ih]
    by_cases hn : foldName m.1 = "value".toList
    · have hb : namesField "value".toList m = true := decide_eq_true hn
      simp only [hn, if_true, decodeSlice_flag, List.all_cons, hb, Bool.not_true, Bool.false_or]
      cases acc.2 <;> cases fitsSlice m.2 <;> simp
    · have hb : namesField "value".toList m = false := decide_eq_false hn
      simp only [hn, if_false, List.all_cons, hb, Bool.not_false, Bool.true_or, Bool.true_and]

/-- Decoding records a type error exactly when the document does not fit. -/
theorem decodeResponse_flag (cur : runCommandResponse) (doc : JSON) :
    (decodeResponse cur doc).2 = !fitsResponse doc := by
  cases doc with
  | obj ms =>
    simp only [decodeResponse, fitsResponse]
    rw [decodeResponse_fold_flag]
    simp
  | _ => rfl

theorem lastValue_cons (m : Str × JSON) (ms : List (Str × JSON)) :
    lastValue (m :: ms) =
      match lastValue ms with
      | some v => some v
      | none => if namesField "value".toList m then some m.2 else none := by
  unfold lastValue
  rw [List.reverse_cons, List.find?_append]
  cases List.find? (namesField "value".toList) ms.reverse with
  | some x => rfl
  | none =>
    by_cases hn : namesField "value".toList m = true
    · simp [hn]
    · simp [hn]

theorem decodeResponse_fold_eq_nil (ms : List (Str × JSON)) :
    ∀ acc : runCommandResponse × Bool,
      (∀ m ∈ ms, namesField "value".toList m = true → fitsSlice m.2 = true) →
      ((ms.foldl
        (fun acc m =>
          if foldName m.1 = "value".toList then
            let r := decodeSlice acc.1.Value m.2
            (⟨r.1⟩, acc.2 || r.2)
          else acc) acc).1.Value = [] ↔
        match lastValue ms with
        | some v => emptiesSlice v = true
        | none => acc.1.Value = []) := by
  induction ms with
  | nil => intro acc _; simp [lastValue]
  | cons m ms ih =>
    intro acc hfit
    rw [List.foldl_cons, ih _ (fun x hx => hfit x (List.mem_cons_of_mem _ hx)), lastValue_cons]
    cases lastValue ms with
    | some v => simp
    | none =>
      by_cases hn : foldName m.1 = "value".toList
      · have hb : namesField "value".toList m = true := decide_eq_true hn
        simp only [hn, if_true, hb]
        exact decodeSlice_eq_nil _ _ (hfit m (List.mem_cons_self _ _) hb)
      · have hb : namesField "value".toList m = false := decide_eq_false hn
        simp only [hn, if_false, hb, Bool.false_eq_true]

/-- A document that fits leaves `Value` without element exactly when it is
`null`, has no member named `value`, or has `null` or the empty array as the
last such member. -/
theorem decodeResponse_eq_nil (doc : JSON) (h : fitsResponse doc = true) :
    (decodeResponse ⟨[]⟩ doc).1.Value = [] ↔ leavesNoValue doc = true := by
  cases doc with
  | obj ms =>
    simp only [decodeResponse, leavesNoValue]
    rw [decodeResponse_fold_eq_nil ms _ (by
      intro m hm hn
      simp only [fitsResponse, List.all_eq_true] at h
      have := h m hm
      rw [hn] at this
      exact this)]
    cases lastValue ms <;> simp
  | null => simp [decodeResponse, leavesNoValue]
  | _ => simp [fitsResponse] at h

/-- `Unmarshal` succeeds exactly on the texts that are valid JSON and fit. -/
theorem Unmarshal_ok_iff (raw : Str) (resp : runCommandResponse) :
    Unmarshal raw = .ok resp ↔
      ∃ doc, parseJSON raw = some doc ∧ fitsResponse doc = true ∧
        resp = (decodeResponse ⟨[]⟩ doc).1 := by
  unfold Unmarshal
  cases hp : parseJSON raw with
  | none => simp
  | some doc =>
    simp only [decodeResponse_flag]
    by_cases hfit : fitsResponse doc = true
    · constructor
      · intro h
        simp only [hfit, Bool.not_true, Bool.false_eq_true, if_false, Except.ok.injEq] at h
        exact ⟨doc, rfl, hfit, h.symm⟩
      · rintro ⟨d, hd, _, hr⟩
        simp only [Option.some.injEq] at hd
        subst hd
        simp only [hfit, Bool.not_true, Bool.false_eq_true, if_false, Except.ok.injEq]
        exact hr.symm
    · simp [hfit]

theorem Unmarshal_error_iff (raw : Str) :
    (∃ e, Unmarshal raw = .error e) ↔
      ¬ ∃ doc, parseJSON raw = some doc ∧ fitsResponse doc = true := by
  unfold Unmarshal
  cases hp : parseJSON raw with
  | none => simp
  | some doc =>
    simp only [decodeResponse_flag]
    by_cases hfit : fitsResponse doc = true
    · simp [hfit]
    · simp [hfit]

theorem decodeMessage_ne_errorString (msg m : Str) :
    decodeMessage msg ≠ .error (.errorString m) := by
  unfold decodeMessage
  split <;> simp

theorem decodeMessage_ne_wrapError (msg a b : Str) (e : GoError) :
    decodeMessage msg ≠ .error (.wrapError a e b) := by
  unfold decodeMessage
  split <;> simp

/-! ## The identity parser -/

/-- C1: an identity string that starts with `azure://` and among whose
`/`-separated segments each of the four keys occurs exactly once (compared without
regard to case), each followed by a non-empty segment, is parsed successfully,
and each field is the segment that follows its key. -/
theorem ParseProviderID_of_keys_once (pid : Str) (iS iR iV iM : Nat) (vS vR vV vM : Str)
    (hpre : "azure://".toList <+: pid)
    (hS : KeyOnceAt (Split pid "/".toList) "subscriptions".toList iS vS)
    (hR : KeyOnceAt (Split pid "/".toList) "resourceGroups".toList iR vR)
    (hV : KeyOnceAt (Split pid "/".toList) "virtualMachineScaleSets".toList iV vV)
    (hM : KeyOnceAt (Split pid "/".toList) "virtualMachines".toList iM vM) :
    ParseProviderID pid =
      .ok { Subscription := vS, ResourceGroup := vR, VMSSName := vV, InstanceID := vM } := by
  have hp : HasPrefix pid "azure://".toList = true := List.isPrefixOf_iff_prefix.mpr hpre
  obtain ⟨f1, f2, f3, f4⟩ := parseLoop_fields (Split pid "/".toList) (Split pid "/".toList) 0
    ⟨[], [], [], []⟩
  have e1 := lastAfter_of_KeyOnceAt _ _ _ _ [] hS
  have e2 := lastAfter_of_KeyOnceAt _ _ _ _ [] hR
  have e3 := lastAfter_of_KeyOnceAt _ _ _ _ [] hV
  have e4 := lastAfter_of_KeyOnceAt _ _ _ _ [] hM
  have k1 : ToLower "subscriptions".toList = "subscriptions".toList := by decide
  have k2 : ToLower "resourceGroups".toList = "resourcegroups".toList := by decide
  have k3 : ToLower "virtualMachineScaleSets".toList = "virtualmachinescalesets".toList := by
    decide
  have k4 : ToLower "virtualMachines".toList = "virtualmachines".toList := by decide
  rw [k1] at e1; rw [k2] at e2; rw [k3] at e3; rw [k4] at e4
  rw [e1] at f1; rw [e2] at f2; rw [e3] at f3; rw [e4] at f4
  unfold ParseProviderID
  simp only [hp, Bool.not_true, Bool.false_eq_true, if_false, f1, f2, f3, f4]
  rw [if_neg (by simp [hS.2.2.2, hR.2.2.2, hV.2.2.2, hM.2.2.2])]
  congr 1
  cases hq : parseLoop (Split pid "/".toList) 0 (Split pid "/".toList) ⟨[], [], [], []⟩
  rw [hq] at f1 f2 f3 f4
  simp only at f1 f2 f3 f4
  rw [f1, f2, f3, f4]

set_option maxRecDepth 100000 in
/-- Scenario A of the specification, obtained from C1. -/
theorem ParseProviderID_of_keys_once_witness :
    ParseProviderID "azure:///subscriptions/00000000-0000-0000-0000-000000000000/resourceGroups/MC_my-rg_my-aks_eastus/providers/Microsoft.Compute/virtualMachineScaleSets/aks-nodepool1-12345678-vmss/virtualMachines/0".toList =
      .ok { Subscription := "00000000-0000-0000-0000-000000000000".toList,
            ResourceGroup := "MC_my-rg_my-aks_eastus".toList,
            VMSSName := "aks-nodepool1-12345678-vmss".toList,
            InstanceID := "0".toList } :=
  ParseProviderID_of_keys_once _ 3 5 9 11 _ _ _ _ (by decide) (by decide) (by decide)
    (by decide) (by decide)

/-- C2: a string that does not start with `azure://` is rejected with the
format error, whatever segments it has. -/
theorem ParseProviderID_error_of_other_scheme (pid : Str) (h : ¬ "azure://".toList <+: pid) :
    ParseProviderID pid =
      .error (.errorString ("unexpected providerID format: ".toList ++ pid)) := by
  have hp : HasPrefix pid "azure://".toList = false := by
    rw [← Bool.not_eq_true]
    exact fun hc => h (List.isPrefixOf_iff_prefix.mp hc)
  unfold ParseProviderID
  simp only [hp, Bool.not_false, if_true]

/-- The empty string and the AWS identity of Scenario B are rejected, by C2. -/
theorem ParseProviderID_error_of_other_scheme_witness :
    ParseProviderID [] = .error (.errorString "unexpected providerID format: ".toList) ∧
    ParseProviderID "aws:///us-east-1/i-12345".toList =
      .error (.errorString "unexpected providerID format: aws:///us-east-1/i-12345".toList) :=
  ⟨ParseProviderID_error_of_other_scheme [] (by decide),
   ParseProviderID_error_of_other_scheme "aws:///us-east-1/i-12345".toList (by decide)⟩

/-- C3: a string that starts with `azure://` but among whose segments one of the
four keys does not occur (compared without regard to case) is rejected with the
parse error; no partly filled result is returned. -/
theorem ParseProviderID_error_of_missing_key (pid key : Str)
    (hpre : "azure://".toList <+: pid)
    (hkey : key ∈ ["subscriptions".toList, "resourceGroups".toList,
      "virtualMachineScaleSets".toList, "virtualMachines".toList])
    (hmiss : ∀ p ∈ Split pid "/".toList, ToLower p ≠ ToLower key) :
    ParseProviderID pid =
      .error (.errorString ("could not parse VMSS info from providerID: ".toList ++ pid)) := by
  have hp : HasPrefix pid "azure://".toList = true := List.isPrefixOf_iff_prefix.mpr hpre
  obtain ⟨f1, f2, f3, f4⟩ := parseLoop_fields (Split pid "/".toList) (Split pid "/".toList) 0
    ⟨[], [], [], []⟩
  have hno := lastAfter_of_no_match (Split pid "/".toList) (ToLower key) (Split pid "/".toList)
    hmiss 0 []
  unfold ParseProviderID
  simp only [hp, Bool.not_true, Bool.false_eq_true, if_false]
  rw [if_pos]
  simp only [List.mem_cons, List.mem_singleton, List.not_mem_nil, or_false] at hkey
  rcases hkey with rfl | rfl | rfl | rfl
  · exact Or.inl (f1.trans hno)
  · exact Or.inr (Or.inl (f2.trans hno))
  · exact Or.inr (Or.inr (Or.inl (f3.trans hno)))
  · exact Or.inr (Or.inr (Or.inr (f4.trans hno)))

/-- The two examples of C3: `azure://` alone and an identity with only a
subscription are rejected. -/
theorem ParseProviderID_error_of_missing_key_witness :
    ParseProviderID "azure://".toList =
      .error (.errorString "could not parse VMSS info from providerID: azure://".toList) ∧
    ParseProviderID "azure:///subscriptions/sub-id".toList =
      .error (.errorString
        "could not parse VMSS info from providerID: azure:///subscriptions/sub-id".toList) :=
  ⟨ParseProviderID_error_of_missing_key "azure://".toList "subscriptions".toList (by decide)
      (by decide) (by decide),
   ParseProviderID_error_of_missing_key "azure:///subscriptions/sub-id".toList
      "virtualMachines".toList (by decide) (by decide) (by decide)⟩


theorem ParseProviderID_complete (pid : Str) (info : NodeInfo)
    (h : ParseProviderID pid = .ok info) : info.Complete := by
  unfold ParseProviderID at h
  by_cases h1 : (!HasPrefix pid "azure://".toList) = true
  · rw [if_pos h1] at h
    exact absurd h (by simp)
  · rw [if_neg h1] at h
    dsimp only at h
    split_ifs at h with h2
    simp only [Except.ok.injEq] at h
    subst h
    simp only [not_or] at h2
    exact h2

theorem ResolveVMSS_complete (r : DefaultRunner) (node : Str) (info : NodeInfo)
    (h : r.ResolveVMSS node = .ok info) : info.Complete := by
  unfold DefaultRunner.ResolveVMSS at h
  split at h
  · exact absurd h (by simp)
  · rename_i out _
    dsimp only at h
    split at h
    · exact absurd h (by simp)
    · rename_i info1 hp
      simp only [Except.ok.injEq] at h
      subst h
      exact ParseProviderID_complete _ _ hp

theorem runAndPrint_calls (runner : Runner) (info : NodeInfo) (script : Str) (s : RunState) :
    (runAndPrint runner info script s).1.calls = s.calls ++ [.RunCommand info script] := by
  unfold runAndPrint
  cases runner.RunCommand info script with
  | error e => rfl
  | ok result =>
    simp only
    split_ifs <;> rfl

/-- C4: a NodeInfo that `ParseProviderID` returns has four non-empty fields;
hence so has one that `DefaultRunner.ResolveVMSS` returns, and so has every
NodeInfo that the run command, on a `DefaultRunner`, passes to `RunCommand`. -/
theorem coordinates_complete :
    (∀ (pid : Str) (info : NodeInfo), ParseProviderID pid = .ok info → info.Complete) ∧
    (∀ (r : DefaultRunner) (node : Str) (info : NodeInfo),
      r.ResolveVMSS node = .ok info → info.Complete) ∧
    (∀ (r : DefaultRunner) (o : runOptions) (info : NodeInfo) (script : Str),
      Call.RunCommand info script ∈ (o.Run r.toRunner ⟨[], [], []⟩).1.calls →
        info.Complete) := by
  refine ⟨ParseProviderID_complete, ResolveVMSS_complete, ?_⟩
  intro r o info script hmem
  unfold runOptions.Run at hmem
  by_cases hpod : o.pod ≠ []
  · simp only [hpod, if_true, ne_eq, not_false_eq_true] at hmem
    cases hn : (r.toRunner).ResolveNodeFromPod o.ns o.pod with
    | error e =>
      rw [hn] at hmem
      simp at hmem
    | ok node =>
      rw [hn] at hmem
      simp only at hmem
      cases hv : (r.toRunner).ResolveVMSS node with
      | error e =>
        rw [hv] at hmem
        simp at hmem
      | ok info1 =>
        rw [hv] at hmem
        simp only [runAndPrint_calls] at hmem
        simp at hmem
        obtain ⟨rfl, _⟩ := hmem
        exact ResolveVMSS_complete r node _ hv
  · simp only [hpod, if_false] at hmem
    cases hv : (r.toRunner).ResolveVMSS o.node with
    | error e =>
      rw [hv] at hmem
      simp at hmem
    | ok info1 =>
      rw [hv] at hmem
      simp only [runAndPrint_calls] at hmem
      simp at hmem
      obtain ⟨rfl, _⟩ := hmem
      exact ResolveVMSS_complete r o.node _ hv

set_option maxRecDepth 100000 in
/-- The run command on a runner whose kubectl prints a full providerID: the
coordinates handed to `RunCommand` are complete, by C4. -/
theorem coordinates_complete_witness :
    Call.RunCommand
        { Subscription := "s".toList, ResourceGroup := "g".toList, VMSSName := "v".toList,
          InstanceID := "7".toList } "uname -a".toList ∈
      (exampleOptions.Run exampleRunner.toRunner ⟨[], [], []⟩).1.calls ∧
    NodeInfo.Complete
      { Subscription := "s".toList, ResourceGroup := "g".toList, VMSSName := "v".toList,
        InstanceID := "7".toList } :=
  ⟨by decide,
   coordinates_complete.2.2 exampleRunner exampleOptions
     { Subscription := "s".toList, ResourceGroup := "g".toList, VMSSName := "v".toList,
       InstanceID := "7".toList } "uname -a".toList (by decide)⟩

/-! ## The output decoder -/

/-- C5: the wire format.  When the first message of the envelope is a status
prefix `p` without `[stdout]\n`, then `[stdout]\n`, a text `s` without `[stderr]`,
then `[stderr]\n` and a text `e`, the decode succeeds with `s` trimmed as Stdout
and `e` trimmed as Stderr. -/
theorem parseRunCommandOutput_wire (raw p s e : Str) (resp : runCommandResponse)
    (rest : List runCommandValue)
    (hraw : Unmarshal raw = .ok resp)
    (hfirst : resp.Value =
      { Message := p ++ "[stdout]\n".toList ++ s ++ "[stderr]\n".toList ++ e } :: rest)
    (hp : ¬ "[stdout]\n".toList <:+: p) (hs : ¬ "[stderr]".toList <:+: s) :
    parseRunCommandOutput raw = .ok { Stdout := TrimSpace s, Stderr := TrimSpace e } := by
  rw [parseRunCommandOutput_of_first raw resp _ rest hraw hfirst]
  exact decodeMessage_wire p s e hp hs

set_option maxRecDepth 100000 in
/-- Scenario C, Scenario D and the test with an empty standard output, by C5. -/
theorem parseRunCommandOutput_wire_witness :
    parseRunCommandOutput scenarioC = .ok { Stdout := "hello world".toList, Stderr := [] } ∧
    parseRunCommandOutput scenarioD =
      .ok { Stdout := "output".toList, Stderr := "some warning".toList } ∧
    parseRunCommandOutput emptyStdoutEnvelope =
      .ok { Stdout := [], Stderr := "only error".toList } :=
  ⟨parseRunCommandOutput_wire scenarioC [] "hello world\n".toList []
      { Value := [{ Message := "[stdout]\nhello world\n[stderr]\n".toList }] } []
      (by decide) (by decide) (by decide) (by decide),
   parseRunCommandOutput_wire scenarioD "Enable succeeded: \n".toList "output\n".toList
      "some warning".toList
      { Value := [{ Message :=
          "Enable succeeded: \n[stdout]\noutput\n[stderr]\nsome warning".toList }] } []
      (by decide) (by decide) (by decide) (by decide),
   parseRunCommandOutput_wire emptyStdoutEnvelope [] [] "only error".toList
      { Value := [{ Message := "[stdout]\n[stderr]\nonly error".toList }] } []
      (by decide) (by decide) (by decide) (by decide)⟩

/-- C6: round trip.  When an envelope decodes to `(so, se)`, an envelope whose
first message is `[stdout]\n`, `so`, `[stderr]\n`, `se` decodes to `(so, se)` again. -/
theorem parseRunCommandOutput_roundtrip (raw again so se : Str) (resp : runCommandResponse)
    (rest : List runCommandValue)
    (hdec : parseRunCommandOutput raw = .ok { Stdout := so, Stderr := se })
    (hagain : Unmarshal again = .ok resp)
    (hfirst : resp.Value =
      { Message := "[stdout]\n".toList ++ so ++ "[stderr]\n".toList ++ se } :: rest) :
    parseRunCommandOutput again = .ok { Stdout := so, Stderr := se } := by
  obtain ⟨m, hm⟩ := exists_split_of_parseRunCommandOutput raw _ hdec
  obtain ⟨h1, h2, h3⟩ := splitStreams_spec m so se hm
  rw [parseRunCommandOutput_of_first again resp _ rest hagain hfirst]
  have := decodeMessage_wire [] so se (by decide) h3
  rw [h1, h2] at this
  exact this

set_option maxRecDepth 100000 in
/-- Scenario D decodes to `("output", "some warning")`, and so does that
result written again in the wire format. -/
theorem parseRunCommandOutput_roundtrip_witness :
    parseRunCommandOutput scenarioD =
      .ok { Stdout := "output".toList, Stderr := "some warning".toList } ∧
    parseRunCommandOutput scenarioDAgain =
      .ok { Stdout := "output".toList, Stderr := "some warning".toList } :=
  ⟨by decide,
   parseRunCommandOutput_roundtrip scenarioD scenarioDAgain "output".toList
     "some warning".toList
     { Value := [{ Message := "[stdout]\noutput[stderr]\nsome warning".toList }] } []
     (by decide) (by decide) (by decide)⟩

set_option maxRecDepth 100000 in
/-- C9 as stated fails: Scenario D decodes to `output` and `some warning`, and
with the number 7 added as a second element the decode fails with the parse
error, since `json.Unmarshal` rejects an element that is no object. -/
theorem later_element_counterexample :
    parseRunCommandOutput scenarioD =
      .ok { Stdout := "output".toList, Stderr := "some warning".toList } ∧
    parseRunCommandOutput scenarioDSeven =
      .error (.wrapError "failed to parse run-command JSON output: ".toList
        (.json .UnmarshalTypeError) ("\nRaw: ".toList ++ scenarioDSeven)) := by
  decide

/-- C9, amended: two envelopes that `json.Unmarshal` accepts and that have
the same first element decode alike, in success and in both streams, whatever
elements follow the first in either. -/
theorem parseRunCommandOutput_first_only (raw other : Str) (resp resp2 : runCommandResponse)
    (first : runCommandValue) (rest rest2 : List runCommandValue)
    (hraw : Unmarshal raw = .ok resp) (hother : Unmarshal other = .ok resp2)
    (hfirst : resp.Value = first :: rest) (hfirst2 : resp2.Value = first :: rest2) :
    parseRunCommandOutput raw = parseRunCommandOutput other := by
  rw [parseRunCommandOutput_of_first raw resp first rest hraw hfirst,
    parseRunCommandOutput_of_first other resp2 first rest2 hother hfirst2]

set_option maxRecDepth 100000 in
/-- Scenario D decodes alike with and without a second element. -/
theorem parseRunCommandOutput_first_only_witness :
    parseRunCommandOutput scenarioD = parseRunCommandOutput scenarioDTwo :=
  parseRunCommandOutput_first_only scenarioD scenarioDTwo
    { Value := [{ Message :=
        "Enable succeeded: \n[stdout]\noutput\n[stderr]\nsome warning".toList }] }
    { Value := [{ Message :=
        "Enable succeeded: \n[stdout]\noutput\n[stderr]\nsome warning".toList },
      { Message := "more".toList }] }
    { Message := "Enable succeeded: \n[stdout]\noutput\n[stderr]\nsome warning".toList }
    [] [{ Message := "more".toList }] (by decide) (by decide) (by decide) (by decide)

set_option maxRecDepth 100000 in
/-- C10 as stated fails: the message `foo[stderr]bar` holds no stdout marker,
yet it is split at its stderr marker instead of being all standard output. -/
theorem no_marker_fallback_counterexample :
    Unmarshal stderrOnlyEnvelope = .ok { Value := [{ Message := "foo[stderr]bar".toList }] } ∧
    ¬ "[stdout]".toList <:+: "foo[stderr]bar".toList ∧
    parseRunCommandOutput stderrOnlyEnvelope =
      .ok { Stdout := "foo".toList, Stderr := "bar".toList } ∧
    parseRunCommandOutput stderrOnlyEnvelope ≠
      .ok { Stdout := TrimSpace "foo[stderr]bar".toList, Stderr := [] } := by
  decide

/-- C10, amended: when the first message holds neither a stdout marker nor a
stderr marker, the decode succeeds with the whole message trimmed as Stdout and
an empty Stderr. -/
theorem parseRunCommandOutput_no_marker (raw msg : Str) (resp : runCommandResponse)
    (rest : List runCommandValue)
    (hraw : Unmarshal raw = .ok resp) (hfirst : resp.Value = { Message := msg } :: rest)
    (hout : ¬ "[stdout]".toList <:+: msg) (herr : ¬ "[stderr]".toList <:+: msg) :
    parseRunCommandOutput raw = .ok { Stdout := TrimSpace msg, Stderr := [] } := by
  rw [parseRunCommandOutput_of_first raw resp _ rest hraw hfirst]
  unfold decodeMessage
  rw [stripStdout_of_no_marker msg hout, Option.some_bind, splitStreams_of_no_marker msg herr]

set_option maxRecDepth 100000 in
/-- A message of plain text is trimmed and returned as standard output. -/
theorem parseRunCommandOutput_no_marker_witness :
    parseRunCommandOutput plainEnvelope = .ok { Stdout := "plain text".toList, Stderr := [] } :=
  parseRunCommandOutput_no_marker plainEnvelope " plain text\n".toList
    { Value := [{ Message := " plain text\n".toList }] } [] (by decide) (by decide) (by decide)
    (by decide)

set_option maxRecDepth 100000 in
/-- C7 as stated fails: the text `{}` has no `value` at all, yet it fails with
the empty-result error. -/
theorem empty_result_counterexample :
    parseRunCommandOutput emptyObjectText =
      .error (.errorString "run-command returned no output".toList) ∧
    (parseJSON emptyObjectText).map hasEmptyValueArray = some false := by
  decide

set_option maxRecDepth 100000 in
/-- C7, amended: the empty-result error is returned exactly for a valid JSON
text that fits the response type and leaves `Value` without element: the
document is `null`, or an object that has no member named `value` or whose last
such member is `null` or the empty array.  Scenario E is such a text. -/
theorem parseRunCommandOutput_empty_result_iff :
    (∀ raw : Str,
      parseRunCommandOutput raw = .error (.errorString "run-command returned no output".toList) ↔
        ∃ doc, parseJSON raw = some doc ∧ fitsResponse doc = true ∧ leavesNoValue doc = true) ∧
    parseRunCommandOutput scenarioE =
      .error (.errorString "run-command returned no output".toList) := by
  refine ⟨?_, by decide⟩
  intro raw
  unfold parseRunCommandOutput
  cases hU : Unmarshal raw with
  | error e =>
    have hno := (Unmarshal_error_iff raw).mp ⟨e, hU⟩
    constructor
    · intro h
      exact absurd h (by simp)
    · rintro ⟨doc, hd, hf, _⟩
      exact absurd ⟨doc, hd, hf⟩ hno
  | ok resp =>
    obtain ⟨doc, hd, hf, hr⟩ := (Unmarshal_ok_iff raw resp).mp hU
    have hnil := decodeResponse_eq_nil doc hf
    rw [← hr] at hnil
    simp only
    cases hv : resp.Value with
    | nil =>
      simp only [true_iff]
      exact ⟨doc, hd, hf, hnil.mp hv⟩
    | cons first rest =>
      simp only
      constructor
      · intro h
        exact absurd h (decodeMessage_ne_errorString _ _)
      · rintro ⟨doc2, hd2, _, hl⟩
        rw [hd] at hd2
        simp only [Option.some.injEq] at hd2
        subst hd2
        have := hnil.mpr hl
        rw [hv] at this
        exact absurd this (by simp)

set_option maxRecDepth 100000 in
/-- C8 as stated fails: in `{"value":[{}]}` the element has no `message`, yet
the text is decoded without error. -/
theorem parse_error_counterexample :
    parseRunCommandOutput noMessageEnvelope = .ok { Stdout := [], Stderr := [] } ∧
    (parseJSON noMessageEnvelope).map hasExpectedShape = some false := by
  decide

set_option maxRecDepth 100000 in
/-- C8, amended: the parse error, which carries the raw text, is returned
exactly for a text that is not valid JSON or does not fit the response type: a
document that is neither `null` nor an object, a member named `value` that is
neither `null` nor an array, an element that is neither `null` nor an object,
or a member named `message` that is neither `null` nor a string.  The text
`not json` is such a text. -/
theorem parseRunCommandOutput_parse_error_iff :
    (∀ raw : Str,
      (∃ e, parseRunCommandOutput raw =
        .error (.wrapError "failed to parse run-command JSON output: ".toList (.json e)
          ("\nRaw: ".toList ++ raw))) ↔
        ¬ ∃ doc, parseJSON raw = some doc ∧ fitsResponse doc = true) ∧
    parseRunCommandOutput "not json".toList =
      .error (.wrapError "failed to parse run-command JSON output: ".toList
        (.json .SyntaxError) "\nRaw: not json".toList) := by
  refine ⟨?_, by decide⟩
  intro raw
  rw [← Unmarshal_error_iff]
  unfold parseRunCommandOutput
  cases hU : Unmarshal raw with
  | error e =>
    simp only [Except.error.injEq, GoError.wrapError.injEq, GoError.json.injEq, true_and,
      and_true, exists_eq', exists_const]
  | ok resp =>
    simp only
    constructor
    · rintro ⟨e, h⟩
      cases hv : resp.Value with
      | nil =>
        rw [hv] at h
        exact absurd h (by simp)
      | cons first rest =>
        rw [hv] at h
        exact absurd h (decodeMessage_ne_wrapError _ _ _ _)
    · rintro ⟨e, h⟩
      exact absurd h (by simp)

/-! ## The output decoder: fallback and stream split -/

/-- The bare stdout marker, in a message without the marker with newline, is
where the message is cut. -/
theorem stripStdout_of_bare_marker (a r : Str)
    (hnl : ¬ "[stdout]\n".toList <:+: a ++ "[stdout]".toList ++ r)
    (ha : ¬ "[stdout]".toList <:+: a) :
    stripStdout (a ++ "[stdout]".toList ++ r) = some r := by
  unfold stripStdout
  have h1 : Index (a ++ "[stdout]".toList ++ r) "[stdout]\n".toList = none :=
    (Index_eq_none_iff _ _).mpr hnl
  have h2 : Index (a ++ "[stdout]".toList ++ r) "[stdout]".toList = some a.length := by
    rw [stdout_eq] at ha ⊢
    exact Index_append_unbordered _ _ a r (by decide) ha
  rw [h1, h2]
  exact sliceFrom_append a _ r

/-- The decoding of a message, given what is left after the stdout step. -/
theorem decodeMessage_of_strip (msg r : Str) (hstrip : stripStdout msg = some r) :
    (∀ s t : Str, r = s ++ "[stderr]".toList ++ t → ¬ "[stderr]".toList <:+: s →
      decodeMessage msg = .ok { Stdout := TrimSpace s, Stderr := TrimSpace t }) ∧
    (¬ "[stderr]".toList <:+: r →
      decodeMessage msg = .ok { Stdout := TrimSpace r, Stderr := [] }) := by
  unfold decodeMessage
  rw [hstrip, Option.some_bind]
  constructor
  · intro s t hr hs
    rw [hr, splitStreams_of_marker s t hs]
  · intro hr
    rw [splitStreams_of_no_marker r hr]

/-- C11: the bare-marker fallback.  When the first message holds no `[stdout]`
followed by a newline and is `a`, `[stdout]`, `r` with no `[stdout]` in `a`,
only `r` is decoded: cut at its first `[stderr]` when it has one, and all of
it standard output when it has none. -/
theorem parseRunCommandOutput_bare_marker (raw a r : Str) (resp : runCommandResponse)
    (rest : List runCommandValue)
    (hraw : Unmarshal raw = .ok resp)
    (hfirst : resp.Value = { Message := a ++ "[stdout]".toList ++ r } :: rest)
    (hnl : ¬ "[stdout]\n".toList <:+: a ++ "[stdout]".toList ++ r)
    (ha : ¬ "[stdout]".toList <:+: a) :
    (∀ s t : Str, r = s ++ "[stderr]".toList ++ t → ¬ "[stderr]".toList <:+: s →
      parseRunCommandOutput raw = .ok { Stdout := TrimSpace s, Stderr := TrimSpace t }) ∧
    (¬ "[stderr]".toList <:+: r →
      parseRunCommandOutput raw = .ok { Stdout := TrimSpace r, Stderr := [] }) := by
  rw [parseRunCommandOutput_of_first raw resp _ rest hraw hfirst]
  exact decodeMessage_of_strip _ r (stripStdout_of_bare_marker a r hnl ha)

set_option maxRecDepth 100000 in
/-- The example of C11: `Enable succeeded: [stdout]hello[stderr]oops` gives
`("hello", "oops")`. -/
theorem parseRunCommandOutput_bare_marker_witness :
    parseRunCommandOutput bareMarkerEnvelope =
      .ok { Stdout := "hello".toList, Stderr := "oops".toList } := by
  have h := parseRunCommandOutput_bare_marker bareMarkerEnvelope "Enable succeeded: ".toList
    "hello[stderr]oops".toList
    { Value := [{ Message := "Enable succeeded: [stdout]hello[stderr]oops".toList }] } []
    (by decide) (by decide) (by decide) (by decide)
  exact h.1 "hello".toList "oops".toList (by decide) (by decide)

/-- C12: the stream split.  With `r` the text left after the stdout step: when
`r` is `s`, `[stderr]`, `t` with no `[stderr]` in `s`, Stdout is `s` trimmed and
Stderr is `t` trimmed, whatever markers `t` holds; when `r` holds no `[stderr]`,
Stdout is `r` trimmed and Stderr is empty. -/
theorem parseRunCommandOutput_stream_split (raw r : Str) (resp : runCommandResponse)
    (first : runCommandValue) (rest : List runCommandValue)
    (hraw : Unmarshal raw = .ok resp) (hfirst : resp.Value = first :: rest)
    (hstrip : stripStdout first.Message = some r) :
    (∀ s t : Str, r = s ++ "[stderr]".toList ++ t → ¬ "[stderr]".toList <:+: s →
      parseRunCommandOutput raw = .ok { Stdout := TrimSpace s, Stderr := TrimSpace t }) ∧
    (¬ "[stderr]".toList <:+: r →
      parseRunCommandOutput raw = .ok { Stdout := TrimSpace r, Stderr := [] }) := by
  rw [parseRunCommandOutput_of_first raw resp first rest hraw hfirst]
  exact decodeMessage_of_strip _ r hstrip

set_option maxRecDepth 100000 in
/-- A second stderr marker stays in Stderr, and a message without stderr marker
is all standard output, by C12. -/
theorem parseRunCommandOutput_stream_split_witness :
    parseRunCommandOutput twoStderrEnvelope =
      .ok { Stdout := "out".toList, Stderr := "first[stderr]second".toList } ∧
    parseRunCommandOutput plainEnvelope = .ok { Stdout := "plain text".toList, Stderr := [] } := by
  have h := parseRunCommandOutput_stream_split twoStderrEnvelope
    "out\n[stderr]\nfirst[stderr]second".toList
    { Value := [{ Message := "[stdout]\nout\n[stderr]\nfirst[stderr]second".toList }] }
    { Message := "[stdout]\nout\n[stderr]\nfirst[stderr]second".toList } []
    (by decide) (by decide) (by decide)
  have h2 := parseRunCommandOutput_stream_split plainEnvelope " plain text\n".toList
    { Value := [{ Message := " plain text\n".toList }] }
    { Message := " plain text\n".toList } [] (by decide) (by decide) (by decide)
  exact ⟨h.1 "out\n".toList "\nfirst[stderr]second".toList (by decide) (by decide),
    h2.2 (by decide)⟩

/-! ## Error messages of the identity parser and of DefaultRunner -/

/-- C18: when `ParseProviderID` fails, the message of its error ends with the
identity string, whatever the reason of the failure. -/
theorem ParseProviderID_error_names_pid (jsonText : JsonError → Str) (pid : Str) (e : GoError)
    (h : ParseProviderID pid = .error e) : pid <:+ e.Error jsonText := by
  unfold ParseProviderID at h
  by_cases h1 : (!HasPrefix pid "azure://".toList) = true
  · rw [if_pos h1] at h
    simp only [Except.error.injEq] at h
    subst h
    exact List.suffix_append _ _
  · rw [if_neg h1] at h
    dsimp only at h
    split_ifs at h with h2
    simp only [Except.error.injEq] at h
    subst h
    exact List.suffix_append _ _

set_option maxRecDepth 100000 in
/-- The errors for the AWS identity (no prefix) and for the identity with a
subscription only (missing fields) end with the identity, by C18. -/
theorem ParseProviderID_error_names_pid_witness :
    "aws:///us-east-1/i-12345".toList <:+
      "unexpected providerID format: aws:///us-east-1/i-12345".toList ∧
    "azure:///subscriptions/sub-id".toList <:+
      "could not parse VMSS info from providerID: azure:///subscriptions/sub-id".toList :=
  ⟨ParseProviderID_error_names_pid (fun _ => []) "aws:///us-east-1/i-12345".toList
      (.errorString "unexpected providerID format: aws:///us-east-1/i-12345".toList) (by decide),
   ParseProviderID_error_names_pid (fun _ => []) "azure:///subscriptions/sub-id".toList
      (.errorString
        "could not parse VMSS info from providerID: azure:///subscriptions/sub-id".toList)
      (by decide)⟩

/-- C19: with `(out, err)` what kubectl returns, `ResolveNodeFromPod` fails
exactly when `err` is an error or `out` is empty once trimmed; the message of
its error then holds `namespace/pod`; otherwise it returns `out` trimmed, which
is not empty. -/
theorem ResolveNodeFromPod_spec (jsonText : JsonError → Str) (r : DefaultRunner)
    (ns pod out : Str) (err : Option GoError)
    (hk : r.kubectl (nodeOfPodArgs ns pod) = (out, err)) :
    ((∃ e, r.ResolveNodeFromPod ns pod = .error e) ↔ (err ≠ none ∨ TrimSpace out = [])) ∧
    (∀ e, r.ResolveNodeFromPod ns pod = .error e →
      (ns ++ "/".toList ++ pod) <:+: e.Error jsonText) ∧
    (err = none → TrimSpace out ≠ [] → r.ResolveNodeFromPod ns pod = .ok (TrimSpace out)) ∧
    (∀ node, r.ResolveNodeFromPod ns pod = .ok node → node ≠ []) := by
  unfold nodeOfPodArgs at hk
  unfold DefaultRunner.ResolveNodeFromPod
  rw [hk]
  cases err with
  | some e0 =>
    refine ⟨by simp, ?_, by simp, by simp⟩
    intro e he
    simp only [Except.error.injEq] at he
    subst he
    simp only [GoError.Error]
    exact ⟨"could not find pod ".toList,
      " or it has no node assigned: ".toList ++ GoError.Error jsonText e0 ++ [],
      by simp only [List.append_assoc]⟩
  | none =>
    by_cases ht : TrimSpace out = []
    · simp only [ht, if_true]
      refine ⟨by simp, ?_, by simp, by simp⟩
      intro e he
      simp only [Except.error.injEq] at he
      subst he
      simp only [GoError.Error]
      exact ⟨"pod ".toList, " has no node assigned".toList, by simp only [List.append_assoc]⟩
    · simp only [ht, if_false]
      refine ⟨by simp, by simp, by simp, ?_⟩
      intro node hn
      simp only [Except.ok.injEq] at hn
      subst hn
      exact ht

set_option maxRecDepth 100000 in
/-- A node name printed between blanks is returned trimmed, and a failing
kubectl gives an error that names the pod, by C19. -/
theorem ResolveNodeFromPod_spec_witness :
    failingAzRunner.ResolveNodeFromPod "kube-system".toList "p".toList = .ok "node-7".toList ∧
    "kube-system/p".toList <:+:
      "could not find pod kube-system/p or it has no node assigned: exit status 1".toList := by
  have h := ResolveNodeFromPod_spec (fun _ => []) failingAzRunner "kube-system".toList
    "p".toList " node-7\n".toList none (by decide)
  have h2 := ResolveNodeFromPod_spec (fun _ => []) failingKubectlRunner "kube-system".toList
    "p".toList "Error from server (NotFound)".toList (some (.errorString "exit status 1".toList))
    (by decide)
  exact ⟨h.2.2.1 rfl (by decide),
    h2.2.1 (.wrapError "could not find pod kube-system/p or it has no node assigned: ".toList
      (.errorString "exit status 1".toList) []) (by decide)⟩

/-- C20: with `(out, err)` what az returns, `RunCommand` returns, when `err` is
an error, the error that wraps it and whose message holds `out`, whatever `out`
is; and when there is no error, what `parseRunCommandOutput` makes of `out`. -/
theorem RunCommand_spec (jsonText : JsonError → Str) (r : DefaultRunner) (info : NodeInfo)
    (script out : Str) (err : Option GoError)
    (ha : r.az (invokeArgs info script) = (out, err)) :
    (∀ e, err = some e →
      r.RunCommand info script =
        .error (.wrapError "az vmss run-command failed: ".toList e ("\nOutput: ".toList ++ out)) ∧
      out <:+: GoError.Error jsonText
        (.wrapError "az vmss run-command failed: ".toList e ("\nOutput: ".toList ++ out))) ∧
    (err = none → r.RunCommand info script = parseRunCommandOutput out) := by
  unfold invokeArgs at ha
  unfold DefaultRunner.RunCommand
  rw [ha]
  constructor
  · intro e he
    subst he
    refine ⟨rfl, ?_⟩
    simp only [GoError.Error]
    exact ⟨"az vmss run-command failed: ".toList ++ GoError.Error jsonText e ++ "\nOutput: ".toList,
      [], by simp only [List.append_assoc, List.append_nil]⟩
  · intro he
    subst he
    rfl

set_option maxRecDepth 100000 in
/-- A failing az gives the error with its output, and a succeeding az the
decoded output, by C20. -/
theorem RunCommand_spec_witness :
    failingAzRunner.RunCommand ⟨"s".toList, "g".toList, "v".toList, "7".toList⟩ "id".toList =
      .error (.wrapError "az vmss run-command failed: ".toList
        (.errorString "exit status 1".toList) "\nOutput: ERROR: not logged in".toList) ∧
    exampleRunner.RunCommand ⟨"s".toList, "g".toList, "v".toList, "7".toList⟩ "id".toList =
      parseRunCommandOutput scenarioC := by
  have h := RunCommand_spec (fun _ => []) failingAzRunner
    ⟨"s".toList, "g".toList, "v".toList, "7".toList⟩ "id".toList "ERROR: not logged in".toList
    (some (.errorString "exit status 1".toList)) (by decide)
  have h2 := RunCommand_spec (fun _ => []) exampleRunner
    ⟨"s".toList, "g".toList, "v".toList, "7".toList⟩ "id".toList scenarioC none (by decide)
  exact ⟨(h.1 _ rfl).1, h2.2 rfl⟩

/-! ## Lemmas on the commands -/

/-- Calls `pre` that succeeded and then a call `last` whose error, if it has
one, is returned with `Out` untouched: the command short-circuits. -/
theorem shortCircuits_of (runner : Runner) (s : RunState) (res : RunState × Option GoError)
    (pre : List Call) (last : Call)
    (hcalls : res.1.calls = s.calls ++ (pre ++ [last]))
    (hpre : ∀ c ∈ pre, runner.errorOf c = none)
    (hlast : ∀ e, runner.errorOf last = some e → res.2 = some e ∧ res.1.Out = s.Out) :
    ShortCircuits runner s res := by
  refine ⟨pre ++ [last], hcalls, ?_⟩
  intro i c e hi hc
  rcases Nat.lt_trichotomy i pre.length with hlt | heq | hgt
  · rw [List.getElem?_append_left hlt] at hi
    have hmem : c ∈ pre := List.getElem?_mem hi
    rw [hpre c hmem] at hc
    exact absurd hc (by simp)
  · subst heq
    rw [List.getElem?_append_right (Nat.le_refl _)] at hi
    simp only [Nat.sub_self, List.getElem?_cons_zero, Option.some.injEq] at hi
    subst hi
    exact ⟨by simp, hlast e hc⟩
  · rw [List.getElem?_append_right (Nat.le_of_lt hgt)] at hi
    have : i - pre.length = (i - pre.length - 1) + 1 := by omega
    rw [this] at hi
    simp at hi

theorem callAndPrint_calls (runner : Runner) (info : NodeInfo) (script : Str) (s : RunState) :
    (callAndPrint runner info script s).1.calls = s.calls ++ [.RunCommand info script] := by
  unfold callAndPrint
  cases runner.RunCommand info script with
  | error e => rfl
  | ok result =>
    simp only
    split_ifs <;> rfl

theorem callAndPrint_error (runner : Runner) (info : NodeInfo) (script : Str) (s : RunState)
    (e : GoError) (h : runner.errorOf (.RunCommand info script) = some e) :
    (callAndPrint runner info script s).2 = some e ∧
      (callAndPrint runner info script s).1.Out = s.Out := by
  simp only [Runner.errorOf] at h
  unfold callAndPrint
  cases hr : runner.RunCommand info script with
  | error e0 =>
    rw [hr] at h
    simp only [Option.some.injEq] at h
    subst h
    exact ⟨rfl, rfl⟩
  | ok result =>
    rw [hr] at h
    exact absurd h (by simp)

/-- `runAndPrint` is the progress line followed by `callAndPrint`. -/
theorem runAndPrint_eq (runner : Runner) (info : NodeInfo) (script : Str) (s : RunState) :
    runAndPrint runner info script s =
      callAndPrint runner info script
        { s with ErrOut := s.ErrOut ++ "Running on ".toList ++ info.VMSSName ++ "/".toList ++
          info.InstanceID ++ "...\n".toList } := rfl

theorem runAndPrint_error (runner : Runner) (info : NodeInfo) (script : Str) (s : RunState)
    (e : GoError) (h : runner.errorOf (.RunCommand info script) = some e) :
    (runAndPrint runner info script s).2 = some e ∧
      (runAndPrint runner info script s).1.Out = s.Out := by
  rw [runAndPrint_eq]
  exact callAndPrint_error runner info script _ e h

theorem errorOf_ResolveNodeFromPod (runner : Runner) (ns pod : Str) :
    (∀ e, runner.ResolveNodeFromPod ns pod = .error e →
      runner.errorOf (.ResolveNodeFromPod ns pod) = some e) ∧
    (∀ v, runner.ResolveNodeFromPod ns pod = .ok v →
      runner.errorOf (.ResolveNodeFromPod ns pod) = none) := by
  simp only [Runner.errorOf]
  constructor <;> intro x hx <;> rw [hx]

theorem errorOf_ResolveVMSS (runner : Runner) (node : Str) :
    (∀ e, runner.ResolveVMSS node = .error e → runner.errorOf (.ResolveVMSS node) = some e) ∧
    (∀ v, runner.ResolveVMSS node = .ok v → runner.errorOf (.ResolveVMSS node) = none) := by
  simp only [Runner.errorOf]
  constructor <;> intro x hx <;> rw [hx]

theorem errorOf_GetContainerName (runner : Runner) (ns pod : Str) :
    (∀ e, runner.GetContainerName ns pod = .error e →
      runner.errorOf (.GetContainerName ns pod) = some e) ∧
    (∀ v, runner.GetContainerName ns pod = .ok v →
      runner.errorOf (.GetContainerName ns pod) = none) := by
  simp only [Runner.errorOf]
  constructor <;> intro x hx <;> rw [hx]

theorem run_traced (o : runOptions) (runner : Runner) (s : RunState) :
    Traced runner s (o.Run runner s) (if o.pod = [] then 1 else 2) := by
  unfold runOptions.Run
  by_cases hpod : o.pod = []
  · rw [if_neg (not_not.mpr hpod), if_pos hpod]
    simp only
    cases hV : runner.ResolveVMSS o.node with
    | error e =>
      refine ⟨[], .ResolveVMSS o.node, rfl, by simp, by simp, ?_⟩
      intro e1 he
      rw [(errorOf_ResolveVMSS runner o.node).1 e hV] at he
      simp only [Option.some.injEq] at he
      subst he
      exact ⟨rfl, rfl⟩
    | ok info =>
      refine ⟨[.ResolveVMSS o.node], .RunCommand info o.command,
        by simp only [runAndPrint_calls, List.append_assoc], by simp, ?_, ?_⟩
      · intro c hc
        simp only [List.mem_singleton] at hc
        subst hc
        exact ⟨rfl, (errorOf_ResolveVMSS runner o.node).2 info hV⟩
      · intro e1 he
        exact runAndPrint_error runner info o.command _ e1 he
  · rw [if_pos hpod, if_neg hpod]
    simp only
    cases hN : runner.ResolveNodeFromPod o.ns o.pod with
    | error e =>
      refine ⟨[], .ResolveNodeFromPod o.ns o.pod, rfl, by simp, by simp, ?_⟩
      intro e1 he
      rw [(errorOf_ResolveNodeFromPod runner o.ns o.pod).1 e hN] at he
      simp only [Option.some.injEq] at he
      subst he
      exact ⟨rfl, rfl⟩
    | ok node =>
      simp only
      cases hV : runner.ResolveVMSS node with
      | error e =>
        refine ⟨[.ResolveNodeFromPod o.ns o.pod], .ResolveVMSS node,
          by simp only [List.append_assoc], by simp, ?_, ?_⟩
        · intro c hc
          simp only [List.mem_singleton] at hc
          subst hc
          exact ⟨rfl, (errorOf_ResolveNodeFromPod runner o.ns o.pod).2 node hN⟩
        · intro e1 he
          rw [(errorOf_ResolveVMSS runner node).1 e hV] at he
          simp only [Option.some.injEq] at he
          subst he
          exact ⟨rfl, rfl⟩
      | ok info =>
        refine ⟨[.ResolveNodeFromPod o.ns o.pod, .ResolveVMSS node], .RunCommand info o.command,
          by simp only [runAndPrint_calls, List.append_assoc, List.cons_append,
            List.nil_append], by simp, ?_, ?_⟩
        · intro c hc
          simp only [List.mem_cons, List.mem_singleton, List.not_mem_nil, or_false] at hc
          rcases hc with rfl | rfl
          · exact ⟨rfl, (errorOf_ResolveNodeFromPod runner o.ns o.pod).2 node hN⟩
          · exact ⟨rfl, (errorOf_ResolveVMSS runner node).2 info hV⟩
        · intro e1 he
          exact runAndPrint_error runner info o.command _ e1 he

theorem exec_traced (o : execOptions) (runner : Runner) (s : RunState) :
    Traced runner s (o.Run runner s) (if o.pod ≠ [] ∧ o.node = [] then 2 else 1) := by
  unfold execOptions.Run
  by_cases hpod : o.pod ≠ [] ∧ o.node = []
  · rw [if_pos hpod, if_pos hpod]
    simp only
    cases hN : runner.ResolveNodeFromPod o.ns o.pod with
    | error e =>
      refine ⟨[], .ResolveNodeFromPod o.ns o.pod, rfl, by simp, by simp, ?_⟩
      intro e1 he
      rw [(errorOf_ResolveNodeFromPod runner o.ns o.pod).1 e hN] at he
      simp only [Option.some.injEq] at he
      subst he
      exact ⟨rfl, rfl⟩
    | ok node =>
      simp only
      cases hV : runner.ResolveVMSS node with
      | error e =>
        refine ⟨[.ResolveNodeFromPod o.ns o.pod], .ResolveVMSS node,
          by simp only [List.append_assoc], by simp, ?_, ?_⟩
        · intro c hc
          simp only [List.mem_singleton] at hc
          subst hc
          exact ⟨rfl, (errorOf_ResolveNodeFromPod runner o.ns o.pod).2 node hN⟩
        · intro e1 he
          rw [(errorOf_ResolveVMSS runner node).1 e hV] at he
          simp only [Option.some.injEq] at he
          subst he
          exact ⟨rfl, rfl⟩
      | ok info =>
        refine ⟨[.ResolveNodeFromPod o.ns o.pod, .ResolveVMSS node], .RunCommand info _,
          by simp only [runAndPrint_calls, List.append_assoc, List.cons_append,
            List.nil_append]; rfl, by simp, ?_, ?_⟩
        · intro c hc
          simp only [List.mem_cons, List.mem_singleton, List.not_mem_nil, or_false] at hc
          rcases hc with rfl | rfl
          · exact ⟨rfl, (errorOf_ResolveNodeFromPod runner o.ns o.pod).2 node hN⟩
          · exact ⟨rfl, (errorOf_ResolveVMSS runner node).2 info hV⟩
        · intro e1 he
          exact runAndPrint_error runner info _ _ e1 he
  · rw [if_neg hpod, if_neg hpod]
    simp only
    cases hV : runner.ResolveVMSS o.node with
    | error e =>
      refine ⟨[], .ResolveVMSS o.node, rfl, by simp, by simp, ?_⟩
      intro e1 he
      rw [(errorOf_ResolveVMSS runner o.node).1 e hV] at he
      simp only [Option.some.injEq] at he
      subst he
      exact ⟨rfl, rfl⟩
    | ok info =>
      refine ⟨[.ResolveVMSS o.node], .RunCommand info _,
        by simp only [runAndPrint_calls, List.append_assoc]; rfl, by simp, ?_, ?_⟩
      · intro c hc
        simp only [List.mem_singleton] at hc
        subst hc
        exact ⟨rfl, (errorOf_ResolveVMSS runner o.node).2 info hV⟩
      · intro e1 he
        exact runAndPrint_error runner info _ _ e1 he

/-- After the lookups of the logs command, the rest of `Run`. -/
theorem logs_tail_traced (o : logsOptions) (runner : Runner) (s s1 : RunState)
    (pre : List Call) (node container : Str)
    (hs1 : s1.calls = s.calls ++ pre) (hOut : s1.Out = s.Out)
    (hpre : ∀ c ∈ pre, c.isLookup = true ∧ runner.errorOf c = none) :
    Traced runner s
      (match runner.ResolveVMSS node with
        | .error err => ({ s1 with calls := s1.calls ++ [.ResolveVMSS node] }, some err)
        | .ok info =>
          runAndPrint runner info (buildLogsScript container o.tail o.previous)
            { s1 with calls := s1.calls ++ [.ResolveVMSS node] }) (pre.length + 1) := by
  cases hV : runner.ResolveVMSS node with
  | error e =>
    refine ⟨pre, .ResolveVMSS node, by simp only [hs1, List.append_assoc], by omega, hpre, ?_⟩
    intro e1 he
    rw [(errorOf_ResolveVMSS runner node).1 e hV] at he
    simp only [Option.some.injEq] at he
    subst he
    exact ⟨rfl, hOut⟩
  | ok info =>
    refine ⟨pre ++ [.ResolveVMSS node], .RunCommand info _,
      by simp only [runAndPrint_calls, hs1, List.append_assoc]; rfl, by simp, ?_, ?_⟩
    · intro c hc
      rw [List.mem_append, List.mem_singleton] at hc
      rcases hc with hc | rfl
      · exact hpre c hc
      · exact ⟨rfl, (errorOf_ResolveVMSS runner node).2 info hV⟩
    · intro e1 he
      have := runAndPrint_error runner info _
        { s1 with calls := s1.calls ++ [.ResolveVMSS node] } e1 he
      exact ⟨this.1, this.2.trans hOut⟩

theorem logs_traced (o : logsOptions) (runner : Runner) (s : RunState) :
    Traced runner s (o.Run runner s) (if o.pod = [] then 1 else if o.node = [] then 3 else 2) := by
  unfold logsOptions.Run logsOptions.resolve
  by_cases hpod : o.pod = []
  · rw [if_neg (not_not.mpr hpod), if_pos hpod]
    exact logs_tail_traced o runner s s [] o.node [] (by simp) rfl (by simp)
  · rw [if_pos hpod, if_neg hpod]
    simp only
    cases hC : runner.GetContainerName o.ns o.pod with
    | error e =>
      refine ⟨[], .GetContainerName o.ns o.pod, rfl, by simp, by simp, ?_⟩
      intro e1 he
      rw [(errorOf_GetContainerName runner o.ns o.pod).1 e hC] at he
      simp only [Option.some.injEq] at he
      subst he
      exact ⟨rfl, rfl⟩
    | ok container =>
      simp only
      by_cases hnode : o.node = []
      · rw [if_pos hnode, if_pos hnode]
        cases hN : runner.ResolveNodeFromPod o.ns o.pod with
        | error e =>
          refine ⟨[.GetContainerName o.ns o.pod], .ResolveNodeFromPod o.ns o.pod,
            by simp only [List.append_assoc], by simp, ?_, ?_⟩
          · intro c hc
            simp only [List.mem_singleton] at hc
            subst hc
            exact ⟨rfl, (errorOf_GetContainerName runner o.ns o.pod).2 container hC⟩
          · intro e1 he
            rw [(errorOf_ResolveNodeFromPod runner o.ns o.pod).1 e hN] at he
            simp only [Option.some.injEq] at he
            subst he
            exact ⟨rfl, rfl⟩
        | ok node =>
          refine logs_tail_traced o runner s _
            [.GetContainerName o.ns o.pod, .ResolveNodeFromPod o.ns o.pod] node container
            (by simp only [List.append_assoc, List.cons_append, List.nil_append]) rfl ?_
          intro c hc
          simp only [List.mem_cons, List.mem_singleton, List.not_mem_nil, or_false] at hc
          rcases hc with rfl | rfl
          · exact ⟨rfl, (errorOf_GetContainerName runner o.ns o.pod).2 container hC⟩
          · exact ⟨rfl, (errorOf_ResolveNodeFromPod runner o.ns o.pod).2 node hN⟩
      · rw [if_neg hnode, if_neg hnode]
        refine logs_tail_traced o runner s _ [.GetContainerName o.ns o.pod] o.node
          container rfl rfl ?_
        intro c hc
        simp only [List.mem_singleton] at hc
        subst hc
        exact ⟨rfl, (errorOf_GetContainerName runner o.ns o.pod).2 container hC⟩

theorem cilium_traced (quote : Str → Str) (o : ciliumOptions) (runner : Runner)
    (s : RunState) : Traced runner s (o.Run quote runner s) 2 := by
  unfold ciliumOptions.Run
  simp only
  cases hN : runner.ResolveNodeFromPod o.ns o.pod with
  | error e =>
    refine ⟨[], .ResolveNodeFromPod o.ns o.pod, rfl, by simp, by simp, ?_⟩
    intro e1 he
    rw [(errorOf_ResolveNodeFromPod runner o.ns o.pod).1 e hN] at he
    simp only [Option.some.injEq] at he
    subst he
    exact ⟨rfl, rfl⟩
  | ok node =>
    simp only
    cases hV : runner.ResolveVMSS node with
    | error e =>
      refine ⟨[.ResolveNodeFromPod o.ns o.pod], .ResolveVMSS node,
        by simp only [List.append_assoc], by simp, ?_, ?_⟩
      · intro c hc
        simp only [List.mem_singleton] at hc
        subst hc
        exact ⟨rfl, (errorOf_ResolveNodeFromPod runner o.ns o.pod).2 node hN⟩
      · intro e1 he
        rw [(errorOf_ResolveVMSS runner node).1 e hV] at he
        simp only [Option.some.injEq] at he
        subst he
        exact ⟨rfl, rfl⟩
    | ok info =>
      refine ⟨[.ResolveNodeFromPod o.ns o.pod, .ResolveVMSS node], .RunCommand info _,
        by simp only [callAndPrint_calls, List.append_assoc, List.cons_append,
          List.nil_append]; rfl, by simp, ?_, ?_⟩
      · intro c hc
        simp only [List.mem_cons, List.mem_singleton, List.not_mem_nil, or_false] at hc
        rcases hc with rfl | rfl
        · exact ⟨rfl, (errorOf_ResolveNodeFromPod runner o.ns o.pod).2 node hN⟩
        · exact ⟨rfl, (errorOf_ResolveVMSS runner node).2 info hV⟩
      · intro e1 he
        exact callAndPrint_error runner info _ _ e1 he

/-- A traced run short-circuits. -/
theorem Traced.shortCircuits {runner : Runner} {s : RunState} {res : RunState × Option GoError}
    {n : Nat} (h : Traced runner s res n) : ShortCircuits runner s res := by
  obtain ⟨pre, last, hcalls, _, hpre, hlast⟩ := h
  exact shortCircuits_of runner s res pre last hcalls (fun c hc => (hpre c hc).2) hlast

/-- A traced run makes at most `n + 1` calls, lookups first. -/
theorem Traced.bound {runner : Runner} {s : RunState} {res : RunState × Option GoError}
    {n : Nat} (h : Traced runner s res n) :
    ∃ new : List Call, res.1.calls = s.calls ++ new ∧ new.length ≤ n + 1 ∧
      LookupsThenExecute new := by
  obtain ⟨pre, last, hcalls, hlen, hpre, _⟩ := h
  refine ⟨pre ++ [last], hcalls, by simp; omega, ?_⟩
  intro i c hi hc
  rcases Nat.lt_trichotomy i pre.length with hlt | heq | hgt
  · rw [List.getElem?_append_left hlt] at hi
    have := (hpre c (List.getElem?_mem hi)).1
    rw [hc] at this
    exact absurd this (by simp)
  · subst heq
    simp
  · rw [List.getElem?_append_right (Nat.le_of_lt hgt)] at hi
    have : i - pre.length = (i - pre.length - 1) + 1 := by omega
    rw [this] at hi
    simp at hi

/-! ## The commands: short-circuit, order and number of calls -/

/-- C15: in the `Run` of the run, exec, logs and cilium commands, for every
runner, a `Runner` call that fails is the last call made, its error is returned
as it is, and nothing is written on `Out`. -/
theorem commands_short_circuit (runner : Runner) (s : RunState) :
    (∀ o : runOptions, ShortCircuits runner s (o.Run runner s)) ∧
    (∀ o : execOptions, ShortCircuits runner s (o.Run runner s)) ∧
    (∀ o : logsOptions, ShortCircuits runner s (o.Run runner s)) ∧
    (∀ (quote : Str → Str) (o : ciliumOptions), ShortCircuits runner s (o.Run quote runner s)) :=
  ⟨fun o => (run_traced o runner s).shortCircuits,
   fun o => (exec_traced o runner s).shortCircuits,
   fun o => (logs_traced o runner s).shortCircuits,
   fun quote o => (cilium_traced quote o runner s).shortCircuits⟩

set_option maxRecDepth 100000 in
/-- Scenario F, by C15: logs on `nonexistent-pod`, with `ResolveNodeFromPod`
failing with `pod not found`, returns that error and writes nothing on `Out`;
the failed call is the second and last call. -/
theorem commands_short_circuit_witness :
    (logsOfPod.Run (mockRunner (some (.errorString "pod not found".toList))) ⟨[], [], []⟩).2 =
      some (.errorString "pod not found".toList) ∧
    (logsOfPod.Run (mockRunner (some (.errorString "pod not found".toList))) ⟨[], [], []⟩).1.Out =
      [] := by
  obtain ⟨new, hnew, h⟩ :=
    (commands_short_circuit (mockRunner (some (.errorString "pod not found".toList)))
      ⟨[], [], []⟩).2.2.1 logsOfPod
  have hcalls :
      (logsOfPod.Run (mockRunner (some (.errorString "pod not found".toList)))
        ⟨[], [], []⟩).1.calls =
      [.GetContainerName "kube-system".toList "nonexistent-pod".toList,
       .ResolveNodeFromPod "kube-system".toList "nonexistent-pod".toList] := by
    decide
  rw [hcalls] at hnew
  simp only [List.nil_append] at hnew
  subst hnew
  exact (h 1 (.ResolveNodeFromPod "kube-system".toList "nonexistent-pod".toList)
    (.errorString "pod not found".toList) rfl (by decide)).2

set_option maxRecDepth 100000 in
/-- C16 as stated fails: on a runner whose calls all succeed, the logs command
calls `GetContainerName` first and `ResolveNodeFromPod` second. -/
theorem logs_order_counterexample :
    (logsOfPod.Run (mockRunner none) ⟨[], [], []⟩).2 = none ∧
    (logsOfPod.Run (mockRunner none) ⟨[], [], []⟩).1.calls[0]? =
      some (.GetContainerName "kube-system".toList "nonexistent-pod".toList) ∧
    (logsOfPod.Run (mockRunner none) ⟨[], [], []⟩).1.calls[1]? =
      some (.ResolveNodeFromPod "kube-system".toList "nonexistent-pod".toList) := by
  decide

/-- C16, amended: in the `Run` of the logs command with a pod and no node, for
every runner whose calls all succeed, the calls are `GetContainerName`, then
`ResolveNodeFromPod`, then `ResolveVMSS` on the node found, then `RunCommand`
with the script built for the container found. -/
theorem logs_call_order (o : logsOptions) (runner : Runner) (s : RunState)
    (container node : Str) (info : NodeInfo) (result : CommandResult)
    (hpod : o.pod ≠ []) (hnode : o.node = [])
    (hC : runner.GetContainerName o.ns o.pod = .ok container)
    (hN : runner.ResolveNodeFromPod o.ns o.pod = .ok node)
    (hV : runner.ResolveVMSS node = .ok info)
    (hR : runner.RunCommand info (buildLogsScript container o.tail o.previous) = .ok result) :
    (o.Run runner s).1.calls =
      s.calls ++ [.GetContainerName o.ns o.pod, .ResolveNodeFromPod o.ns o.pod,
        .ResolveVMSS node, .RunCommand info (buildLogsScript container o.tail o.previous)] ∧
    (o.Run runner s).2 = none := by
  unfold logsOptions.Run logsOptions.resolve
  rw [if_pos hpod]
  simp only [hC, hnode, if_true, hN, hV]
  constructor
  · simp only [runAndPrint_calls, List.append_assoc, List.cons_append, List.nil_append]
  · unfold runAndPrint
    rw [hR]

set_option maxRecDepth 100000 in
/-- The four calls of the logs command on the mock of the integration tests,
in their order, by the amended C16. -/
theorem logs_call_order_witness :
    (logsOfPod.Run (mockRunner none) ⟨[], [], []⟩).1.calls =
      [.GetContainerName "kube-system".toList "nonexistent-pod".toList,
       .ResolveNodeFromPod "kube-system".toList "nonexistent-pod".toList,
       .ResolveVMSS "aks-nodepool1-12345678-vmss000000".toList,
       .RunCommand
         { Subscription := "00000000-0000-0000-0000-000000000000".toList,
           ResourceGroup := "MC_my-rg_my-aks_eastus".toList,
           VMSSName := "aks-nodepool1-12345678-vmss".toList,
           InstanceID := "0".toList }
         (buildLogsScript "cilium-agent".toList 0 false)] :=
  (logs_call_order logsOfPod (mockRunner none) ⟨[], [], []⟩ "cilium-agent".toList
    "aks-nodepool1-12345678-vmss000000".toList
    { Subscription := "00000000-0000-0000-0000-000000000000".toList,
      ResourceGroup := "MC_my-rg_my-aks_eastus".toList,
      VMSSName := "aks-nodepool1-12345678-vmss".toList,
      InstanceID := "0".toList }
    { Stdout := "fake log output".toList, Stderr := [] }
    (by decide) (by decide) (by decide) (by decide) (by decide) (by decide)).1

set_option maxRecDepth 100000 in
/-- C17 as stated fails: the run command on a pod makes three calls through the
runner, two lookups and one execute. -/
theorem call_count_counterexample :
    (runOnPod.Run (mockRunner none) ⟨[], [], []⟩).1.calls =
      [.ResolveNodeFromPod "kube-system".toList "cilium-abc123".toList,
       .ResolveVMSS "aks-nodepool1-12345678-vmss000000".toList,
       .RunCommand
         { Subscription := "00000000-0000-0000-0000-000000000000".toList,
           ResourceGroup := "MC_my-rg_my-aks_eastus".toList,
           VMSSName := "aks-nodepool1-12345678-vmss".toList,
           InstanceID := "0".toList } "uname -a".toList] ∧
    (runOnPod.Run (mockRunner none) ⟨[], [], []⟩).1.calls.length = 3 := by
  decide

/-- C17, amended: one `Run` of run, exec or logs makes its lookups first and
then at most one execute, `RunCommand`, as its last call; it makes at most two
calls when the node is given and no pod has to be resolved, at most three in
run and exec, and at most four in logs. -/
theorem commands_call_bound (runner : Runner) (s : RunState) :
    (∀ o : runOptions, ∃ new : List Call, (o.Run runner s).1.calls = s.calls ++ new ∧
      new.length ≤ (if o.pod = [] then 2 else 3) ∧ LookupsThenExecute new) ∧
    (∀ o : execOptions, ∃ new : List Call, (o.Run runner s).1.calls = s.calls ++ new ∧
      new.length ≤ (if o.pod ≠ [] ∧ o.node = [] then 3 else 2) ∧ LookupsThenExecute new) ∧
    (∀ o : logsOptions, ∃ new : List Call, (o.Run runner s).1.calls = s.calls ++ new ∧
      new.length ≤ (if o.pod = [] then 2 else if o.node = [] then 4 else 3) ∧
      LookupsThenExecute new) := by
  refine ⟨fun o => ?_, fun o => ?_, fun o => ?_⟩
  · obtain ⟨new, h1, h2, h3⟩ := (run_traced o runner s).bound
    refine ⟨new, h1, ?_, h3⟩
    split_ifs at h2 ⊢ <;> omega
  · obtain ⟨new, h1, h2, h3⟩ := (exec_traced o runner s).bound
    refine ⟨new, h1, ?_, h3⟩
    split_ifs at h2 ⊢ <;> omega
  · obtain ⟨new, h1, h2, h3⟩ := (logs_traced o runner s).bound
    refine ⟨new, h1, ?_, h3⟩
    split_ifs at h2 ⊢ <;> omega

/-! ## Lemmas on Split with a separator of one character -/

theorem Index_singleton_cons_self (c : Char) (t : Str) : Index (c :: t) [c] = some 0 := by
  unfold Index
  rw [if_pos (by simp [List.isPrefixOf])]

theorem Index_singleton_cons_ne (c y : Char) (t : Str) (h : y ≠ c) :
    Index (y :: t) [c] = (Index t [c]).map (· + 1) := by
  show (if [c].isPrefixOf (y :: t) then some 0 else (Index t [c]).map (· + 1)) = _
  rw [if_neg]
  simp only [List.isPrefixOf, Bool.and_true, beq_iff_eq]
  exact fun hc => h hc.symm

theorem Index_nil_singleton (c : Char) : Index [] [c] = none := by
  unfold Index
  rw [if_neg (by simp [List.isPrefixOf])]

/-- `Split` cuts at the first separator and goes on with what follows it. -/
theorem Split_unfold (s : Str) (c : Char) :
    Split s [c] =
      match Index s [c] with
      | none => [s]
      | some i => s.take i :: Split (s.drop (i + 1)) [c] := by
  cases s with
  | nil =>
    rw [Index_nil_singleton]
    rfl
  | cons y t =>
    show genSplit (t.length + 1) (y :: t) [c] = _
    simp only [genSplit]
    cases Index (y :: t) [c] with
    | none => rfl
    | some i =>
      simp only [List.length_singleton]
      rw [Split_eq_genSplit _ [c] (by simp) t.length (by
        rw [List.length_drop, List.length_cons]; omega)]

theorem Split_nil (c : Char) : Split [] [c] = [[]] := rfl

theorem Split_cons_self (c : Char) (t : Str) : Split (c :: t) [c] = [] :: Split t [c] := by
  rw [Split_unfold, Index_singleton_cons_self]
  rfl

theorem Split_cons_ne (c y : Char) (t : Str) (h : y ≠ c) :
    Split (y :: t) [c] = (y :: (Split t [c]).headD []) :: (Split t [c]).tail := by
  rw [Split_unfold (y :: t), Index_singleton_cons_ne c y t h, Split_unfold t]
  cases Index t [c] with
  | none => rfl
  | some i => rfl

theorem Split_ne_nil (s : Str) (c : Char) : Split s [c] ≠ [] := by
  rw [Split_unfold]
  cases Index s [c] <;> simp

/-- A text without the separator is one segment. -/
theorem Split_of_not_mem (c : Char) (s : Str) (h : c ∉ s) : Split s [c] = [s] := by
  induction s with
  | nil => rfl
  | cons y t ih =>
    have hy : y ≠ c := fun hc => h (by simp [hc])
    have ht : c ∉ t := fun hc => h (List.mem_cons_of_mem _ hc)
    rw [Split_cons_ne c y t hy, ih ht]
    rfl

/-- The segments of two texts joined by the separator are those of the first
followed by those of the second. -/
theorem Split_append_sep (c : Char) (s x : Str) :
    Split (s ++ c :: x) [c] = Split s [c] ++ Split x [c] := by
  induction s with
  | nil =>
    rw [List.nil_append, Split_cons_self, Split_nil]
    rfl
  | cons y t ih =>
    by_cases hy : y = c
    · subst hy
      rw [List.cons_append, Split_cons_self, Split_cons_self, ih]
      rfl
    · rw [List.cons_append, Split_cons_ne c y _ hy, Split_cons_ne c y t hy, ih]
      cases hs : Split t [c] with
      | nil => exact absurd hs (Split_ne_nil t c)
      | cons a l => rfl

/-- The first segment is followed in the text by the separator and by the text
of the other segments. -/
theorem Split_uncons (c : Char) (s a b : Str) (rest : List Str)
    (h : Split s [c] = a :: b :: rest) :
    ∃ t, s = a ++ c :: t ∧ Split t [c] = b :: rest := by
  induction s generalizing a with
  | nil =>
    rw [Split_nil] at h
    simp at h
  | cons y t ih =>
    by_cases hy : y = c
    · subst hy
      rw [Split_cons_self] at h
      simp only [List.cons.injEq] at h
      obtain ⟨ha, ht⟩ := h
      subst ha
      exact ⟨t, rfl, ht⟩
    · rw [Split_cons_ne c y t hy] at h
      cases hs : Split t [c] with
      | nil => exact absurd hs (Split_ne_nil t c)
      | cons a1 l =>
        rw [hs] at h
        simp only [List.headD_cons, List.tail_cons, List.cons.injEq] at h
        obtain ⟨ha, hl⟩ := h
        subst ha hl
        obtain ⟨t1, ht1, hs1⟩ := ih a1 hs
        exact ⟨t1, by rw [ht1]; rfl, hs1⟩

/-- A text starts with `azure://` exactly when its first two segments are
`azure:` and the empty segment, followed by at least one more. -/
theorem HasPrefix_azure_iff (s : Str) :
    HasPrefix s "azure://".toList = true ↔
      ∃ r rest, Split s "/".toList = "azure:".toList :: [] :: r :: rest := by
  constructor
  · intro h
    obtain ⟨t, ht⟩ := List.isPrefixOf_iff_prefix.mp h
    have hs : s = "azure:".toList ++ '/' :: ([] ++ '/' :: t) := by
      rw [← ht]
      rfl
    have h1 : Split "azure:".toList ['/'] = ["azure:".toList] :=
      Split_of_not_mem '/' _ (by decide)
    cases hst : Split t ['/'] with
    | nil => exact absurd hst (Split_ne_nil t '/')
    | cons r rest =>
      refine ⟨r, rest, ?_⟩
      show Split s ['/'] = _
      rw [hs, Split_append_sep, Split_append_sep, h1, Split_nil, hst]
      rfl
  · rintro ⟨r, rest, h⟩
    obtain ⟨t, ht, hst⟩ := Split_uncons '/' s _ _ _ h
    obtain ⟨u, hu, _⟩ := Split_uncons '/' t _ _ _ hst
    apply List.isPrefixOf_iff_prefix.mpr
    refine ⟨u, ?_⟩
    rw [ht, hu]
    rfl

/-! ## The loop of ParseProviderID as a walk over the segments -/

theorem lastAfter_eq_walkKey (parts : List Str) (key : Str) (rest : List Str) :
    ∀ (i : Nat) (v : Str), rest = parts.drop i →
      lastAfter parts key i rest v = walkKey key rest v := by
  induction rest with
  | nil => intro i v _; rfl
  | cons p rest ih =>
    intro i v hr
    have hrest : rest = parts.drop (i + 1) := by
      have := congrArg List.tail hr
      simpa [List.tail_drop] using this
    have hnext : parts[i + 1]? = rest.head? := by
      rw [hrest, List.head?_drop]
    simp only [lastAfter]
    rw [ih (i + 1) _ hrest, hnext]
    cases rest with
    | nil =>
      simp only [List.head?_nil, Option.getD_none, ite_self]
      rfl
    | cons q rest =>
      simp only [List.head?_cons, Option.getD_some]
      rfl

/-- The result of the loop of `ParseProviderID`, field by field. -/
theorem parseLoop_eq_walk (parts : List Str) :
    parseLoop parts 0 parts ⟨[], [], [], []⟩ =
      { Subscription := walkKey "subscriptions".toList parts []
        ResourceGroup := walkKey "resourcegroups".toList parts []
        VMSSName := walkKey "virtualmachinescalesets".toList parts []
        InstanceID := walkKey "virtualmachines".toList parts [] } := by
  obtain ⟨f1, f2, f3, f4⟩ := parseLoop_fields parts parts 0 ⟨[], [], [], []⟩
  rw [lastAfter_eq_walkKey parts _ parts 0 [] rfl] at f1 f2 f3 f4
  cases hq : parseLoop parts 0 parts ⟨[], [], [], []⟩
  rw [hq] at f1 f2 f3 f4
  simp only at f1 f2 f3 f4
  rw [f1, f2, f3, f4]

/-- `ParseProviderID` succeeds exactly when the prefix is there and the walk
leaves four non-empty values, which it returns. -/
theorem ParseProviderID_ok_iff (pid : Str) (info : NodeInfo) :
    ParseProviderID pid = .ok info ↔
      HasPrefix pid "azure://".toList = true ∧
      info =
        { Subscription := walkKey "subscriptions".toList (Split pid "/".toList) []
          ResourceGroup := walkKey "resourcegroups".toList (Split pid "/".toList) []
          VMSSName := walkKey "virtualmachinescalesets".toList (Split pid "/".toList) []
          InstanceID := walkKey "virtualmachines".toList (Split pid "/".toList) [] } ∧
      info.Complete := by
  unfold ParseProviderID
  by_cases h1 : HasPrefix pid "azure://".toList = true
  · rw [if_neg (by rw [h1]; simp)]
    dsimp only
    rw [parseLoop_eq_walk]
    simp only [h1, true_and]
    split_ifs with h2
    · constructor
      · intro h
        exact absurd h (by simp)
      · rintro ⟨rfl, hc⟩
        unfold NodeInfo.Complete at hc
        simp only at hc
        rcases h2 with h | h | h | h
        · exact absurd h hc.1
        · exact absurd h hc.2.1
        · exact absurd h hc.2.2.1
        · exact absurd h hc.2.2.2
    · constructor
      · intro h
        simp only [Except.ok.injEq] at h
        subst h
        simp only [not_or] at h2
        exact ⟨rfl, h2⟩
      · rintro ⟨rfl, _⟩
        rfl
  · have h1f : HasPrefix pid "azure://".toList = false := by
      rw [Bool.not_eq_true] at h1
      exact h1
    rw [if_pos (by rw [h1f]; rfl)]
    constructor
    · intro h
      exact absurd h (by simp)
    · rintro ⟨h, _⟩
      rw [h1f] at h
      exact absurd h (by simp)

theorem walkKey_of_no_match (key : Str) (ps : List Str) (h : ∀ p ∈ ps, ToLower p ≠ key) :
    ∀ v, walkKey key ps v = v := by
  induction ps with
  | nil => intro v; rfl
  | cons p ps ih =>
    intro v
    cases ps with
    | nil => rfl
    | cons q ps =>
      simp only [walkKey]
      rw [if_neg (h p (List.mem_cons_self _ _))]
      exact ih (fun x hx => h x (List.mem_cons_of_mem _ hx)) v

/-- A value of the walk is the starting value or one of the segments. -/
theorem walkKey_mem (key : Str) (ps : List Str) :
    ∀ v, walkKey key ps v = v ∨ walkKey key ps v ∈ ps := by
  induction ps with
  | nil => intro v; exact Or.inl rfl
  | cons p ps ih =>
    intro v
    cases ps with
    | nil => exact Or.inl rfl
    | cons q ps =>
      simp only [walkKey]
      rcases ih (if ToLower p = key then q else v) with h | h
      · rw [h]
        split_ifs
        · exact Or.inr (by simp)
        · exact Or.inl rfl
      · exact Or.inr (List.mem_cons_of_mem _ h)

theorem isKeySegment_of_ToLower_eq (p key : Str)
    (hkey : key ∈ ["subscriptions".toList, "resourcegroups".toList,
      "virtualmachinescalesets".toList, "virtualmachines".toList])
    (h : ToLower p = key) : isKeySegment p = true := by
  unfold isKeySegment
  rw [h]
  exact decide_eq_true hkey

theorem ToLower_ne_of_not_isKeySegment (p key : Str)
    (hkey : key ∈ ["subscriptions".toList, "resourcegroups".toList,
      "virtualmachinescalesets".toList, "virtualmachines".toList])
    (h : isKeySegment p = false) : ToLower p ≠ key := by
  intro hc
  rw [isKeySegment_of_ToLower_eq p key hkey hc] at h
  exact absurd h (by simp)

/-- Changing the case of key segments that are not values does not change the
walk. -/
theorem walkKey_caseVariant (key : Str)
    (hkey : key ∈ ["subscriptions".toList, "resourcegroups".toList,
      "virtualmachinescalesets".toList, "virtualmachines".toList])
    (ps : List Str) :
    ∀ (qs : List Str) (v : Str), caseVariant ps qs = true → noKeyAsValue ps = true →
      walkKey key qs v = walkKey key ps v := by
  induction ps with
  | nil =>
    intro qs v hv _
    cases qs with
    | nil => rfl
    | cons q qs => simp [caseVariant] at hv
  | cons p ps ih =>
    intro qs v hv hn
    cases qs with
    | nil => simp [caseVariant] at hv
    | cons q qs =>
      cases ps with
      | nil =>
        cases qs with
        | nil => rfl
        | cons q2 qs => simp [caseVariant] at hv
      | cons p2 ps =>
        cases qs with
        | nil => simp [caseVariant] at hv
        | cons q2 qs =>
          simp only [caseVariant, Bool.and_eq_true, Bool.or_eq_true, decide_eq_true_eq] at hv
          obtain ⟨hpq, hpq2, hrest⟩ := hv
          simp only [noKeyAsValue, Bool.and_eq_true, Bool.not_eq_true', Bool.and_eq_false_iff]
            at hn
          obtain ⟨hk, hn2⟩ := hn
          have hlow : ToLower q = ToLower p := by
            rcases hpq with h | h
            · rw [h]
            · exact h.2
          have htail : caseVariant (p2 :: ps) (q2 :: qs) = true := by
            simp only [caseVariant, Bool.and_eq_true, Bool.or_eq_true, decide_eq_true_eq]
            exact ⟨hpq2, hrest⟩
          simp only [walkKey]
          rw [hlow]
          by_cases hm : ToLower p = key
          · have hkp : isKeySegment p = true := isKeySegment_of_ToLower_eq p key hkey hm
            have hk2 : isKeySegment p2 = false := by
              rcases hk with h | h
              · rw [hkp] at h
                exact absurd h (by simp)
              · exact h
            have hq2 : q2 = p2 := by
              rcases hpq2 with h | h
              · exact h
              · rw [hk2] at h
                exact absurd h.1 (by simp)
            rw [if_pos hm, if_pos hm, hq2]
            rw [hq2] at htail
            exact ih (p2 :: qs) p2 htail hn2
          · rw [if_neg hm, if_neg hm]
            exact ih (q2 :: qs) v htail hn2

theorem isKeySegment_congr (p q : Str) (h : ToLower q = ToLower p) :
    isKeySegment q = isKeySegment p := by
  unfold isKeySegment
  rw [h]

/-- A segment related to a segment that is not a key is that segment. -/
theorem eq_of_variant (p q : Str)
    (h : (decide (q = p) || (isKeySegment p && decide (ToLower q = ToLower p))) = true)
    (hk : isKeySegment p = false ∨ isKeySegment q = false) : q = p := by
  simp only [Bool.or_eq_true, decide_eq_true_eq, Bool.and_eq_true] at h
  rcases h with h | ⟨h1, h2⟩
  · exact h
  · rw [isKeySegment_congr p q h2] at hk
    rw [h1] at hk
    simp at hk

theorem HasPrefix_of_caseVariant (pid other : Str)
    (hv : caseVariant (Split pid "/".toList) (Split other "/".toList) = true) :
    HasPrefix pid "azure://".toList = true ↔ HasPrefix other "azure://".toList = true := by
  rw [HasPrefix_azure_iff, HasPrefix_azure_iff]
  constructor
  · rintro ⟨r, rest, h⟩
    rw [h] at hv
    cases ho : Split other "/".toList with
    | nil => rw [ho] at hv; simp [caseVariant] at hv
    | cons q0 l0 =>
      cases l0 with
      | nil => rw [ho] at hv; simp [caseVariant] at hv
      | cons q1 l1 =>
        cases l1 with
        | nil => rw [ho] at hv; simp [caseVariant] at hv
        | cons q2 l2 =>
          rw [ho] at hv
          simp only [caseVariant, Bool.and_eq_true] at hv
          obtain ⟨h0, h1, _⟩ := hv
          have e0 := eq_of_variant _ _ h0 (Or.inl (by decide))
          have e1 := eq_of_variant _ _ h1 (Or.inl (by decide))
          exact ⟨q2, l2, by rw [e0, e1]⟩
  · rintro ⟨r, rest, h⟩
    rw [h] at hv
    cases ho : Split pid "/".toList with
    | nil => rw [ho] at hv; simp [caseVariant] at hv
    | cons p0 l0 =>
      cases l0 with
      | nil => rw [ho] at hv; simp [caseVariant] at hv
      | cons p1 l1 =>
        cases l1 with
        | nil => rw [ho] at hv; simp [caseVariant] at hv
        | cons p2 l2 =>
          rw [ho] at hv
          simp only [caseVariant, Bool.and_eq_true] at hv
          obtain ⟨h0, h1, _⟩ := hv
          have e0 := eq_of_variant _ _ h0 (Or.inr (by decide))
          have e1 := eq_of_variant _ _ h1 (Or.inr (by decide))
          exact ⟨p2, l2, by rw [← e0, ← e1]⟩

/-- A non-empty value of the walk that started empty is one of the segments. -/
theorem walkKey_mem_of_ne (key : Str) (ps : List Str) (h : walkKey key ps [] ≠ []) :
    walkKey key ps [] ∈ ps := by
  rcases walkKey_mem key ps [] with h1 | h1
  · exact absurd h1 h
  · exact h1

/-! ## The identity parser: case of the keys and appended segments -/

/-- C13: when the segments of `other` are those of `pid` with the letter case
of key segments changed, and in `pid` no key segment is the value of the key
before it, `ParseProviderID` succeeds on both or on none, with the same
coordinates; and every field it returns is one of the segments of its input,
unchanged. -/
theorem ParseProviderID_case_insensitive (pid other : Str)
    (hv : caseVariant (Split pid "/".toList) (Split other "/".toList) = true)
    (hn : noKeyAsValue (Split pid "/".toList) = true) :
    (∀ info, ParseProviderID pid = .ok info ↔ ParseProviderID other = .ok info) ∧
    (∀ info, ParseProviderID pid = .ok info →
      info.Subscription ∈ Split pid "/".toList ∧ info.ResourceGroup ∈ Split pid "/".toList ∧
      info.VMSSName ∈ Split pid "/".toList ∧ info.InstanceID ∈ Split pid "/".toList) := by
  constructor
  · intro info
    rw [ParseProviderID_ok_iff, ParseProviderID_ok_iff, HasPrefix_of_caseVariant pid other hv,
      walkKey_caseVariant _ (by decide) _ _ [] hv hn,
      walkKey_caseVariant _ (by decide) _ _ [] hv hn,
      walkKey_caseVariant _ (by decide) _ _ [] hv hn,
      walkKey_caseVariant _ (by decide) _ _ [] hv hn]
  · intro info h
    obtain ⟨_, hinfo, hc⟩ := (ParseProviderID_ok_iff pid info).mp h
    rw [hinfo] at hc ⊢
    obtain ⟨c1, c2, c3, c4⟩ := hc
    exact ⟨walkKey_mem_of_ne _ _ c1, walkKey_mem_of_ne _ _ c2, walkKey_mem_of_ne _ _ c3,
      walkKey_mem_of_ne _ _ c4⟩

set_option maxRecDepth 100000 in
/-- Scenario A with `SUBSCRIPTIONS` and `RESOURCEGROUPS` in capitals gives the
coordinates of Scenario A, by C13. -/
theorem ParseProviderID_case_insensitive_witness :
    ParseProviderID scenarioAUpper =
      .ok { Subscription := "00000000-0000-0000-0000-000000000000".toList,
            ResourceGroup := "MC_my-rg_my-aks_eastus".toList,
            VMSSName := "aks-nodepool1-12345678-vmss".toList,
            InstanceID := "0".toList } :=
  ((ParseProviderID_case_insensitive scenarioA scenarioAUpper (by decide) (by decide)).1
    { Subscription := "00000000-0000-0000-0000-000000000000".toList,
      ResourceGroup := "MC_my-rg_my-aks_eastus".toList,
      VMSSName := "aks-nodepool1-12345678-vmss".toList,
      InstanceID := "0".toList }).mp (by decide)

theorem Split_appendSegments (extras : List Str) (hex : ∀ x ∈ extras, '/' ∉ x) :
    ∀ pid : Str, Split (appendSegments pid extras) "/".toList = Split pid "/".toList ++ extras := by
  induction extras with
  | nil => intro pid; simp [appendSegments]
  | cons x extras ih =>
    intro pid
    have hx : '/' ∉ x := hex x (List.mem_cons_self _ _)
    have h := ih (fun y hy => hex y (List.mem_cons_of_mem _ hy)) (pid ++ '/' :: x)
    unfold appendSegments at h ⊢
    rw [List.foldl_cons, h]
    show Split (pid ++ '/' :: x) ['/'] ++ extras = Split pid ['/'] ++ x :: extras
    rw [Split_append_sep, Split_of_not_mem '/' x hx, List.append_assoc]
    rfl

theorem prefix_appendSegments (extras : List Str) :
    ∀ pid : Str, pid <+: appendSegments pid extras := by
  induction extras with
  | nil => intro pid; exact List.prefix_refl _
  | cons x extras ih =>
    intro pid
    unfold appendSegments
    rw [List.foldl_cons]
    exact (List.prefix_append pid _).trans (ih (pid ++ '/' :: x))

/-- Segments that do not match the key, appended after a last segment that
does not match it either, do not change the walk. -/
theorem walkKey_append (key : Str) (extras : List Str) (hex : ∀ x ∈ extras, ToLower x ≠ key)
    (ps : List Str) :
    ∀ v, (∀ p, ps.getLast? = some p → ToLower p ≠ key) →
      walkKey key (ps ++ extras) v = walkKey key ps v := by
  induction ps with
  | nil =>
    intro v _
    rw [List.nil_append, walkKey_of_no_match key extras hex]
    rfl
  | cons p ps ih =>
    intro v hlast
    cases ps with
    | nil =>
      have hp : ToLower p ≠ key := hlast p rfl
      cases extras with
      | nil => rfl
      | cons x extras =>
        show walkKey key (p :: x :: extras) v = v
        simp only [walkKey]
        rw [if_neg hp, walkKey_of_no_match key (x :: extras) hex]
    | cons q ps =>
      show walkKey key (p :: q :: (ps ++ extras)) v = walkKey key (p :: q :: ps) v
      simp only [walkKey]
      exact ih _ (fun r hr => hlast r (by rw [List.getLast?_cons_cons]; exact hr))

set_option maxRecDepth 100000 in
/-- C14 as stated fails: on an identity that ends with the key `subscriptions`
the appended segment `x` becomes the subscription. -/
theorem forward_compatibility_counterexample :
    ParseProviderID danglingKeyIdentity =
      .ok { Subscription := "a".toList, ResourceGroup := "b".toList, VMSSName := "c".toList,
            InstanceID := "d".toList } ∧
    isKeySegment "x".toList = false ∧
    ParseProviderID (appendSegments danglingKeyIdentity ["x".toList]) =
      .ok { Subscription := "x".toList, ResourceGroup := "b".toList, VMSSName := "c".toList,
            InstanceID := "d".toList } := by
  decide

/-- C14, amended: when `ParseProviderID` succeeds on `pid`, the last segment
of `pid` is not a key, and segments that are not keys are appended, each
preceded by `/`, `ParseProviderID` succeeds with the same four coordinates. -/
theorem ParseProviderID_appendSegments (pid : Str) (info : NodeInfo) (extras : List Str)
    (hok : ParseProviderID pid = .ok info)
    (hlast : ∀ p, (Split pid "/".toList).getLast? = some p → isKeySegment p = false)
    (hex : ∀ x ∈ extras, isKeySegment x = false ∧ '/' ∉ x) :
    ParseProviderID (appendSegments pid extras) = .ok info := by
  obtain ⟨hp, hinfo, hc⟩ := (ParseProviderID_ok_iff pid info).mp hok
  rw [ParseProviderID_ok_iff]
  refine ⟨?_, ?_, hc⟩
  · apply List.isPrefixOf_iff_prefix.mpr
    exact (List.isPrefixOf_iff_prefix.mp hp).trans (prefix_appendSegments extras pid)
  · rw [Split_appendSegments extras (fun x hx => (hex x hx).2) pid,
      walkKey_append _ extras
        (fun x hx => ToLower_ne_of_not_isKeySegment x _ (by decide) (hex x hx).1) _ []
        (fun p hl => ToLower_ne_of_not_isKeySegment p _ (by decide) (hlast p hl)),
      walkKey_append _ extras
        (fun x hx => ToLower_ne_of_not_isKeySegment x _ (by decide) (hex x hx).1) _ []
        (fun p hl => ToLower_ne_of_not_isKeySegment p _ (by decide) (hlast p hl)),
      walkKey_append _ extras
        (fun x hx => ToLower_ne_of_not_isKeySegment x _ (by decide) (hex x hx).1) _ []
        (fun p hl => ToLower_ne_of_not_isKeySegment p _ (by decide) (hlast p hl)),
      walkKey_append _ extras
        (fun x hx => ToLower_ne_of_not_isKeySegment x _ (by decide) (hex x hx).1) _ []
        (fun p hl => ToLower_ne_of_not_isKeySegment p _ (by decide) (hlast p hl))]
    exact hinfo

set_option maxRecDepth 100000 in
/-- Scenario A followed by `/extensions/monitor` gives the coordinates of
Scenario A, by the amended C14. -/
theorem ParseProviderID_appendSegments_witness :
    ParseProviderID (appendSegments scenarioA ["extensions".toList, "monitor".toList]) =
      .ok { Subscription := "00000000-0000-0000-0000-000000000000".toList,
            ResourceGroup := "MC_my-rg_my-aks_eastus".toList,
            VMSSName := "aks-nodepool1-12345678-vmss".toList,
            InstanceID := "0".toList } :=
  ParseProviderID_appendSegments scenarioA
    { Subscription := "00000000-0000-0000-0000-000000000000".toList,
      ResourceGroup := "MC_my-rg_my-aks_eastus".toList,
      VMSSName := "aks-nodepool1-12345678-vmss".toList,
      InstanceID := "0".toList }
    ["extensions".toList, "monitor".toList] (by decide) (by decide) (by decide)

/-! ## What a successful command prints -/

theorem callAndPrint_ok (runner : Runner) (info : NodeInfo) (script : Str) (s t : RunState)
    (h : callAndPrint runner info script s = (t, none)) :
    ∃ result, runner.RunCommand info script = .ok result ∧
      t.calls = s.calls ++ [.RunCommand info script] ∧
      t.Out = s.Out ++ lineOf result.Stdout ∧ t.ErrOut = s.ErrOut ++ lineOf result.Stderr := by
  unfold callAndPrint at h
  cases hr : runner.RunCommand info script with
  | error e => rw [hr] at h; simp at h
  | ok result =>
    rw [hr] at h
    refine ⟨result, rfl, ?_⟩
    simp only [Prod.mk.injEq, and_true] at h
    subst h
    unfold lineOf
    by_cases h1 : result.Stdout = [] <;> by_cases h2 : result.Stderr = [] <;> simp [h1, h2]

theorem runAndPrint_ok (runner : Runner) (info : NodeInfo) (script : Str) (s t : RunState)
    (h : runAndPrint runner info script s = (t, none)) :
    ∃ result, runner.RunCommand info script = .ok result ∧
      t.calls = s.calls ++ [.RunCommand info script] ∧
      t.Out = s.Out ++ lineOf result.Stdout ∧
      t.ErrOut = s.ErrOut ++ runningLine info ++ lineOf result.Stderr := by
  unfold runAndPrint at h
  cases hr : runner.RunCommand info script with
  | error e => rw [hr] at h; simp at h
  | ok result =>
    rw [hr] at h
    refine ⟨result, rfl, ?_⟩
    simp only [Prod.mk.injEq, and_true] at h
    subst h
    unfold lineOf runningLine
    by_cases h1 : result.Stdout = [] <;> by_cases h2 : result.Stderr = [] <;>
      simp [h1, h2, List.append_assoc]

/-- The result of `runAndPrint` after some lookups that wrote nothing. -/
theorem Printed_of_runAndPrint (runner : Runner) (info : NodeInfo) (script : Str)
    (s s1 t : RunState) (h : runAndPrint runner info script s1 = (t, none))
    (hOut : s1.Out = s.Out) (hErr : s1.ErrOut = s.ErrOut) :
    ∃ result, Printed runner s t info script result (runningLine info) := by
  obtain ⟨result, h1, h2, h3, h4⟩ := runAndPrint_ok runner info script s1 t h
  refine ⟨result, ?_, h1, ?_, ?_⟩
  · rw [h2]; simp
  · rw [h3, hOut]
  · rw [h4, hErr]

theorem run_printed (o : runOptions) (runner : Runner) (s t : RunState)
    (h : o.Run runner s = (t, none)) :
    ∃ info script result, Printed runner s t info script result (runningLine info) := by
  unfold runOptions.Run at h
  by_cases hp : o.pod = []
  · simp only [hp, ne_eq, not_true_eq_false, if_false] at h
    cases hv : runner.ResolveVMSS o.node with
    | error e => rw [hv] at h; simp at h
    | ok info =>
      rw [hv] at h
      simp only at h
      obtain ⟨result, hr⟩ := Printed_of_runAndPrint runner info _ s _ t h rfl rfl
      exact ⟨info, _, result, hr⟩
  · simp only [ne_eq, hp, not_false_eq_true, if_true] at h
    cases hn : runner.ResolveNodeFromPod o.ns o.pod with
    | error e => rw [hn] at h; simp at h
    | ok node =>
      rw [hn] at h
      simp only at h
      cases hv : runner.ResolveVMSS node with
      | error e => rw [hv] at h; simp at h
      | ok info =>
        rw [hv] at h
        simp only at h
        obtain ⟨result, hr⟩ := Printed_of_runAndPrint runner info _ s _ t h rfl rfl
        exact ⟨info, _, result, hr⟩

theorem exec_printed (o : execOptions) (runner : Runner) (s t : RunState)
    (h : o.Run runner s = (t, none)) :
    ∃ info script result, Printed runner s t info script result (runningLine info) := by
  unfold execOptions.Run at h
  by_cases hp : o.pod ≠ [] ∧ o.node = []
  · rw [if_pos hp] at h
    cases hn : runner.ResolveNodeFromPod o.ns o.pod with
    | error e => rw [hn] at h; simp at h
    | ok node =>
      rw [hn] at h
      simp only at h
      cases hv : runner.ResolveVMSS node with
      | error e => rw [hv] at h; simp at h
      | ok info =>
        rw [hv] at h
        simp only at h
        obtain ⟨result, hr⟩ := Printed_of_runAndPrint runner info _ s _ t h rfl rfl
        exact ⟨info, _, result, hr⟩
  · rw [if_neg hp] at h
    simp only at h
    cases hv : runner.ResolveVMSS o.node with
    | error e => rw [hv] at h; simp at h
    | ok info =>
      rw [hv] at h
      simp only at h
      obtain ⟨result, hr⟩ := Printed_of_runAndPrint runner info _ s _ t h rfl rfl
      exact ⟨info, _, result, hr⟩

/-- The lookups of the logs command write nothing. -/
theorem logs_resolve_streams (o : logsOptions) (runner : Runner) (s : RunState) :
    (o.resolve runner s).1.Out = s.Out ∧ (o.resolve runner s).1.ErrOut = s.ErrOut := by
  unfold logsOptions.resolve
  by_cases hp : o.pod = []
  · simp [hp]
  · simp only [ne_eq, hp, not_false_eq_true, if_true]
    cases runner.GetContainerName o.ns o.pod with
    | error e => exact ⟨rfl, rfl⟩
    | ok c =>
      by_cases hn : o.node = []
      · simp only [hn, if_true]
        cases runner.ResolveNodeFromPod o.ns o.pod <;> exact ⟨rfl, rfl⟩
      · simp [hn]

theorem logs_printed (o : logsOptions) (runner : Runner) (s t : RunState)
    (h : o.Run runner s = (t, none)) :
    ∃ info script result, Printed runner s t info script result (runningLine info) := by
  unfold logsOptions.Run at h
  obtain ⟨hO, hE⟩ := logs_resolve_streams o runner s
  cases hres : o.resolve runner s with
  | mk s1 r =>
    rw [hres] at h hO hE
    cases r with
    | error e => simp at h
    | ok nc =>
      obtain ⟨node, container⟩ := nc
      simp only at h
      cases hv : runner.ResolveVMSS node with
      | error e => rw [hv] at h; simp at h
      | ok info =>
        rw [hv] at h
        simp only at h
        obtain ⟨result, hr⟩ := Printed_of_runAndPrint runner info _ s _ t h hO hE
        exact ⟨info, _, result, hr⟩

theorem getPods_printed (o : getPodsOptions) (runner : Runner) (s t : RunState)
    (h : o.Run runner s = (t, none)) :
    ∃ info script result, Printed runner s t info script result (runningLine info) := by
  unfold getPodsOptions.Run at h
  cases hv : runner.ResolveVMSS o.node with
  | error e => rw [hv] at h; simp at h
  | ok info =>
    rw [hv] at h
    simp only at h
    obtain ⟨result, hr⟩ := Printed_of_runAndPrint runner info _ s _ t h rfl rfl
    exact ⟨info, _, result, hr⟩

theorem cilium_printed (quote : Str → Str) (o : ciliumOptions) (runner : Runner)
    (s t : RunState) (h : o.Run quote runner s = (t, none)) :
    ∃ node info script result, runner.ResolveNodeFromPod o.ns o.pod = .ok node ∧
      Printed runner s t info script result (ciliumProgress o node info) := by
  unfold ciliumOptions.Run at h
  cases hn : runner.ResolveNodeFromPod o.ns o.pod with
  | error e => rw [hn] at h; simp at h
  | ok node =>
    rw [hn] at h
    simp only at h
    cases hv : runner.ResolveVMSS node with
    | error e => rw [hv] at h; simp at h
    | ok info =>
      rw [hv] at h
      simp only at h
      obtain ⟨result, h1, h2, h3, h4⟩ := callAndPrint_ok runner info _ _ t h
      refine ⟨node, info, _, result, rfl, ?_, h1, ?_, ?_⟩
      · rw [h2]; simp
      · rw [h3]
      · rw [h4]
        unfold ciliumProgress
        simp only [List.append_assoc]

/-! ## The commands: what is printed -/

/-- C21: when the `Run` of a command (run, exec, logs, get pods, cilium)
succeeds, its last call is a `RunCommand` that returned a result, `Out` has
received the `Stdout` of that result followed by one newline, or nothing for an
empty `Stdout`, and `ErrOut` has received the progress line and then the
`Stderr` of the result followed by one newline, or nothing more for an empty
`Stderr`. -/
theorem commands_print_result (runner : Runner) (s t : RunState) :
    (∀ o : runOptions, o.Run runner s = (t, none) →
      ∃ info script result, Printed runner s t info script result (runningLine info)) ∧
    (∀ o : execOptions, o.Run runner s = (t, none) →
      ∃ info script result, Printed runner s t info script result (runningLine info)) ∧
    (∀ o : logsOptions, o.Run runner s = (t, none) →
      ∃ info script result, Printed runner s t info script result (runningLine info)) ∧
    (∀ o : getPodsOptions, o.Run runner s = (t, none) →
      ∃ info script result, Printed runner s t info script result (runningLine info)) ∧
    (∀ (quote : Str → Str) (o : ciliumOptions), o.Run quote runner s = (t, none) →
      ∃ node info script result, runner.ResolveNodeFromPod o.ns o.pod = .ok node ∧
        Printed runner s t info script result (ciliumProgress o node info)) :=
  ⟨fun o h => run_printed o runner s t h, fun o h => exec_printed o runner s t h,
    fun o h => logs_printed o runner s t h, fun o h => getPods_printed o runner s t h,
    fun quote o h => cilium_printed quote o runner s t h⟩

set_option maxRecDepth 100000 in
/-- The run of `TestIntegration_StderrOutput`, obtained from C21: the result
with `some output` and `a warning` puts the first on `Out` and the second,
after the progress line, on `ErrOut`. -/
theorem commands_print_result_witness :
    ∃ t, logsOfCilium.Run warningRunner startState = (t, none) ∧
      t.Out = "some output\n".toList ∧
      t.ErrOut = "Running on aks-nodepool1-12345678-vmss/0...\na warning\n".toList ∧
      ∃ info script result,
        Printed warningRunner startState t info script result (runningLine info) :=
  ⟨(logsOfCilium.Run warningRunner startState).1, by decide, by decide, by decide,
    (commands_print_result warningRunner startState _).2.2.1 logsOfCilium (by decide)⟩

/-! ## The commands: a node given directly -/

/-- The calls of `runAndPrint`: one `RunCommand`, which is no lookup. -/
theorem runAndPrint_rest (runner : Runner) (info : NodeInfo) (script : Str) (s : RunState)
    (pre : List Call) (c0 : Call) (hs : s.calls = pre ++ [c0]) :
    ∃ rest, (runAndPrint runner info script s).1.calls = pre ++ c0 :: rest ∧
      ∀ c ∈ rest, c.isLookup = false := by
  refine ⟨[.RunCommand info script], ?_, ?_⟩
  · rw [runAndPrint_calls, hs]; simp
  · intro c hc
    rw [List.mem_singleton] at hc
    subst hc
    rfl

/-- After `ResolveVMSS` on `node`, a command makes no lookup any more. -/
theorem calls_after_ResolveVMSS (runner : Runner) (node : Str) (script : NodeInfo → Str)
    (s : RunState) :
    ∃ rest,
      (match runner.ResolveVMSS node with
        | .error err => (({ s with calls := s.calls ++ [Call.ResolveVMSS node] }, some err) :
            RunState × Option GoError)
        | .ok info => runAndPrint runner info (script info)
            { s with calls := s.calls ++ [Call.ResolveVMSS node] }).1.calls =
        s.calls ++ Call.ResolveVMSS node :: rest ∧
      ∀ c ∈ rest, c.isLookup = false := by
  cases runner.ResolveVMSS node with
  | error e => exact ⟨[], rfl, fun c hc => absurd hc (List.not_mem_nil c)⟩
  | ok info => exact runAndPrint_rest runner info _ _ s.calls _ rfl

/-- C22: a node that is given directly is not looked up.  In the `Run` of exec
and of logs with a non-empty `--node`, and in the `Run` of run with an empty
pod, no `ResolveNodeFromPod` call is made: the first call is `ResolveVMSS` on
the node that was given, and what follows is no lookup.  In logs with a pod as
well, `GetContainerName` for the pod comes first; `ResolveVMSS` on the given
node is the next call, unless `GetContainerName` failed and ended the run. -/
theorem node_given_skips_lookup (runner : Runner) (s : RunState) :
    (∀ o : execOptions, o.node ≠ [] →
      ∃ rest, (o.Run runner s).1.calls = s.calls ++ .ResolveVMSS o.node :: rest ∧
        ∀ c ∈ rest, c.isLookup = false) ∧
    (∀ o : logsOptions, o.node ≠ [] → o.pod = [] →
      ∃ rest, (o.Run runner s).1.calls = s.calls ++ .ResolveVMSS o.node :: rest ∧
        ∀ c ∈ rest, c.isLookup = false) ∧
    (∀ o : logsOptions, o.node ≠ [] → o.pod ≠ [] →
      ((∃ e, runner.GetContainerName o.ns o.pod = .error e ∧
          o.Run runner s = ({ s with calls := s.calls ++ [.GetContainerName o.ns o.pod] },
            some e)) ∨
        ∃ rest, (o.Run runner s).1.calls =
            s.calls ++ .GetContainerName o.ns o.pod :: .ResolveVMSS o.node :: rest ∧
          ∀ c ∈ rest, c.isLookup = false)) ∧
    (∀ o : runOptions, o.pod = [] →
      ∃ rest, (o.Run runner s).1.calls = s.calls ++ .ResolveVMSS o.node :: rest ∧
        ∀ c ∈ rest, c.isLookup = false) := by
  refine ⟨fun o hn => ?_, fun o hn hp => ?_, fun o hn hp => ?_, fun o hp => ?_⟩
  · unfold execOptions.Run
    rw [if_neg (fun h => hn h.2)]
    exact calls_after_ResolveVMSS runner o.node _ s
  · unfold logsOptions.Run logsOptions.resolve
    rw [if_neg (by simp [hp])]
    exact calls_after_ResolveVMSS runner o.node _ s
  · unfold logsOptions.Run logsOptions.resolve
    rw [if_pos hp]
    cases hc : runner.GetContainerName o.ns o.pod with
    | error e => exact Or.inl ⟨e, rfl, rfl⟩
    | ok container =>
      right
      simp only [if_neg hn]
      obtain ⟨rest, h1, h2⟩ := calls_after_ResolveVMSS runner o.node
        (fun _ => buildLogsScript container o.tail o.previous)
        { s with calls := s.calls ++ [.GetContainerName o.ns o.pod] }
      refine ⟨rest, ?_, h2⟩
      simp only [List.append_assoc, List.singleton_append, List.cons_append,
        List.nil_append] at h1 ⊢
      exact h1
  · unfold runOptions.Run
    rw [if_neg (by simp [hp])]
    exact calls_after_ResolveVMSS runner o.node _ s

set_option maxRecDepth 100000 in
/-- The run of `TestIntegration_PodsLogsWithNode`, obtained from C22: with the
pod `cilium-abc123` and the node `my-specific-node`, the calls are
`GetContainerName`, `ResolveVMSS` on `my-specific-node` and `RunCommand`. -/
theorem node_given_skips_lookup_witness :
    (logsWithNode.Run (mockRunner none) startState).1.calls =
      [.GetContainerName "kube-system".toList "cilium-abc123".toList,
       .ResolveVMSS "my-specific-node".toList,
       .RunCommand
         { Subscription := "00000000-0000-0000-0000-000000000000".toList,
           ResourceGroup := "MC_my-rg_my-aks_eastus".toList,
           VMSSName := "aks-nodepool1-12345678-vmss".toList,
           InstanceID := "0".toList }
         (buildLogsScript "cilium-agent".toList 0 false)] ∧
    ((∃ e, (mockRunner none).GetContainerName logsWithNode.ns logsWithNode.pod = .error e ∧
        logsWithNode.Run (mockRunner none) startState =
          ({ startState with calls := startState.calls ++
              [.GetContainerName logsWithNode.ns logsWithNode.pod] }, some e)) ∨
      ∃ rest, (logsWithNode.Run (mockRunner none) startState).1.calls =
          startState.calls ++ .GetContainerName logsWithNode.ns logsWithNode.pod ::
            .ResolveVMSS logsWithNode.node :: rest ∧
        ∀ c ∈ rest, c.isLookup = false) :=
  ⟨by decide,
    (node_given_skips_lookup (mockRunner none) startState).2.2.1 logsWithNode (by decide)
      (by decide)⟩

/-! ## The run command: its arguments -/

/-- C23: the handler of the run command.  With `--pod` set, one positional
argument is the command, and any other number of arguments is an error;
without `--pod`, fewer than two arguments are an error, and otherwise the first
argument is the node and the second the command.  On such an error the handler
returns with no call made through the runner and nothing written. -/
theorem RunE_validates (o : runOptions) (args : List Str) (injected : Option Runner)
    (dflt : DefaultRunner) (s : RunState) :
    (o.pod ≠ [] → ∀ c, args = [c] →
      o.RunE args injected dflt s =
        ({ o with command := c } : runOptions).Run (injected.getD dflt.toRunner) s) ∧
    (o.pod ≠ [] → args.length ≠ 1 →
      o.RunE args injected dflt s =
        (s, some (.errorString
          "when using --pod, provide exactly one argument: the command".toList))) ∧
    (o.pod = [] → args.length < 2 →
      o.RunE args injected dflt s =
        (s, some (.errorString
          "requires <node> <command> (or use --pod <pod> <command>)".toList))) ∧
    (o.pod = [] → ∀ n c rest, args = n :: c :: rest →
      o.RunE args injected dflt s =
        ({ o with node := n, command := c } : runOptions).Run
          (injected.getD dflt.toRunner) s) := by
  refine ⟨fun hp c hc => ?_, fun hp hl => ?_, fun hp hl => ?_, fun hp n c rest hc => ?_⟩
  · subst hc
    unfold runOptions.RunE
    rw [if_pos hp, if_neg (by simp)]
    cases injected <;> rfl
  · unfold runOptions.RunE
    rw [if_pos hp, if_pos hl]
  · unfold runOptions.RunE
    rw [if_neg (by simp [hp]), if_pos hl]
  · subst hc
    unfold runOptions.RunE
    rw [if_neg (by simp [hp]), if_neg (by simp)]
    simp only [List.getElem?_cons_zero, List.getElem?_cons_succ]
    cases injected <;> rfl

set_option maxRecDepth 100000 in
/-- Two argument lists that the handler rejects, by C23: two arguments with
`--pod cilium-abc123`, and a node alone without `--pod`; no call is made. -/
theorem RunE_validates_witness :
    runOnPod.RunE ["aks-node-0".toList, "uname -a".toList] (some (mockRunner none))
        failingKubectlRunner startState =
      (startState, some (.errorString
        "when using --pod, provide exactly one argument: the command".toList)) ∧
    exampleOptions.RunE ["aks-node-0".toList] (some (mockRunner none))
        failingKubectlRunner startState =
      (startState, some (.errorString
        "requires <node> <command> (or use --pod <pod> <command>)".toList)) ∧
    runOnPod.RunE ["uname -a".toList] (some (mockRunner none)) failingKubectlRunner
        startState =
      runOnPod.Run (mockRunner none) startState :=
  ⟨(RunE_validates runOnPod _ _ _ _).2.1 (by decide) (by decide),
    (RunE_validates exampleOptions _ _ _ _).2.2.1 (by decide) (by decide),
    (RunE_validates runOnPod _ _ _ _).1 (by decide) _ rfl⟩

/-! ## The script of the logs command -/

/-- A text without the character `c` that occurs in `x ++ c :: y` occurs in `x`
or in `y`. -/
theorem occurs_of_append_sep (c : Char) (w x y : Str) (hc : c ∉ w)
    (h : w <:+: x ++ c :: y) : w <:+: x ∨ w <:+: y := by
  obtain ⟨s, t, hst⟩ := h
  rw [List.append_assoc, List.append_eq_append_iff] at hst
  rcases hst with ⟨a, hx, ha⟩ | ⟨b, hs, hb⟩
  · rw [List.append_eq_append_iff] at ha
    rcases ha with ⟨b, hw, _⟩ | ⟨b, ha2, hb2⟩
    · left
      exact ⟨s, b, by rw [hx, hw, List.append_assoc]⟩
    · cases b with
      | nil =>
        left
        rw [List.append_nil] at ha2
        rw [hx, ha2]
        exact ⟨s, [], by simp⟩
      | cons d b =>
        exfalso
        simp only [List.cons_append, List.cons.injEq] at hb2
        apply hc
        rw [ha2, hb2.1]
        simp
  · cases b with
    | nil =>
      cases w with
      | nil => left; exact List.nil_infix
      | cons d w =>
        exfalso
        simp only [List.nil_append, List.cons_append, List.cons.injEq] at hb
        apply hc
        rw [hb.1]
        simp
    | cons d b =>
      right
      simp only [List.cons_append, List.cons.injEq] at hb
      exact ⟨b, t, by rw [hb.2, List.append_assoc]⟩

set_option maxRecDepth 100000 in
/-- The script for a named container, a tail that is not positive and the
current instance, cut at the blanks and the quote around the container name. -/
theorem buildLogsScript_current (c : Str) (tail : Int) (hc : c ≠ []) (ht : tail ≤ 0) :
    buildLogsScript c tail false =
      "CID=$(crictl ps --name".toList ++ ' ' :: (c ++ ' ' ::
        ("-q | head -1); if [ -z \"$CID\" ]; then CID=$(crictl ps -a --name".toList ++ ' ' ::
          (c ++ ' ' ::
            ("-q | head -1); fi; if [ -z \"$CID\" ]; then echo 'No container found for".toList ++
              ' ' :: (c ++ '\'' :: " >&2; exit 1; fi; crictl logs $CID".toList))))) := by
  unfold buildLogsScript
  rw [if_pos hc, if_neg (show ¬ tail > 0 by omega)]
  simp only [Bool.false_eq_true, if_false, List.append_assoc]
  rfl

set_option maxRecDepth 100000 in
/-- The same for the previous instance. -/
theorem buildLogsScript_previous (c : Str) (tail : Int) (hc : c ≠ []) (ht : tail ≤ 0) :
    buildLogsScript c tail true =
      "RUNNING=$(crictl ps --name".toList ++ ' ' :: (c ++ ' ' ::
        ("-q | head -1); ALL=$(crictl ps -a --name".toList ++ ' ' ::
          (c ++ ' ' ::
            ("-q); if [ -n \"$RUNNING\" ]; then CID=$(echo \"$ALL\" | grep -v \"$RUNNING\" | head -1); else CID=$(echo \"$ALL\" | head -1); fi; if [ -z \"$CID\" ]; then echo 'No previous container found for".toList ++
              ' ' :: (c ++ '\'' :: " >&2; exit 1; fi; crictl logs $CID".toList))))) := by
  unfold buildLogsScript
  rw [if_pos hc, if_neg (show ¬ tail > 0 by omega)]
  simp only [if_true, List.append_assoc]
  rfl

set_option maxRecDepth 100000 in
/-- The fixed parts of the scripts hold no tail flag. -/
theorem fixed_parts_without_tail :
    Index "CID=$(crictl ps --name".toList "--tail=".toList = none ∧
    Index "-q | head -1); if [ -z \"$CID\" ]; then CID=$(crictl ps -a --name".toList
      "--tail=".toList = none ∧
    Index "-q | head -1); fi; if [ -z \"$CID\" ]; then echo 'No container found for".toList
      "--tail=".toList = none ∧
    Index " >&2; exit 1; fi; crictl logs $CID".toList "--tail=".toList = none ∧
    Index "RUNNING=$(crictl ps --name".toList "--tail=".toList = none ∧
    Index "-q | head -1); ALL=$(crictl ps -a --name".toList "--tail=".toList = none ∧
    Index "-q); if [ -n \"$RUNNING\" ]; then CID=$(echo \"$ALL\" | grep -v \"$RUNNING\" | head -1); else CID=$(echo \"$ALL\" | head -1); fi; if [ -z \"$CID\" ]; then echo 'No previous container found for".toList
      "--tail=".toList = none := by
  decide

/-- A text cut at separators that the flag does not contain holds the flag
only if one of its parts does. -/
theorem no_tail_of_parts (c p1 p2 p3 p4 : Str)
    (hc : ¬ "--tail=".toList <:+: c)
    (h1 : Index p1 "--tail=".toList = none) (h2 : Index p2 "--tail=".toList = none)
    (h3 : Index p3 "--tail=".toList = none) (h4 : Index p4 "--tail=".toList = none) :
    ¬ "--tail=".toList <:+:
      p1 ++ ' ' :: (c ++ ' ' :: (p2 ++ ' ' :: (c ++ ' ' :: (p3 ++ ' ' :: (c ++ '\'' :: p4))))) := by
  have hs : ' ' ∉ "--tail=".toList := by decide
  have hq : '\'' ∉ "--tail=".toList := by decide
  rw [Index_eq_none_iff] at h1 h2 h3 h4
  intro h
  rcases occurs_of_append_sep _ _ _ _ hs h with h | h
  · exact h1 h
  rcases occurs_of_append_sep _ _ _ _ hs h with h | h
  · exact hc h
  rcases occurs_of_append_sep _ _ _ _ hs h with h | h
  · exact h2 h
  rcases occurs_of_append_sep _ _ _ _ hs h with h | h
  · exact hc h
  rcases occurs_of_append_sep _ _ _ _ hs h with h | h
  · exact h3 h
  rcases occurs_of_append_sep _ _ _ _ hq h with h | h
  · exact hc h
  · exact h4 h

set_option maxRecDepth 100000 in
/-- Without a container name and without a positive tail, the script holds no
tail flag. -/
theorem buildLogsScript_unnamed (tail : Int) (previous : Bool) (ht : tail ≤ 0) :
    Index (buildLogsScript [] tail previous) "--tail=".toList = none := by
  unfold buildLogsScript
  rw [if_neg (show ¬ ([] : Str) ≠ [] by simp), if_neg (show ¬ tail > 0 by omega)]
  cases previous
  · simp only [Bool.false_eq_true, if_false]
    decide
  · simp only [if_true]
    decide

theorem suffix_append_left (x p y : Str) (h : x <:+ y) : x <:+ p ++ y :=
  h.trans (List.suffix_append p y)

/-- The script ends with the logs call, which holds the tail flag, if any. -/
theorem buildLogsScript_end (container : Str) (tail : Int) (previous : Bool) :
    ("crictl logs".toList ++ (if tail > 0 then " --tail=".toList ++ formatInt tail else []) ++
      " $CID".toList) <:+ buildLogsScript container tail previous := by
  unfold buildLogsScript
  have h1 : "crictl logs".toList <:+ "' >&2; exit 1; fi; crictl logs".toList := by decide
  obtain ⟨q, hq⟩ := h1
  rw [← hq]
  cases previous
  · simp only [Bool.false_eq_true, if_false, List.append_assoc]
    repeat (first | exact List.suffix_refl _ | apply suffix_append_left)
  · simp only [if_true, List.append_assoc]
    repeat (first | exact List.suffix_refl _ | apply suffix_append_left)

/-- C24: `buildLogsScript` adds a tail flag only for a positive tail.  For a
positive `tail` the script ends with `crictl logs --tail=`, the decimal digits
of `tail` and ` $CID`.  Otherwise it ends with `crictl logs $CID`, and it holds
no `--tail=` at all unless the container name holds one. -/
theorem buildLogsScript_tail (container : Str) (tail : Int) (previous : Bool) :
    (0 < tail →
      ("crictl logs --tail=".toList ++ Nat.toDigits 10 tail.toNat ++ " $CID".toList) <:+
        buildLogsScript container tail previous) ∧
    (tail ≤ 0 →
      "crictl logs $CID".toList <:+ buildLogsScript container tail previous ∧
      (¬ "--tail=".toList <:+: container →
        ¬ "--tail=".toList <:+: buildLogsScript container tail previous)) := by
  have hend := buildLogsScript_end container tail previous
  refine ⟨fun ht => ?_, fun ht => ⟨?_, fun hc => ?_⟩⟩
  · rw [if_pos ht] at hend
    have hf : formatInt tail = Nat.toDigits 10 tail.toNat := by
      unfold formatInt
      rw [if_neg (by omega)]
    rw [hf] at hend
    have he : "crictl logs --tail=".toList ++ Nat.toDigits 10 tail.toNat ++ " $CID".toList =
        "crictl logs".toList ++ (" --tail=".toList ++ Nat.toDigits 10 tail.toNat) ++
          " $CID".toList := by
      simp only [List.append_assoc]
      rfl
    rw [he]
    exact hend
  · rw [if_neg (by omega)] at hend
    exact hend
  · by_cases hn : container = []
    · subst hn
      exact (Index_eq_none_iff _ _).mp (buildLogsScript_unnamed tail previous ht)
    · obtain ⟨f1, f2, f3, f4, f5, f6, f7⟩ := fixed_parts_without_tail
      cases previous
      · rw [buildLogsScript_current container tail hn ht]
        exact no_tail_of_parts container _ _ _ _ hc f1 f2 f3 f4
      · rw [buildLogsScript_previous container tail hn ht]
        exact no_tail_of_parts container _ _ _ _ hc f5 f6 f7 f4

set_option maxRecDepth 100000 in
/-- The two examples of C24: a tail of 50 gives a script that ends with
`crictl logs --tail=50 $CID`, and a tail of 0 with the container `cilium-agent`
gives a script without `--tail=`. -/
theorem buildLogsScript_tail_witness :
    ("crictl logs --tail=".toList ++ Nat.toDigits 10 (50 : Int).toNat ++ " $CID".toList) <:+
        buildLogsScript "cilium-agent".toList 50 true ∧
    "crictl logs --tail=".toList ++ Nat.toDigits 10 (50 : Int).toNat ++ " $CID".toList =
      "crictl logs --tail=50 $CID".toList ∧
    ¬ "--tail=".toList <:+: buildLogsScript "cilium-agent".toList 0 false :=
  ⟨(buildLogsScript_tail "cilium-agent".toList 50 true).1 (by decide), by decide,
    ((buildLogsScript_tail "cilium-agent".toList 0 false).2 (by decide)).2
      ((Index_eq_none_iff _ _).mp (by decide))⟩

/-! ## The get pods command -/

set_option maxRecDepth 100000 in
/-- C25 at the node of the integration tests, on a runner whose calls all
succeed: the script that the `Run` of get pods passes to `RunCommand` is
`crictl ps -o table`, and `crictl ps -a -o table` with `--all`; neither holds
`crictl pods`, and the second starts with `crictl ps -a`. -/
theorem getPods_script_example :
    (getPodsOptions.Run
        { ns := "kube-system".toList, node := "aks-nodepool1-12345678-vmss000000".toList,
          allNs := false } (mockRunner none) startState).1.calls =
      [.ResolveVMSS "aks-nodepool1-12345678-vmss000000".toList,
       .RunCommand
         { Subscription := "00000000-0000-0000-0000-000000000000".toList,
           ResourceGroup := "MC_my-rg_my-aks_eastus".toList,
           VMSSName := "aks-nodepool1-12345678-vmss".toList,
           InstanceID := "0".toList } "crictl ps -o table".toList] ∧
    Index "crictl ps -o table".toList "crictl pods".toList = none ∧
    (getPodsOptions.Run
        { ns := "kube-system".toList, node := "aks-nodepool1-12345678-vmss000000".toList,
          allNs := true } (mockRunner none) startState).1.calls =
      [.ResolveVMSS "aks-nodepool1-12345678-vmss000000".toList,
       .RunCommand
         { Subscription := "00000000-0000-0000-0000-000000000000".toList,
           ResourceGroup := "MC_my-rg_my-aks_eastus".toList,
           VMSSName := "aks-nodepool1-12345678-vmss".toList,
           InstanceID := "0".toList } "crictl ps -a -o table".toList] ∧
    Index "crictl ps -a -o table".toList "crictl pods".toList = none ∧
    Index "crictl ps -a -o table".toList "crictl ps -a".toList = some 0 := by
  decide

/-! ## Repeated keys -/

/-- From index `i` on, matching segments without a successor leave the value
alone. -/
theorem lastAfter_of_no_successor (parts : List Str) (key : Str) :
    ∀ (rest : List Str) (i : Nat) (v : Str), rest = parts.drop i →
      (∀ j p, i ≤ j → parts[j]? = some p → ToLower p = key → parts[j + 1]? = none) →
      lastAfter parts key i rest v = v := by
  intro rest
  induction rest with
  | nil => intro i v _ _; rfl
  | cons p rest ih =>
    intro i v hr h
    have hp : parts[i]? = some p := by
      have := congrArg List.head? hr
      simpa [List.head?_drop] using this.symm
    have hrest : rest = parts.drop (i + 1) := by
      have := congrArg List.tail hr
      simpa [List.tail_drop] using this
    simp only [lastAfter]
    have hv : (if ToLower p = key then (parts[i + 1]?).getD v else v) = v := by
      by_cases hk : ToLower p = key
      · rw [if_pos hk, h i p (Nat.le_refl i) hp hk]
        rfl
      · rw [if_neg hk]
    rw [hv]
    exact ih (i + 1) v hrest (fun j q hj => h j q (by omega))

/-- With the key at index `i0`, followed by `w`, and later on only as a segment
without a successor, the loop ends with `w`. -/
theorem lastAfter_of_last (parts : List Str) (key : Str) (i0 : Nat) (w : Str)
    (hk : (parts[i0]?).map ToLower = some key)
    (hw : parts[i0 + 1]? = some w)
    (hl : ∀ j p, i0 < j → parts[j]? = some p → ToLower p = key → parts[j + 1]? = none) :
    ∀ (rest : List Str) (i : Nat) (v : Str), rest = parts.drop i → i ≤ i0 →
      lastAfter parts key i rest v = w := by
  intro rest
  induction rest with
  | nil =>
    intro i v hr hi
    exfalso
    have hlen : parts.length ≤ i := List.drop_eq_nil_iff.mp hr.symm
    have : parts[i0]? = none := List.getElem?_eq_none (by omega)
    rw [this] at hk
    simp at hk
  | cons p rest ih =>
    intro i v hr hi
    have hp : parts[i]? = some p := by
      have := congrArg List.head? hr
      simpa [List.head?_drop] using this.symm
    have hrest : rest = parts.drop (i + 1) := by
      have := congrArg List.tail hr
      simpa [List.tail_drop] using this
    simp only [lastAfter]
    by_cases hii : i = i0
    · subst hii
      rw [hp] at hk
      simp only [Option.map_some', Option.some.injEq] at hk
      rw [if_pos hk, hw, Option.getD_some]
      exact lastAfter_of_no_successor parts key rest (i + 1) w hrest
        (fun j q hj => hl j q (by omega))
    · exact ih (i + 1) _ hrest (by omega)

theorem lastAfter_of_KeyLastAt (parts : List Str) (key : Str) (i0 : Nat) (w v : Str)
    (h : KeyLastAt parts key i0 w) : lastAfter parts (ToLower key) 0 parts v = w := by
  obtain ⟨hk, hw, hl⟩ := h
  refine lastAfter_of_last parts (ToLower key) i0 w hk hw ?_ parts 0 v rfl (Nat.zero_le _)
  intro j p hj hp hpk
  have hlt : j < parts.length := by
    by_contra hc
    rw [List.getElem?_eq_none (by omega)] at hp
    exact absurd hp (by simp)
  have := hl j hlt hj (by rw [hp]; simp [hpk])
  exact List.getElem?_eq_none (by omega)

/-- The result of `ParseProviderID`, when there is one, is the result of its loop. -/
theorem ParseProviderID_eq_loop (pid : Str) (info : NodeInfo)
    (h : ParseProviderID pid = .ok info) :
    info = parseLoop (Split pid "/".toList) 0 (Split pid "/".toList) ⟨[], [], [], []⟩ := by
  unfold ParseProviderID at h
  by_cases h1 : (!HasPrefix pid "azure://".toList) = true
  · rw [if_pos h1] at h
    exact absurd h (by simp)
  · rw [if_neg h1] at h
    dsimp only at h
    split_ifs at h
    simp only [Except.ok.injEq] at h
    exact h.symm

/-- An empty field after the loop makes `ParseProviderID` fail. -/
theorem ParseProviderID_error_of_empty (pid : Str) (hpre : "azure://".toList <+: pid)
    (h : (parseLoop (Split pid "/".toList) 0 (Split pid "/".toList) ⟨[], [], [], []⟩).Subscription
          = [] ∨
        (parseLoop (Split pid "/".toList) 0 (Split pid "/".toList) ⟨[], [], [], []⟩).ResourceGroup
          = [] ∨
        (parseLoop (Split pid "/".toList) 0 (Split pid "/".toList) ⟨[], [], [], []⟩).VMSSName
          = [] ∨
        (parseLoop (Split pid "/".toList) 0 (Split pid "/".toList) ⟨[], [], [], []⟩).InstanceID
          = []) :
    ParseProviderID pid =
      .error (.errorString ("could not parse VMSS info from providerID: ".toList ++ pid)) := by
  have hp : HasPrefix pid "azure://".toList = true := List.isPrefixOf_iff_prefix.mpr hpre
  unfold ParseProviderID
  rw [if_neg (by rw [hp]; simp)]
  dsimp only
  rw [if_pos h]

/-- C26: repeated keys in `ParseProviderID`.  When a key occurs at an index
where a segment `v` follows it, and later on at most as the very last segment,
the loop leaves `v` in the field of the key: a later occurrence overwrites an
earlier one, and a key that is the very last segment changes nothing.  Hence a
successful parse has `v` in that field, and the parse fails when `v` is empty,
whatever an earlier occurrence was followed by. -/
theorem ParseProviderID_repeated_keys (pid : Str) (hpre : "azure://".toList <+: pid)
    (i : Nat) (v : Str) :
    (KeyLastAt (Split pid "/".toList) "subscriptions".toList i v →
      (parseLoop (Split pid "/".toList) 0 (Split pid "/".toList) ⟨[], [], [], []⟩).Subscription
        = v ∧
      (∀ info, ParseProviderID pid = .ok info → info.Subscription = v) ∧
      (v = [] → ParseProviderID pid =
        .error (.errorString ("could not parse VMSS info from providerID: ".toList ++ pid)))) ∧
    (KeyLastAt (Split pid "/".toList) "resourceGroups".toList i v →
      (parseLoop (Split pid "/".toList) 0 (Split pid "/".toList) ⟨[], [], [], []⟩).ResourceGroup
        = v ∧
      (∀ info, ParseProviderID pid = .ok info → info.ResourceGroup = v) ∧
      (v = [] → ParseProviderID pid =
        .error (.errorString ("could not parse VMSS info from providerID: ".toList ++ pid)))) ∧
    (KeyLastAt (Split pid "/".toList) "virtualMachineScaleSets".toList i v →
      (parseLoop (Split pid "/".toList) 0 (Split pid "/".toList) ⟨[], [], [], []⟩).VMSSName
        = v ∧
      (∀ info, ParseProviderID pid = .ok info → info.VMSSName = v) ∧
      (v = [] → ParseProviderID pid =
        .error (.errorString ("could not parse VMSS info from providerID: ".toList ++ pid)))) ∧
    (KeyLastAt (Split pid "/".toList) "virtualMachines".toList i v →
      (parseLoop (Split pid "/".toList) 0 (Split pid "/".toList) ⟨[], [], [], []⟩).InstanceID
        = v ∧
      (∀ info, ParseProviderID pid = .ok info → info.InstanceID = v) ∧
      (v = [] → ParseProviderID pid =
        .error (.errorString ("could not parse VMSS info from providerID: ".toList ++ pid)))) := by
  obtain ⟨f1, f2, f3, f4⟩ := parseLoop_fields (Split pid "/".toList) (Split pid "/".toList) 0
    ⟨[], [], [], []⟩
  have k1 : ToLower "subscriptions".toList = "subscriptions".toList := by decide
  have k2 : ToLower "resourceGroups".toList = "resourcegroups".toList := by decide
  have k3 : ToLower "virtualMachineScaleSets".toList = "virtualmachinescalesets".toList := by
    decide
  have k4 : ToLower "virtualMachines".toList = "virtualmachines".toList := by decide
  refine ⟨fun h => ?_, fun h => ?_, fun h => ?_, fun h => ?_⟩
  · have e := lastAfter_of_KeyLastAt _ _ _ _ [] h
    rw [k1] at e
    rw [e] at f1
    refine ⟨f1, fun info hok => ?_, fun hv => ?_⟩
    · rw [ParseProviderID_eq_loop pid info hok]; exact f1
    · exact ParseProviderID_error_of_empty pid hpre (Or.inl (f1.trans hv))
  · have e := lastAfter_of_KeyLastAt _ _ _ _ [] h
    rw [k2] at e
    rw [e] at f2
    refine ⟨f2, fun info hok => ?_, fun hv => ?_⟩
    · rw [ParseProviderID_eq_loop pid info hok]; exact f2
    · exact ParseProviderID_error_of_empty pid hpre (Or.inr (Or.inl (f2.trans hv)))
  · have e := lastAfter_of_KeyLastAt _ _ _ _ [] h
    rw [k3] at e
    rw [e] at f3
    refine ⟨f3, fun info hok => ?_, fun hv => ?_⟩
    · rw [ParseProviderID_eq_loop pid info hok]; exact f3
    · exact ParseProviderID_error_of_empty pid hpre (Or.inr (Or.inr (Or.inl (f3.trans hv))))
  · have e := lastAfter_of_KeyLastAt _ _ _ _ [] h
    rw [k4] at e
    rw [e] at f4
    refine ⟨f4, fun info hok => ?_, fun hv => ?_⟩
    · rw [ParseProviderID_eq_loop pid info hok]; exact f4
    · exact ParseProviderID_error_of_empty pid hpre (Or.inr (Or.inr (Or.inr (f4.trans hv))))

set_option maxRecDepth 100000 in
/-- Three identities with the key `subscriptions` twice, by C26: followed by an
empty segment the second time, the parse fails; as the very last segment the
second time, the first value `a` stays; followed by `e` the second time, the
field is `e`. -/
theorem ParseProviderID_repeated_keys_witness :
    ParseProviderID emptyRepeatIdentity =
      .error (.errorString
        ("could not parse VMSS info from providerID: ".toList ++ emptyRepeatIdentity)) ∧
    ParseProviderID danglingKeyIdentity =
      .ok { Subscription := "a".toList, ResourceGroup := "b".toList, VMSSName := "c".toList,
            InstanceID := "d".toList } ∧
    (∀ info, ParseProviderID danglingKeyIdentity = .ok info → info.Subscription = "a".toList) ∧
    ParseProviderID repeatIdentity =
      .ok { Subscription := "e".toList, ResourceGroup := "b".toList, VMSSName := "c".toList,
            InstanceID := "d".toList } ∧
    (∀ info, ParseProviderID repeatIdentity = .ok info → info.Subscription = "e".toList) :=
  ⟨((ParseProviderID_repeated_keys emptyRepeatIdentity (by decide) 11 []).1 (by decide)).2.2 rfl,
    by decide,
    ((ParseProviderID_repeated_keys danglingKeyIdentity (by decide) 3 "a".toList).1
      (by decide)).2.1,
    by decide,
    ((ParseProviderID_repeated_keys repeatIdentity (by decide) 11 "e".toList).1
      (by decide)).2.1⟩

/-! ## The output decoder: no panic, trimmed streams -/

/-- Where `Index` finds `sub`, there is room for it. -/
theorem Index_bound (s sub : Str) (i : Nat) (h : Index s sub = some i) :
    i + sub.length ≤ s.length := by
  obtain ⟨t, ht⟩ := (Index_spec s sub i h).1
  have hl := congrArg List.length ht
  simp only [List.length_append, List.length_drop] at hl
  by_cases hi : i ≤ s.length
  · omega
  · exfalso
    have hd : s.drop i = [] := List.drop_eq_nil_iff.mpr (by omega)
    have hs : sub = [] := by
      rw [hd] at ht
      exact (List.append_eq_nil.mp ht).1
    subst hs
    have hlt : ¬ ([] : Str) <+: s.drop s.length := (Index_spec s [] i h).2 s.length (by omega)
    exact hlt List.nil_prefix

/-- The slices of `stripStdout` are in range. -/
theorem stripStdout_some (msg : Str) : ∃ r, stripStdout msg = some r := by
  unfold stripStdout
  cases h1 : Index msg "[stdout]\n".toList with
  | some idx =>
    have := Index_bound _ _ _ h1
    simp only [sliceFrom]
    rw [if_pos this]
    exact ⟨_, rfl⟩
  | none =>
    simp only
    cases h2 : Index msg "[stdout]".toList with
    | some idx =>
      have := Index_bound _ _ _ h2
      simp only [sliceFrom]
      rw [if_pos this]
      exact ⟨_, rfl⟩
    | none => exact ⟨_, rfl⟩

/-- The split at the stderr marker has a first part. -/
theorem SplitN2_head (m : Str) : ∃ p0, (SplitN2 m "[stderr]".toList)[0]? = some p0 := by
  unfold SplitN2 genSplit
  cases Index m "[stderr]".toList with
  | none => exact ⟨_, rfl⟩
  | some i => exact ⟨_, rfl⟩

/-- The indices of `splitStreams` are in range. -/
theorem splitStreams_some (m : Str) : ∃ r, splitStreams m = some r := by
  cases hI : Index m "[stderr]".toList with
  | none =>
    exact ⟨_, splitStreams_of_no_marker m ((Index_eq_none_iff _ _).mp hI)⟩
  | some i =>
    have hparts : SplitN2 m "[stderr]".toList =
        [m.take i, m.drop (i + "[stderr]".toList.length)] := by
      unfold SplitN2 genSplit
      rw [hI]
      simp only [genSplit]
    unfold splitStreams
    rw [hparts]
    exact ⟨_, rfl⟩

/-- The decoding of a message never panics. -/
theorem decodeMessage_ok (msg : Str) : ∃ result, decodeMessage msg = .ok result := by
  obtain ⟨r, hr⟩ := stripStdout_some msg
  obtain ⟨res, hres⟩ := splitStreams_some r
  exact ⟨res, by unfold decodeMessage; rw [hr, Option.some_bind, hres]⟩

/-- C27: the decoding of the message is total and free of panics.  For every
raw text that unmarshals to an envelope with at least one element,
`parseRunCommandOutput` returns a result and no error; in its first message,
the end `idx + len(marker)` of a marker that `strings.Index` has found is
within the message, so both slice expressions are in range, and the split at
the stderr marker has a first part, whatever text is split. -/
theorem parseRunCommandOutput_total (raw : Str) (resp : runCommandResponse)
    (first : runCommandValue) (rest : List runCommandValue)
    (hraw : Unmarshal raw = .ok resp) (hfirst : resp.Value = first :: rest) :
    (∃ result, parseRunCommandOutput raw = .ok result) ∧
    (∀ marker idx, Index first.Message marker = some idx →
      idx + marker.length ≤ first.Message.length ∧
      sliceFrom first.Message (idx + marker.length) =
        some (first.Message.drop (idx + marker.length))) ∧
    (∀ m, ∃ p0, (SplitN2 m "[stderr]".toList)[0]? = some p0) := by
  refine ⟨?_, fun marker idx h => ?_, SplitN2_head⟩
  · rw [parseRunCommandOutput_of_first raw resp first rest hraw hfirst]
    exact decodeMessage_ok first.Message
  · have hb := Index_bound _ _ _ h
    exact ⟨hb, by unfold sliceFrom; rw [if_pos hb]⟩

set_option maxRecDepth 100000 in
/-- Two messages decoded by C27: one with the stderr marker first and the
stdout marker at its very end, and the empty message; both give two empty
streams. -/
theorem parseRunCommandOutput_total_witness :
    parseRunCommandOutput reversedMarkersEnvelope = .ok { Stdout := [], Stderr := [] } ∧
    (∃ result, parseRunCommandOutput reversedMarkersEnvelope = .ok result) ∧
    parseRunCommandOutput emptyMessageEnvelope = .ok { Stdout := [], Stderr := [] } ∧
    (∃ result, parseRunCommandOutput emptyMessageEnvelope = .ok result) :=
  ⟨by decide,
    (parseRunCommandOutput_total reversedMarkersEnvelope
      { Value := [{ Message := "[stderr]a[stdout]".toList }] }
      { Message := "[stderr]a[stdout]".toList } [] (by decide) rfl).1,
    by decide,
    (parseRunCommandOutput_total emptyMessageEnvelope { Value := [{ Message := [] }] }
      { Message := [] } [] (by decide) rfl).1⟩

/-- A trimmed text neither starts nor ends with white space. -/
theorem TrimSpace_ends (s : Str) :
    (∀ c, (TrimSpace s).head? = some c → isSpace c = false) ∧
    (∀ c, (TrimSpace s).getLast? = some c → isSpace c = false) := by
  unfold TrimSpace
  have key : ∀ hd, isSpace ((s.dropWhile isSpace).head hd) = false :=
    List.head_dropWhile_not isSpace s
  generalize s.dropWhile isSpace = d at key
  constructor
  · intro c hc
    have hpre : d.rdropWhile isSpace <+: d := List.rdropWhile_prefix isSpace d
    generalize d.rdropWhile isSpace = t at hpre hc
    cases t with
    | nil => simp at hc
    | cons a t =>
      obtain ⟨u, hu⟩ := hpre
      subst hu
      have := key (by simp)
      simp only [List.cons_append, List.head_cons] at this
      simp only [List.head?_cons, Option.some.injEq] at hc
      rw [← hc]
      exact this
  · intro c hc
    have hne : d.rdropWhile isSpace ≠ [] := by
      intro h
      rw [h] at hc
      simp at hc
    have hlast := List.rdropWhile_last_not isSpace d hne
    rw [List.getLast?_eq_getLast _ hne] at hc
    simp only [Option.some.injEq] at hc
    rw [← hc]
    simpa using hlast

/-- C28: in every result of `parseRunCommandOutput`, `Stdout` holds no stderr
marker, and `Stdout` and `Stderr` are trimmed: trimming either again returns it
unchanged, and neither starts or ends with a white space character. -/
theorem parseRunCommandOutput_trimmed (raw : Str) (result : CommandResult)
    (h : parseRunCommandOutput raw = .ok result) :
    ¬ "[stderr]".toList <:+: result.Stdout ∧
    TrimSpace result.Stdout = result.Stdout ∧ TrimSpace result.Stderr = result.Stderr ∧
    (∀ c, result.Stdout.head? = some c ∨ result.Stdout.getLast? = some c → isSpace c = false) ∧
    (∀ c, result.Stderr.head? = some c ∨ result.Stderr.getLast? = some c → isSpace c = false) := by
  obtain ⟨m, hm⟩ := exists_split_of_parseRunCommandOutput raw result h
  obtain ⟨so, se⟩ := result
  obtain ⟨h1, h2, h3⟩ := splitStreams_spec m so se hm
  refine ⟨h3, h1, h2, ?_, ?_⟩
  · intro c hc
    simp only at hc
    rw [← h1] at hc
    rcases hc with hc | hc
    · exact (TrimSpace_ends so).1 c hc
    · exact (TrimSpace_ends so).2 c hc
  · intro c hc
    simp only at hc
    rw [← h2] at hc
    rcases hc with hc | hc
    · exact (TrimSpace_ends se).1 c hc
    · exact (TrimSpace_ends se).2 c hc

set_option maxRecDepth 100000 in
/-- The message with two stderr markers, by C28: the second marker stays in
`Stderr`, `Stdout` holds none, and both are trimmed. -/
theorem parseRunCommandOutput_trimmed_witness :
    parseRunCommandOutput twoStderrEnvelope =
      .ok { Stdout := "out".toList, Stderr := "first[stderr]second".toList } ∧
    ¬ "[stderr]".toList <:+: "out".toList ∧
    TrimSpace "out".toList = "out".toList ∧
    TrimSpace "first[stderr]second".toList = "first[stderr]second".toList :=
  have h := parseRunCommandOutput_trimmed twoStderrEnvelope
    { Stdout := "out".toList, Stderr := "first[stderr]second".toList } (by decide)
  ⟨by decide, h.1, h.2.1, h.2.2.1⟩

end Vmss
